import Mathlib

/-! The uXen platform: guest drivers, device model and hypervisor control plane.

Shallow embedding of

* `vm-support/linux/uxenstor/stor.c` (`uxenstor_softirq`, `uxenstor_queuecommand`,
  `uxenstor_suspend_one`, `uxenstor_v4v_ring_init`),
* `vm-support/osx/uxennet/uxennet.cpp` (`uxen_net::outputPacket`,
  `uxen_net::processReceivedPackets`, `uxen_net::receivePacket`),
* `vm-support/linux/atto-agent/headctl.c` (the dirty rectangle accumulator),
* `xen/common/domctl.c` (`getdomaininfo`, `do_domctl`, `do_domctl_max_vcpus`),
* `dm/vbox-drivers/shared-folders/mappings-opts.c` (`is_path_prefixof`,
  `find_entry_for_path`, `state_save`, `state_load`),
* `dm/hw/uxen_display.c` (`crtc_flush`, `crtc_write`, `crtc_draw`, the register
  writes), and
* `vm-support/windows/uxenpatcher/patcher.c` (`pre_kmp`, `kmp`).

Calls into the v4v ring library, the SCSI mid-layer, the network stack and the
hypervisor are recorded as events of a trace; values the environment decides
(what a ring send returns, whether an allocation succeeds, what a lookup finds)
are explicit inputs.
-/

namespace Uxenstor

/-! ## Constants -/

/-- `#define V4V_STOR_RING_LEN (1 << 20)`. -/
def V4V_STOR_RING_LEN : Nat := 1 <<< 20

/-- `#define V4V_STOR_PORT_BASE 0xd0000`. -/
def V4V_STOR_PORT_BASE : Nat := 0xd0000

/-- `#define MAX_STACK_IOV 12`. -/
def MAX_STACK_IOV : Nat := 12

/-- `#define ROUNDUP_16(x) (((unsigned long)(x) + 0xf) & ~(unsigned long)0xf)`. -/
def ROUNDUP_16 (x : Nat) : Nat := ((x + 0xf) / 16) * 16

/-- `sizeof(XFER_HEADER)`: one `u64` and six `u32` fields, the flexible array
member `data[]` adds nothing. -/
def sizeof_XFER_HEADER : Nat := 8 + 6 * 4

/-- Linux `SCSI_SENSE_BUFFERSIZE` (scsi/scsi_cmnd.h). -/
def SCSI_SENSE_BUFFERSIZE : Nat := 96

/-- Linux host byte `DID_OK`. -/
def DID_OK : Nat := 0x00

/-- Linux host byte `DID_ERROR`. -/
def DID_ERROR : Nat := 0x07

/-- Linux driver byte `DRIVER_SENSE`. -/
def DRIVER_SENSE : Nat := 0x08

/-- Linux `SCSI_MLQUEUE_DEVICE_BUSY` (scsi/scsi.h). -/
def SCSI_MLQUEUE_DEVICE_BUSY : Int := 0x1056

/-- Linux errno values. -/
def EAGAIN : Int := 11

/-- Linux errno `ENOMEM`. -/
def ENOMEM : Int := 12

/-- Linux errno `EINVAL`. -/
def EINVAL : Int := 22

/-- Linux errno `ENOSPC`. -/
def ENOSPC : Int := 28

/-- Linux `ERESTARTSYS`. -/
def ERESTARTSYS : Int := 512

/-- C `INT_MAX` for a 32-bit `int`. -/
def INT_MAX : Nat := 2 ^ 31 - 1

/-- The C conversion `(int) x` of an unsigned value to a 32-bit `int`. -/
def to_int (x : Nat) : Int :=
  if x % 2 ^ 32 < 2 ^ 31 then ((x % 2 ^ 32 : Nat) : Int) else ((x % 2 ^ 32 : Nat) : Int) - 2 ^ 32

/-! ## Data model -/

/-- The fixed part of `struct _XFER_HEADER`; every field holds an unsigned value
of its C width. -/
structure XFER_HEADER where
  seq : Nat
  cdb_size : Nat
  write_size : Nat
  pagelist_size : Nat
  read_size : Nat
  sense_size : Nat
  status : Nat
deriving DecidableEq, Repr

/-- One entry of a scatter list: `sg_virt(sg)` and `sg->length`. -/
structure scatterlist where
  virt : Nat
  length : Nat
deriving DecidableEq, Repr

/-- The values of `sc->sc_data_direction` the driver distinguishes. -/
inductive dma_data_direction where
  | DMA_BIDIRECTIONAL
  | DMA_TO_DEVICE
  | DMA_FROM_DEVICE
  | DMA_NONE
deriving DecidableEq, Repr

/-- The fields of `struct scsi_cmnd` the driver reads or writes. `addr` is the
address of the command (its identity); `sense_buffer` tells whether the pointer
is non-NULL; `sglist` is the chain reachable from `scsi_sglist(sc)` (empty for a
NULL pointer) and `sg_count` is `scsi_sg_count(sc)`; `host_byte` and
`driver_byte` are the two bytes of `sc->result` written by `set_host_byte` and
`set_driver_byte`. -/
structure scsi_cmnd where
  addr : Nat
  cmd_len : Nat
  sc_data_direction : dma_data_direction
  sense_buffer : Bool
  bufflen : Nat
  sg_count : Nat
  sglist : List scatterlist
  host_byte : Nat
  driver_byte : Nat
deriving DecidableEq, Repr

/-- Kernel helper `set_host_byte(sc, status)`. -/
def set_host_byte (sc : scsi_cmnd) (status : Nat) : scsi_cmnd :=
  { sc with host_byte := status }

/-- Kernel helper `set_driver_byte(sc, status)`. -/
def set_driver_byte (sc : scsi_cmnd) (status : Nat) : scsi_cmnd :=
  { sc with driver_byte := status }

/-- A datagram waiting in the receive ring: its length in bytes and the header
its first `sizeof(XFER_HEADER)` bytes decode to (meaningful only when the
datagram is at least that long). -/
structure Dgram where
  len : Nat
  hdr : XFER_HEADER
deriving DecidableEq, Repr

/-- Destination buffer of a ring copy. -/
inductive Dest where
  | null
  | hdr
  | sense_buffer
  | sg (j : Nat)
deriving DecidableEq, Repr

/-- Calls the driver makes into its collaborators, in program order. -/
inductive Event where
  /-- The call `uxen_v4v_copy_out(ring, NULL, NULL, buf, buflen, consume)`. -/
  | copy_out (buf : Dest) (buflen : Nat) (consume : Bool)
  /-- The call `uxen_v4v_copy_out_offset(ring, NULL, NULL, buf, t, consume, skip)`. -/
  | copy_out_offset (buf : Dest) (t : Nat) (consume : Bool) (skip : Nat)
  /-- The call `sc->scsi_done(sc)`, with the command as it is at that moment. -/
  | scsi_done (sc : scsi_cmnd)
  /-- The call `wake_up(&uxstor->wq)`. -/
  | wake_up
  /-- The call `uxen_v4v_notify()`. -/
  | v4v_notify
  /-- The call `uxen_v4v_sendv_from_ring` with the header in `iov[0]` and the
  lengths of the `i` iov entries. -/
  | sendv (hdr : XFER_HEADER) (iov_len : List Nat)
  /-- The call `printk(KERN_ERR ...)`. -/
  | printk
  /-- The call `tasklet_schedule(&uxstor->tasklet)`. -/
  | tasklet_schedule
  /-- The call `uxen_v4v_ring_bind(port, domain, ring_len, uxenstor_irq, dev)`. -/
  | ring_bind (port : Nat) (ring_len : Nat)
deriving DecidableEq, Repr

/-! ## The kernel id allocator (`struct idr`) -/

/-- Contents of a `struct idr`: the id to pointer bindings and the cursor
`idr_next` of cyclic allocation. -/
structure idr where
  entries : List (Int × scsi_cmnd)
  idr_next : Nat
deriving DecidableEq, Repr

/-- Kernel `idr_find`: the pointer bound to `id`, or NULL. -/
def idr_find (m : idr) (id : Int) : Option scsi_cmnd :=
  m.entries.lookup id

/-- Kernel `idr_remove`: drop the binding of `id`. -/
def idr_remove (m : idr) (id : Int) : idr :=
  { m with entries := m.entries.filter (fun e => e.1 != id) }

/-- Kernel `idr_is_empty`. -/
def idr_is_empty (m : idr) : Bool :=
  m.entries.isEmpty

/-- Smallest id at or above `start` that is not bound, searching at most `fuel`
bound ids (the number of bindings is always enough). -/
def idr_get_free (keys : List Int) (start : Nat) : Nat → Nat
  | 0 => start
  | fuel + 1 => if (start : Int) ∈ keys then idr_get_free keys (start + 1) fuel else start

/-- Kernel `idr_alloc_u32(idr, ptr, &id, max, gfp)`: bind the smallest free id in
`[id, max]`. Returns the error (0, `-ENOSPC` when that range is fully occupied,
`-ENOMEM` when the node allocation fails, which `gfp_ok = false` stands for),
the id and the new contents. -/
def idr_alloc_u32 (m : idr) (ptr : scsi_cmnd) (id max : Nat) (gfp_ok : Bool) :
    Int × Nat × idr :=
  let slot := idr_get_free (m.entries.map Prod.fst) id m.entries.length
  if slot > max then (-ENOSPC, id, m)
  else if !gfp_ok then (-ENOMEM, id, m)
  else (0, slot, { m with entries := ((slot : Int), ptr) :: m.entries })

/-- Kernel `idr_alloc_cyclic(idr, ptr, start, end, gfp)`: allocate from the
cursor upwards and wrap around to `start` once; returns the new id or a negative
errno, and the new contents. -/
def idr_alloc_cyclic (m : idr) (ptr : scsi_cmnd) (start end_ : Int) (gfp_ok : Bool) :
    Int × idr :=
  let max : Nat := if end_ > 0 then (end_ - 1).toNat else INT_MAX
  let id : Nat := if to_int m.idr_next < start then start.toNat else m.idr_next
  let r1 := idr_alloc_u32 m ptr id max gfp_ok
  let r2 := if r1.1 = -ENOSPC ∧ (id : Int) > start then idr_alloc_u32 m ptr start.toNat max gfp_ok
            else r1
  if r2.1 ≠ 0 then (r2.1, m)
  else ((r2.2.1 : Int), { r2.2.2 with idr_next := r2.2.1 + 1 })

/-! ## `uxenstor_softirq` -/

/-- The fields of `struct uxenstor_dev` the modelled functions use. `recv_ring`
is `none` for a NULL pointer and otherwise the datagrams waiting in the bound
ring, oldest first; `requests_blocked` records `scsi_block_requests` on `shost`
and `tasklet_disabled` counts `tasklet_disable` on `tasklet`. -/
structure uxenstor_dev where
  host_id : Nat
  recv_ring : Option (List Dgram)
  seq_map : idr
  requests_blocked : Bool
  tasklet_disabled : Nat
deriving DecidableEq, Repr

/-- The loop `scsi_for_each_sg(sc, sg, sg_count, j)` of lines 143-157 over the
remaining entries `sgs`, entry index `j`, with the locals `copied` and `buflen`:
the ring copies it issues. -/
def softirq_sg_loop : List scatterlist → Nat → Nat → Nat → List Event
  | [], _, _, _ => []
  | sg :: rest, j, copied, buflen =>
    if buflen = 0 then []
    else
      let to_read := if sg.length > buflen then buflen else sg.length
      Event.copy_out_offset (Dest.sg j) (sizeof_XFER_HEADER + copied + to_read) false
          (sizeof_XFER_HEADER + copied)
        :: softirq_sg_loop rest (j + 1) (copied + to_read) (buflen - to_read)

/-- Lines 111-174 of `uxenstor_softirq`: what is done for a reply header `hdr`
whose command `sc` was found, up to the label `sc_done`. Returns the command
with its result bytes set and the calls made. -/
def softirq_reply (hdr : XFER_HEADER) (sc : scsi_cmnd) : scsi_cmnd × List Event :=
  if hdr.sense_size > 0 then
    if sc.sense_buffer ∧ hdr.sense_size ≤ SCSI_SENSE_BUFFERSIZE then
      (set_host_byte (set_driver_byte sc DRIVER_SENSE) DID_ERROR,
        [Event.copy_out_offset Dest.sense_buffer (sizeof_XFER_HEADER + hdr.sense_size) false
          sizeof_XFER_HEADER])
    else (set_host_byte sc DID_ERROR, [])
  else if hdr.read_size > 0 then
    if hdr.read_size > sc.bufflen then (set_host_byte sc DID_ERROR, [Event.printk])
    else
      let buflen := hdr.read_size
      if sc.sg_count ≠ 0 then
        (set_host_byte sc DID_OK, softirq_sg_loop (sc.sglist.take sc.sg_count) 0 0 buflen)
      else
        match sc.sglist with
        | sg :: _ =>
          if buflen ≠ 0 then
            let to_read := if sg.length > buflen then buflen else sg.length
            (set_host_byte sc DID_OK,
              [Event.copy_out_offset (Dest.sg 0) (sizeof_XFER_HEADER + 0 + to_read) false
                (sizeof_XFER_HEADER + 0)])
          else (set_host_byte sc DID_OK, [])
        | [] => (set_host_byte sc DID_OK, [])
  else (set_host_byte sc DID_OK, [])

/-- Outcome of one pass through the body of the `while` loop. `bug` is set when
`BUG_ON(!sc)` fired, which ends execution there. -/
structure IterResult where
  seq_map : idr
  readlen : Nat
  events : List Event
  bug : Bool
deriving DecidableEq, Repr

/-- One pass through the loop body (lines 94-186) with datagram `d` at the head
of the ring: peek at the header, look the command up, handle the reply, and at
`sc_done` consume the datagram and complete the command. -/
def softirq_iter (d : Dgram) (seq_map : idr) (readlen : Nat) : IterResult :=
  let peek := Event.copy_out Dest.hdr sizeof_XFER_HEADER false
  let consume := Event.copy_out Dest.null 0 true
  let readlen1 := if d.len > 0 then readlen + d.len else readlen
  if d.len < sizeof_XFER_HEADER then
    { seq_map := seq_map, readlen := readlen1,
      events := [peek, Event.printk, consume], bug := false }
  else
    let req_id := to_int d.hdr.seq
    match idr_find seq_map req_id with
    | none => { seq_map := seq_map, readlen := readlen, events := [peek], bug := true }
    | some sc =>
      let r := softirq_reply d.hdr sc
      { seq_map := idr_remove seq_map req_id, readlen := readlen1,
        events := [peek] ++ r.2 ++ [consume, Event.scsi_done r.1, Event.wake_up],
        bug := false }

/-- State in which the `while` loop of `uxenstor_softirq` ends: the datagrams
left in the ring, the id map, `readlen`, the calls made, and whether it ended in
`BUG_ON`. -/
structure LoopResult where
  ring : List Dgram
  seq_map : idr
  readlen : Nat
  events : List Event
  bug : Bool
deriving DecidableEq, Repr

/-- The loop `while (readlen <= V4V_STOR_RING_LEN)` of lines 93-187. On an empty
ring the peek returns a negative length and the loop breaks. -/
def softirq_loop : List Dgram → idr → Nat → LoopResult
  | [], seq_map, readlen =>
    { ring := [], seq_map := seq_map, readlen := readlen,
      events := if readlen ≤ V4V_STOR_RING_LEN
                then [Event.copy_out Dest.hdr sizeof_XFER_HEADER false] else [],
      bug := false }
  | d :: rest, seq_map, readlen =>
    if readlen ≤ V4V_STOR_RING_LEN then
      let it := softirq_iter d seq_map readlen
      if it.bug then
        { ring := d :: rest, seq_map := it.seq_map, readlen := it.readlen,
          events := it.events, bug := true }
      else
        let r := softirq_loop rest it.seq_map it.readlen
        { r with events := it.events ++ r.events }
    else
      { ring := d :: rest, seq_map := seq_map, readlen := readlen, events := [], bug := false }

/-- The tasklet `uxenstor_softirq`: returns the device afterwards, the calls made
and whether it ended in `BUG_ON`. -/
def uxenstor_softirq (uxstor : uxenstor_dev) : uxenstor_dev × List Event × Bool :=
  match uxstor.recv_ring with
  | none => (uxstor, [], false)
  | some ring =>
    let r := softirq_loop ring uxstor.seq_map 0
    ({ uxstor with recv_ring := some r.ring, seq_map := r.seq_map },
      if r.bug then r.events
      else if r.readlen ≠ 0 then r.events ++ [Event.v4v_notify] else r.events,
      r.bug)

/-! ## `uxenstor_queuecommand` -/

/-- What the environment decides during one `uxenstor_queuecommand` call:
whether `kmalloc` of a large iov array succeeds, whether the id allocator gets
its memory (`GFP_NOWAIT`), and the value `uxen_v4v_sendv_from_ring` returns. -/
structure QueueEnv where
  kmalloc_ok : Bool
  idr_gfp_ok : Bool
  sendv_ret : Int
deriving DecidableEq, Repr

/-- Lines 283-298: the request header before its `seq` is filled in. -/
def queuecommand_hdr (sc : scsi_cmnd) : XFER_HEADER :=
  { seq := 0, cdb_size := sc.cmd_len,
    write_size := if sc.sc_data_direction = dma_data_direction.DMA_TO_DEVICE
                  then sc.bufflen else 0,
    pagelist_size := 0,
    read_size := if sc.sc_data_direction = dma_data_direction.DMA_FROM_DEVICE
                 then sc.bufflen else 0,
    sense_size := SCSI_SENSE_BUFFERSIZE, status := 0 }

/-- Lines 307-318: the lengths of the iov entries `iov[1..i)` built from the
scatter list of a `DMA_TO_DEVICE` command. -/
def queuecommand_iov (sc : scsi_cmnd) : List Nat :=
  if sc.sc_data_direction = dma_data_direction.DMA_TO_DEVICE then
    if sc.sg_count ≠ 0 then (sc.sglist.take sc.sg_count).map scatterlist.length
    else
      match sc.sglist with
      | sg :: _ => [sg.length]
      | [] => []
  else []

/-- The function `uxenstor_queuecommand(sh, sc)`, with `uxstor = shost_priv(sh)`
(`none` for NULL). Returns the `int` result, the device afterwards and the calls
made. -/
def uxenstor_queuecommand (uxstor : Option uxenstor_dev) (sc : scsi_cmnd) (env : QueueEnv) :
    Int × Option uxenstor_dev × List Event :=
  match uxstor with
  | none => (-EINVAL, none, [])
  | some dev =>
    match dev.recv_ring with
    | none => (-EINVAL, some dev, [])
    | some _ =>
      let hdr := queuecommand_hdr sc
      let req_size := ROUNDUP_16 (sizeof_XFER_HEADER + sc.cmd_len)
      if sc.sc_data_direction = dma_data_direction.DMA_TO_DEVICE ∧
          sc.sg_count + 2 > MAX_STACK_IOV ∧ env.kmalloc_ok = false then
        (-ENOMEM, some dev, [])
      else
        let a := idr_alloc_cyclic dev.seq_map sc 0 0 env.idr_gfp_ok
        if a.1 < 0 then (a.1, some { dev with seq_map := a.2 }, [])
        else
          let req_id : Nat := a.1.toNat % 2 ^ 32
          let send := Event.sendv { hdr with seq := req_id } (req_size :: queuecommand_iov sc)
          if env.sendv_ret < 0 then
            (if env.sendv_ret = -EAGAIN then SCSI_MLQUEUE_DEVICE_BUSY else env.sendv_ret,
              some { dev with seq_map := idr_remove a.2 (req_id : Int) },
              [send, Event.printk])
          else (0, some { dev with seq_map := a.2 }, [send])

/-! ## Suspend -/

/-- The function `uxenstor_has_pending`. -/
def uxenstor_has_pending (uxstor : uxenstor_dev) : Bool :=
  !(idr_is_empty uxstor.seq_map)

/-- What can happen while `uxenstor_suspend_one` sleeps on `uxstor->wq`: the
interrupt schedules the tasklet with the datagrams `dgrams` added to the receive
ring, or a signal becomes pending for the sleeping task. -/
inductive WaitEvent where
  | irq (dgrams : List Dgram)
  | signal
deriving DecidableEq, Repr

/-- Kernel `wait_event_interruptible(uxstor->wq, !uxenstor_has_pending(uxstor))`
against the happenings `evs`: 0 once the condition holds, `-ERESTARTSYS` when a
signal is pending while it does not hold, and `none` when the task is never
woken again (or the tasklet died in `BUG_ON`). -/
def wait_event_interruptible : List WaitEvent → uxenstor_dev → Bool → Option (Int × uxenstor_dev)
  | evs, uxstor, signal_pending =>
    if uxenstor_has_pending uxstor = false then some (0, uxstor)
    else if signal_pending then some (-ERESTARTSYS, uxstor)
    else
      match evs with
      | [] => none
      | WaitEvent.signal :: rest => wait_event_interruptible rest uxstor true
      | WaitEvent.irq dgrams :: rest =>
        let r := uxenstor_softirq
          { uxstor with recv_ring := uxstor.recv_ring.map (fun ring => ring ++ dgrams) }
        if r.2.2 then none else wait_event_interruptible rest r.1 false

/-- The function `uxenstor_suspend_one` against the happenings `evs` during its
wait: the return value and the device afterwards, `none` when it never
returns. -/
def uxenstor_suspend_one (uxstor : uxenstor_dev) (evs : List WaitEvent) :
    Option (Int × uxenstor_dev) :=
  let blocked := { uxstor with requests_blocked := true }
  match wait_event_interruptible evs blocked false with
  | none => none
  | some (_, woken) => some (0, { woken with tasklet_disabled := woken.tasklet_disabled + 1 })

end Uxenstor

namespace UxenNet

/-! ## `uxen_net` (OS X network front end) -/

/-- IOKit `kIOReturnOutputSuccess`. -/
def kIOReturnOutputSuccess : Nat := 0

/-- IOKit `kIOReturnOutputDropped`. -/
def kIOReturnOutputDropped : Nat := 1

/-- IOKit `kIOReturnOutputStall`. -/
def kIOReturnOutputStall : Nat := 2

/-- Darwin errno `EAGAIN` (sys/errno.h). -/
def EAGAIN : Int := 35

/-- One mbuf of a chain: `mbuf_data` and `mbuf_len`. -/
structure mbuf where
  data : Nat
  len : Nat
deriving DecidableEq, Repr

/-- An `mbuf_t`: the chain linked by `mbuf_next`, empty for `nullptr`. -/
abbrev mbuf_t := List mbuf

/-- A `v4v_iov_t`. -/
structure v4v_iov_t where
  iov_base : Nat
  iov_len : Nat
deriving DecidableEq, Repr

/-- Calls `uxen_net` makes into the v4v service and the network stack, in
program order. -/
inductive Event where
  /-- The call `v4v_service->sendvOnRing(ring, dest, net_packet, num_bufs)`. -/
  | sendvOnRing (net_packet : List v4v_iov_t) (num_bufs : Nat)
  /-- The call `freePacket(packet)`. -/
  | freePacket (packet : mbuf_t)
  /-- The call `IOLog(...)`. -/
  | IOLog
  /-- The call `v4v_service->receiveFromRing(ring, nullptr, 0, consume)`. -/
  | receiveFromRing (consume : Bool)
  /-- The call `allocatePacket(msg_size)`. -/
  | allocatePacket (msg_size : Nat)
  /-- The call `v4v_copy_out_offset(ring, nullptr, nullptr, buf, t, consume, skip)`. -/
  | v4v_copy_out_offset (buf : Nat) (t : Nat) (consume : Bool) (skip : Nat)
  /-- The call `interface->inputPacket(packet, msg_size, kInputOptionQueuePacket)`. -/
  | inputPacket (packet : mbuf_t) (msg_size : Nat)
  /-- The call `interface->flushInputQueue()`. -/
  | flushInputQueue
  /-- The call `v4v_service->notify()`. -/
  | notify
deriving DecidableEq, Repr

/-- The method `uxen_net::outputPacket(packet, param)`; `sendvOnRing` is the
value the ring send returns for the iov array it is given. Returns the result
code and the calls made. -/
def outputPacket (packet : mbuf_t) (sendvOnRing : List v4v_iov_t → Int) : Nat × List Event :=
  if packet = [] then (kIOReturnOutputDropped, [])
  else
    let num_bufs := packet.length
    let net_packet := packet.map (fun cur => ({ iov_base := cur.data, iov_len := cur.len } : v4v_iov_t))
    let bytes_sent := sendvOnRing net_packet
    let send := Event.sendvOnRing net_packet num_bufs
    if bytes_sent > 0 then (kIOReturnOutputSuccess, [send, Event.freePacket packet])
    else if bytes_sent = -EAGAIN then (kIOReturnOutputStall, [send])
    else (kIOReturnOutputDropped, [send, Event.freePacket packet, Event.IOLog])

/-- A message waiting in the v4v ring; `len` is its length in bytes and `tag`
tells messages apart. -/
structure Msg where
  tag : Nat
  len : Nat
deriving DecidableEq, Repr

/-- Modelled from the spec: `uxen_v4v_service::receiveFromRing(ring, nullptr, 0,
consume)` is not among the sources. Following the spec's `read_next`/`consume`
it returns a negative value on an empty ring and otherwise the length of the
oldest message, which it removes only when `consume` is set. -/
def receiveFromRing (ring : List Msg) (consume : Bool) : Int × List Msg :=
  match ring with
  | [] => (-1, [])
  | m :: rest => ((m.len : Int), if consume then rest else m :: rest)

/-- The loop over the mbuf chain of lines 292-302 with the local `pos_in_mbuf`. -/
def copy_loop : mbuf_t → Nat → List Event
  | [], _ => []
  | cur :: next, pos_in_mbuf =>
    Event.v4v_copy_out_offset cur.data (pos_in_mbuf + cur.len) false pos_in_mbuf
      :: copy_loop next (pos_in_mbuf + cur.len)

/-- The loop `while (true)` of `processReceivedPackets` over the ring contents;
`allocatePacket k size` is what the `k`-th call of `allocatePacket` returns when
asked for `size` bytes, and `a_message_received` the local flag. Returns the
flag at the end and the calls made. The ring is empty afterwards. -/
def receive_loop (allocatePacket : Nat → Nat → mbuf_t) :
    List Msg → Nat → Bool → Bool × List Event
  | [], _, a_message_received => (a_message_received, [Event.receiveFromRing false])
  | m :: rest, k, a_message_received =>
    let receive_message := (receiveFromRing (m :: rest) false).1
    let msg_size := receive_message.toNat % 2 ^ 32
    let packet := allocatePacket k msg_size
    let r := receive_loop allocatePacket rest (k + 1) (a_message_received || (packet != []))
    (r.1,
      [Event.receiveFromRing false, Event.allocatePacket msg_size]
        ++ (if packet ≠ [] then copy_loop packet 0 ++ [Event.inputPacket packet msg_size] else [])
        ++ [Event.receiveFromRing true] ++ r.2)

/-- The method `uxen_net::processReceivedPackets()`; `v4v_ring` is `none` for
`nullptr` and otherwise the messages in the ring, oldest first. Returns the ring
afterwards and the calls made. -/
def processReceivedPackets (v4v_ring : Option (List Msg)) (allocatePacket : Nat → Nat → mbuf_t) :
    Option (List Msg) × List Event :=
  match v4v_ring with
  | none => (none, [])
  | some ring =>
    let r := receive_loop allocatePacket ring 0 false
    (some [], if r.1 then r.2 ++ [Event.flushInputQueue, Event.notify] else r.2)

end UxenNet

namespace Uxenstor

/-! ## Reading a trace -/

/-- The commands handed to `scsi_done` in a trace, in order. -/
def scsi_done_calls : List Event → List scsi_cmnd
  | [] => []
  | Event.scsi_done sc :: rest => sc :: scsi_done_calls rest
  | _ :: rest => scsi_done_calls rest

/-- The ring copies at an offset in a trace, in order: destination, frame range
start (`skip`), frame range end (`t`) and the consume flag. -/
def offset_copies : List Event → List (Dest × Nat × Nat × Bool)
  | [] => []
  | Event.copy_out_offset buf t consume skip :: rest =>
    (buf, skip, t, consume) :: offset_copies rest
  | _ :: rest => offset_copies rest

/-- The datagrams consumed in a trace: the number of `uxen_v4v_copy_out` calls
with the consume flag set. -/
def consume_calls : List Event → Nat
  | [] => 0
  | Event.copy_out _ _ true :: rest => consume_calls rest + 1
  | _ :: rest => consume_calls rest

/-! ## Sample values -/

/-- A read command with two 4096-byte scatter segments and a sense buffer. -/
def sc_read : scsi_cmnd :=
  { addr := 0x1000, cmd_len := 10, sc_data_direction := dma_data_direction.DMA_FROM_DEVICE,
    sense_buffer := true, bufflen := 8192, sg_count := 2,
    sglist := [{ virt := 0xa000, length := 4096 }, { virt := 0xb000, length := 4096 }],
    host_byte := 0, driver_byte := 0 }

/-- A write command with one 512-byte scatter segment. -/
def sc_write : scsi_cmnd :=
  { addr := 0x2000, cmd_len := 10, sc_data_direction := dma_data_direction.DMA_TO_DEVICE,
    sense_buffer := true, bufflen := 512, sg_count := 1,
    sglist := [{ virt := 0xc000, length := 512 }],
    host_byte := 0, driver_byte := 0 }

/-- A reply header for request `seq` carrying `read_size` payload bytes and
`sense_size` sense bytes. -/
def reply_hdr (seq read_size sense_size : Nat) : XFER_HEADER :=
  { seq := seq, cdb_size := 0, write_size := 0, pagelist_size := 0,
    read_size := read_size, sense_size := sense_size, status := 0 }

/-- A well-formed reply datagram: header followed by the payload. -/
def reply (seq read_size sense_size : Nat) : Dgram :=
  { len := sizeof_XFER_HEADER + read_size + sense_size, hdr := reply_hdr seq read_size sense_size }

/-- An id map with `sc_read` pending under id 5 and `sc_write` under id 6. -/
def two_pending : idr :=
  { entries := [(6, sc_write), (5, sc_read)], idr_next := 7 }

/-- A bound device with `ring` waiting and the requests of `two_pending` in
flight. -/
def dev_with (ring : List Dgram) : uxenstor_dev :=
  { host_id := 0, recv_ring := some ring, seq_map := two_pending,
    requests_blocked := false, tasklet_disabled := 0 }

end Uxenstor

namespace Uxenstor

/-- An id map in which every id of the namespace `[0, INT_MAX]` is bound to a
pending command. -/
def full_idr : idr :=
  { entries := (List.range (2 ^ 31)).map (fun (i : Nat) => ((i : Int), { sc_read with addr := i })),
    idr_next := 0 }

/-- An environment in which every allocation succeeds and the ring send returns
64 bytes sent. -/
def env_sent : QueueEnv :=
  { kmalloc_ok := true, idr_gfp_ok := true, sendv_ret := 64 }

/-- A bound device whose id namespace is fully occupied. -/
def dev_full : uxenstor_dev :=
  { host_id := 0, recv_ring := some [], seq_map := full_idr,
    requests_blocked := false, tasklet_disabled := 0 }

end Uxenstor

namespace Uxenstor

/-! ## Vocabulary of the claims on scatter copies -/

/-- The scatter segments the dispatcher may copy a read payload into: the first
`scsi_sg_count(sc)` entries of the list, or its first entry when the count is
zero and the list is not NULL. -/
def scsi_segments (sc : scsi_cmnd) : List scatterlist :=
  if sc.sg_count ≠ 0 then sc.sglist.take sc.sg_count else sc.sglist.take 1

/-- Total length of the scatter list of a command. -/
def sg_total (sc : scsi_cmnd) : Nat :=
  ((scsi_segments sc).map scatterlist.length).sum

/-- The frame ranges `[skip, t)` of a list of copies are consecutive, each is a
proper range, the first starts at `start` and the last ends at `stop`: together
they cover exactly `[start, stop)` without overlap. -/
def covers (start stop : Nat) : List (Dest × Nat × Nat × Bool) → Prop
  | [] => start = stop
  | (_, skip, t, _) :: rest => skip = start ∧ skip ≤ t ∧ covers t stop rest

/-- A copy goes to a scatter segment that exists in `sglist`, writes at most that
segment's length and does not consume the datagram. -/
def within_segment (sglist : List scatterlist) : Dest × Nat × Nat × Bool → Prop
  | (Dest.sg j, skip, t, consume) =>
    (∃ seg, sglist[j]? = some seg ∧ t - skip ≤ seg.length) ∧ consume = false
  | _ => False

end Uxenstor

namespace UxenNet

/-! ## Reading a trace -/

/-- The packets handed to `freePacket` in a trace, in order. -/
def free_calls : List Event → List mbuf_t
  | [] => []
  | Event.freePacket packet :: rest => packet :: free_calls rest
  | _ :: rest => free_calls rest

/-- The consume flags of the `receiveFromRing` calls in a trace, in order:
`false` is a peek, `true` consumes. -/
def receive_calls : List Event → List Bool
  | [] => []
  | Event.receiveFromRing consume :: rest => consume :: receive_calls rest
  | _ :: rest => receive_calls rest

/-- The sizes asked of `allocatePacket` in a trace, in order. -/
def alloc_calls : List Event → List Nat
  | [] => []
  | Event.allocatePacket msg_size :: rest => msg_size :: alloc_calls rest
  | _ :: rest => alloc_calls rest

/-- The packets delivered with `inputPacket` in a trace, with their sizes, in
order. -/
def delivered : List Event → List (mbuf_t × Nat)
  | [] => []
  | Event.inputPacket packet msg_size :: rest => (packet, msg_size) :: delivered rest
  | _ :: rest => delivered rest

/-- The number of `notify` calls in a trace. -/
def notify_calls : List Event → Nat
  | [] => 0
  | Event.notify :: rest => notify_calls rest + 1
  | _ :: rest => notify_calls rest

/-- Replaying the `receiveFromRing` calls of a trace, given by their consume
flags, on a ring: the values the calls return and the ring left at the end. -/
def replay_receives : List Bool → List Msg → List Int × List Msg
  | [], ring => ([], ring)
  | consume :: rest, ring =>
    let r := receiveFromRing ring consume
    let rs := replay_receives rest r.2
    (r.1 :: rs.1, rs.2)

/-- The deliveries the claim expects for a ring whose first message is the
`k`-th to be received: each message for which `allocatePacket` gave a packet, in
ring order, with that packet and the message size. -/
def expected_deliveries (allocatePacket : Nat → Nat → mbuf_t) : List Msg → Nat → List (mbuf_t × Nat)
  | [], _ => []
  | m :: rest, k =>
    if allocatePacket k (m.len % 2 ^ 32) ≠ [] then
      (allocatePacket k (m.len % 2 ^ 32), m.len % 2 ^ 32)
        :: expected_deliveries allocatePacket rest (k + 1)
    else expected_deliveries allocatePacket rest (k + 1)

/-- The peek and consume results the claim expects: for each message its length
twice (peeked, then consumed), then one negative result. -/
def expected_receives : List Msg → List Int
  | [] => [-1]
  | m :: rest => (m.len : Int) :: (m.len : Int) :: expected_receives rest

/-! ## Sample values -/

/-- A packet of two mbufs, 1000 and 500 bytes. -/
def packet_two : mbuf_t := [{ data := 0x7000, len := 1000 }, { data := 0x8000, len := 500 }]

end UxenNet

namespace UxenNet

/-! ## Vocabulary of the claim on mbuf copies -/

/-- The `v4v_copy_out_offset` calls in a trace, in order: destination, frame
range start (`skip`), frame range end (`t`) and the consume flag. -/
def copy_calls : List Event → List (Nat × Nat × Nat × Bool)
  | [] => []
  | Event.v4v_copy_out_offset buf t consume skip :: rest =>
    (buf, skip, t, consume) :: copy_calls rest
  | _ :: rest => copy_calls rest

/-- The frame ranges `[skip, t)` of a list of copies are consecutive, each is a
proper range, the first starts at `start` and the last ends at `stop`: they are
disjoint, contiguous and cover exactly `[start, stop)`. -/
def tiles (start stop : Nat) : List (Nat × Nat × Nat × Bool) → Prop
  | [] => start = stop
  | (_, skip, t, _) :: rest => skip = start ∧ skip ≤ t ∧ tiles t stop rest

/-- The segment lengths `l_1, ..., l_k` of an mbuf chain. -/
def seg_lengths (packet : mbuf_t) : List Nat :=
  packet.map mbuf.len

end UxenNet

namespace Headctl

/-! ## `atto-agent headctl`: dirty rectangle tracking

The declarations of `struct drc`, `struct dirty_rect_msg`, `struct head` and of
the shared state are not among the sources. `struct drc` is taken to have four
`int` fields and the fields of the message to hold the `int` values assigned to
them unchanged; the shared `rect_id` counter is taken not to wrap. -/

/-- `#define DR_PERIOD_NS 10000000ULL`. -/
def DR_PERIOD_NS : Int := 10000000

/-- An inclusive rectangle `struct drc`. -/
structure drc where
  x0 : Int
  y0 : Int
  x1 : Int
  y1 : Int
deriving DecidableEq, Repr

/-- Xlib `XRectangle`: `short x, y` and `unsigned short width, height`. -/
structure XRectangle where
  x : Int
  y : Int
  width : Nat
  height : Nat
deriving DecidableEq, Repr

/-- The function `drc_empty`. -/
def drc_empty (r : drc) : Bool :=
  decide (r.x0 > r.x1) || decide (r.y0 > r.y1)

/-- The function `drc_reset`. -/
def drc_reset (_r : drc) : drc :=
  { x0 := 0xffff, y0 := 0xffff, x1 := 0, y1 := 0 }

/-- One pass of the `for` loop of `process_damage_ev` (lines 478-487). -/
def damage_rect (rect : XRectangle) (r : drc) : drc :=
  let rx0 := rect.x
  let ry0 := rect.y
  let rx1 := rx0 + rect.width - 1
  let ry1 := ry0 + rect.height - 1
  let r1 := if rx0 < r.x0 then { r with x0 := rx0 } else r
  let r2 := if ry0 < r1.y0 then { r1 with y0 := ry0 } else r1
  let r3 := if rx1 > r2.x1 then { r2 with x1 := rx1 } else r2
  if ry1 > r3.y1 then { r3 with y1 := ry1 } else r3

/-- The `for` loop of `process_damage_ev` over the fetched rectangles. -/
def damage_loop : List XRectangle → drc → drc
  | [], r => r
  | rect :: rest, r => damage_loop rest (damage_rect rect r)

/-- The function `process_damage_ev(d, damage, dev, r)`: `dev_damage` is
`dev->damage` and `rects` what `XFixesFetchRegionAndBounds` returns (`none` for
NULL). Returns the result and the accumulator afterwards. -/
def process_damage_ev (damage dev_damage : Nat) (rects : Option (List XRectangle)) (r : drc) :
    Int × drc :=
  if dev_damage ≠ damage then (-1, r)
  else
    match rects with
    | some l => (0, damage_loop l r)
    | none => (0, r)

/-- The fields of `struct head` used here. -/
structure head where
  id : Nat
  index : Nat
deriving DecidableEq, Repr

/-- The message `struct dirty_rect_msg`. -/
structure dirty_rect_msg where
  left : Int
  top : Int
  right : Int
  bottom : Int
  rect_id : Nat
  head_id : Nat
deriving DecidableEq, Repr

/-- The fields of `head_dr_t` the tracking uses. -/
structure head_dr_t where
  dr_pending : Bool
  dr_rect : drc
  dr_ts : Int
deriving DecidableEq, Repr

/-- The state `send_dr` and `pending_dr_sync` work on: the entry
`head_dr[head->index]` and the counter `shared_state->rect_id`. -/
structure dr_state where
  hdr : head_dr_t
  rect_id : Nat
deriving DecidableEq, Repr

/-- What the environment decides during one `send_dr` call: the clock reading
`timestamp_ns()`, the value `send` returns and `errno` after a failed send. -/
structure SendEnv where
  send_ts : Int
  send_len : Int
  errno : Int
deriving DecidableEq, Repr

/-- The function `send_dr(head, r)`: returns the result, the message built and
the state afterwards. -/
def send_dr (h : head) (r : drc) (st : dr_state) (env : SendEnv) :
    Int × dirty_rect_msg × dr_state :=
  let msg : dirty_rect_msg :=
    { left := r.x0, top := r.y0, right := r.x1 + 1, bottom := r.y1 + 1,
      rect_id := st.rect_id, head_id := h.id }
  let st1 : dr_state :=
    { hdr := { st.hdr with dr_ts := env.send_ts }, rect_id := st.rect_id + 1 }
  (if env.send_len < 0 then -env.errno else 0, msg, st1)

/-- One `send_dr` invocation made by `pending_dr_sync`: the clock reading `now`
taken before it, the reading `send_ts` taken inside it, its message and its
result. -/
structure Invocation where
  now : Int
  send_ts : Int
  msg : dirty_rect_msg
  ret : Int
deriving DecidableEq, Repr

/-- What the environment decides during one `pending_dr_sync` call: the clock
reading `now` and what `send_dr` meets. -/
structure TickEnv where
  now : Int
  send : SendEnv
deriving DecidableEq, Repr

/-- The function `pending_dr_sync(head)`. The difference `now - hdr->dr_ts` is
compared with the `unsigned long long` period, hence taken modulo `2 ^ 64`.
Returns the state afterwards and the `send_dr` invocations made. -/
def pending_dr_sync (h : head) (st : dr_state) (env : TickEnv) : dr_state × List Invocation :=
  if st.hdr.dr_pending then
    if (env.now - st.hdr.dr_ts) % 2 ^ 64 < DR_PERIOD_NS then (st, [])
    else if drc_empty st.hdr.dr_rect then
      ({ st with hdr := { st.hdr with dr_pending := false } }, [])
    else
      let r := send_dr h st.hdr.dr_rect st env.send
      let inv : Invocation :=
        { now := env.now, send_ts := env.send.send_ts, msg := r.2.1, ret := r.1 }
      if r.1 = 0 then
        ({ r.2.2 with hdr := { r.2.2.hdr with dr_rect := drc_reset r.2.2.hdr.dr_rect,
                                               dr_pending := false } }, [inv])
      else (r.2.2, [inv])
  else (st, [])

/-- What the loop of `run_dr_` meets: an `XDamageNotify` event, a call of
`pending_dr_sync`, or a `send_dr` of another head's thread bumping the shared
counter. -/
inductive DrInput where
  | damage (dev_damage : Nat) (rects : Option (List XRectangle))
  | tick (env : TickEnv)
  | foreign_send
deriving DecidableEq, Repr

/-- One step of the loop of `run_dr_` (lines 568-581) for the damage handle
`damage`. -/
def run_dr_step (h : head) (damage : Nat) (st : dr_state) : DrInput → dr_state × List Invocation
  | DrInput.damage dev_damage rects =>
    let r := process_damage_ev damage dev_damage rects st.hdr.dr_rect
    if r.1 = 0 then
      ({ st with hdr := { st.hdr with dr_rect := r.2, dr_pending := true } }, [])
    else ({ st with hdr := { st.hdr with dr_rect := r.2 } }, [])
  | DrInput.tick env => pending_dr_sync h st env
  | DrInput.foreign_send => ({ st with rect_id := st.rect_id + 1 }, [])

/-- The loop of `run_dr_` over what it meets, in order. -/
def run_dr : List DrInput → head → Nat → dr_state → dr_state × List Invocation
  | [], _, _, st => (st, [])
  | i :: rest, h, damage, st =>
    let r := run_dr_step h damage st i
    let rs := run_dr rest h damage r.1
    (rs.1, r.2 ++ rs.2)

/-- Lines 561-563 of `run_dr_`: the tracking state when the loop starts. -/
def run_dr_init (st : dr_state) : dr_state :=
  { st with hdr := { st.hdr with dr_pending := false, dr_rect := drc_reset st.hdr.dr_rect } }

/-! ## Vocabulary of the claims on dirty rectangles -/

/-- A rectangle with at least one pixel. -/
def XRectangle.nonempty (rect : XRectangle) : Prop :=
  0 < rect.width ∧ 0 < rect.height

/-- The damaged rectangle lies within the inclusive accumulator. -/
def in_drc (rect : XRectangle) (r : drc) : Prop :=
  r.x0 ≤ rect.x ∧ r.y0 ≤ rect.y ∧ rect.x + rect.width - 1 ≤ r.x1
    ∧ rect.y + rect.height - 1 ≤ r.y1

/-- The damaged rectangle lies within the rectangle of a message (its far
corner is exclusive). -/
def in_msg (rect : XRectangle) (m : dirty_rect_msg) : Prop :=
  m.left ≤ rect.x ∧ m.top ≤ rect.y ∧ rect.x + rect.width ≤ m.right
    ∧ rect.y + rect.height ≤ m.bottom

/-- The rectangles received so far: those of the damage notifications for our
own handle. -/
def received (damage : Nat) : List DrInput → List XRectangle
  | [] => []
  | DrInput.damage dev_damage (some l) :: rest =>
    if dev_damage = damage then l ++ received damage rest else received damage rest
  | _ :: rest => received damage rest

/-- The clock readings met by the loop never go back: every reading is at least
`last`, the latest one before, and below `2 ^ 63`. -/
def clock_monotonic : Int → List DrInput → Prop
  | _, [] => True
  | last, DrInput.tick env :: rest =>
    last ≤ env.now ∧ env.now ≤ env.send.send_ts ∧ env.send.send_ts < 2 ^ 63
      ∧ clock_monotonic env.send.send_ts rest
  | last, _ :: rest => clock_monotonic last rest

/-- Sample head. -/
def head0 : head := { id := 3, index := 0 }

/-- Sample tracking state right after `run_dr_` set it up. -/
def dr_start : dr_state :=
  { hdr := { dr_pending := false, dr_rect := { x0 := 0xffff, y0 := 0xffff, x1 := 0, y1 := 0 },
             dr_ts := 0 },
    rect_id := 0 }

end Headctl

namespace UxenNet

/-- The copies the claim expects for a ring whose first message is the `k`-th to
be received: for each message, the copy loop over the packet allocated for it,
started at position 0. -/
def expected_copies (allocatePacket : Nat → Nat → mbuf_t) :
    List Msg → Nat → List (Nat × Nat × Nat × Bool)
  | [], _ => []
  | m :: rest, k =>
    copy_calls (copy_loop (allocatePacket k (m.len % 2 ^ 32)) 0)
      ++ expected_copies allocatePacket rest (k + 1)

end UxenNet

namespace Headctl

/-- Every invocation of the list comes at least `DR_PERIOD_NS` after the
timestamp left by the one before it (`ts` for the first), and takes its own
timestamp after its reading of `now`. -/
def spaced_from : Int → List Invocation → Prop
  | _, [] => True
  | ts, inv :: rest =>
    ts + DR_PERIOD_NS ≤ inv.now ∧ inv.now ≤ inv.send_ts ∧ spaced_from inv.send_ts rest

/-- The rectangle was sent in a message whose send succeeded, or it lies in the
accumulator with `dr_pending` set. -/
def sent_or_pending (rect : XRectangle) (res : dr_state × List Invocation) : Prop :=
  (∃ inv ∈ res.2, inv.ret = 0 ∧ in_msg rect inv.msg) ∨
    (res.1.hdr.dr_pending = true ∧ in_drc rect res.1.hdr.dr_rect)

end Headctl

namespace Headctl

/-- A rectangle of damage at `(x, y)` of size `w` by `h`, reported for handle 7. -/
def damage_at (x y : Int) (w h : Nat) : DrInput :=
  DrInput.damage 7 (some [{ x := x, y := y, width := w, height := h }])

/-- A call of `pending_dr_sync` at clock reading `now` whose send, if made, takes
its timestamp 5 ns later and returns `send_len`. -/
def tick_at (now : Int) (send_len : Int) : DrInput :=
  DrInput.tick { now := now, send := { send_ts := now + 5, send_len := send_len, errno := 11 } }

/-- Damage, a tick that sends, more damage, a tick 3 ms later (too early), a tick
whose send fails and a last tick that sends. -/
def sample_inputs : List DrInput :=
  [damage_at 10 10 5 5, tick_at 20000000 24, damage_at 100 50 8 2, tick_at 23000000 24,
   tick_at 31000000 (-1), tick_at 42000000 24]

end Headctl

namespace Uxenstor

/-! ## Interrupt and ring setup -/

/-- The function `uxenstor_irq`: the interrupt only schedules the tasklet. -/
def uxenstor_irq : List Event :=
  [Event.tasklet_schedule]

/-- Linux `MAX_ERRNO` (linux/err.h). -/
def MAX_ERRNO : Nat := 4095

/-- Linux `IS_ERR(ptr)` on a 64-bit pointer value:
`(unsigned long)ptr >= (unsigned long)-MAX_ERRNO`. -/
def IS_ERR (ptr : Nat) : Bool :=
  decide (2 ^ 64 - MAX_ERRNO ≤ ptr)

/-- Linux `PTR_ERR(ptr)`: the pointer value as a `long`. -/
def PTR_ERR (ptr : Nat) : Int :=
  if ptr % 2 ^ 64 < 2 ^ 63 then ((ptr % 2 ^ 64 : Nat) : Int)
  else ((ptr % 2 ^ 64 : Nat) : Int) - 2 ^ 64

/-- The function `uxenstor_v4v_ring_init`. `bind_ptr` is the pointer value
`uxen_v4v_ring_bind` returns and `ring` the contents of the ring it points to when
it is a valid pointer. Returns the `int` result (the `long` of `PTR_ERR`
converted to `int`), the device afterwards and the calls made. -/
def uxenstor_v4v_ring_init (dev : uxenstor_dev) (bind_ptr : Nat) (ring : List Dgram) :
    Int × uxenstor_dev × List Event :=
  let port := V4V_STOR_PORT_BASE + dev.host_id
  let bind := Event.ring_bind port V4V_STOR_RING_LEN
  if bind_ptr = 0 then (-ENOMEM, { dev with recv_ring := none }, [bind])
  else if IS_ERR bind_ptr then
    (to_int (PTR_ERR bind_ptr % 2 ^ 64).toNat, { dev with recv_ring := none }, [bind])
  else (0, { dev with recv_ring := some ring }, [bind])

/-- A datagram of `len` bytes replying to request `seq` without payload fields
set. -/
def bulk_reply (seq len : Nat) : Dgram :=
  { len := len, hdr := reply_hdr seq 0 0 }

/-- An unbound device for host adapter 2. -/
def dev_unbound : uxenstor_dev :=
  { host_id := 2, recv_ring := none, seq_map := { entries := [], idr_next := 0 },
    requests_blocked := false, tasklet_disabled := 0 }

end Uxenstor

namespace Uxenstor

/-- A bound device with requests 5 and 6 in flight whose ring holds two large
replies and a third datagram behind them. -/
def dev_over_budget : uxenstor_dev :=
  dev_with [bulk_reply 6 600000, bulk_reply 5 600000, bulk_reply 9 64]

end Uxenstor

namespace Domctl

/-! ## `getdomaininfo` (xen/common/domctl.c)

The masks `XEN_DOMINF_*` and the bits `VPF_*` come from headers that are not
among the sources. They are distinct bits, and `shutdown_code` is shifted above
them, so a flags word is given here by the masks it contains. -/

/-- The fields of `struct vcpu` read by `getdomaininfo`: `down` and `blocked` are
the bits `_VPF_down` and `VPF_blocked` of `pause_flags`, `time_running` is
`runstate.time[RUNSTATE_running]`. -/
structure vcpu where
  vcpu_id : Nat
  down : Bool
  blocked : Bool
  is_running : Bool
  time_running : Nat
deriving DecidableEq, Repr

/-- The fields of `struct domain` read by lines 51-93 of `getdomaininfo`;
`is_dying_dead` stands for `d->is_dying == DOMDYING_dead`. -/
structure domain where
  domain_id : Nat
  vcpus : List vcpu
  is_dying_dead : Bool
  is_shut_down : Bool
  is_paused_by_controller : Bool
  is_paused_for_suspend : Bool
  debugger_attached : Bool
  is_shutting_down : Bool
  shutdown_code : Nat
  is_hvm_domain : Bool
deriving DecidableEq, Repr

/-- A flags word of `xen_domctl_getdomaininfo`: which `XEN_DOMINF_*` masks it
contains, and the shutdown code in its upper bits. -/
structure dominf_flags where
  blocked : Bool
  running : Bool
  dying : Bool
  shutdown : Bool
  paused : Bool
  debugged : Bool
  shutting_down : Bool
  hvm_guest : Bool
  shutdown_code : Nat
deriving DecidableEq, Repr

/-- The locals and outputs the loop `for_each_vcpu` updates: `cpu_time`, the
bits `XEN_DOMINF_blocked` and `XEN_DOMINF_running` of `flags`,
`info->max_vcpu_id` and `info->nr_online_vcpus`. -/
structure vcpu_scan where
  cpu_time : Nat
  flags_blocked : Bool
  flags_running : Bool
  max_vcpu_id : Nat
  nr_online_vcpus : Nat
deriving DecidableEq, Repr

/-- The body of the loop `for_each_vcpu` (lines 68-78); `cpu_time` is a `u64`. -/
def scan_vcpu (st : vcpu_scan) (v : vcpu) : vcpu_scan :=
  let st1 := { st with cpu_time := (st.cpu_time + v.time_running) % 2 ^ 64,
                       max_vcpu_id := v.vcpu_id }
  if !v.down then
    let st2 := if !v.blocked then { st1 with flags_blocked := false } else st1
    let st3 := if v.is_running then { st2 with flags_running := true } else st2
    { st3 with nr_online_vcpus := st3.nr_online_vcpus + 1 }
  else st1

/-- The part of `struct xen_domctl_getdomaininfo` filled in by lines 51-93. -/
structure getdomaininfo_out where
  domain : Nat
  nr_online_vcpus : Nat
  max_vcpu_id : Nat
  cpu_time : Nat
  flags : dominf_flags
deriving DecidableEq, Repr

/-- Lines 51-93 of `getdomaininfo`; `max_vcpu_id` is what `info->max_vcpu_id`
held before the call. -/
def getdomaininfo (d : domain) (max_vcpu_id : Nat) : getdomaininfo_out :=
  let st := d.vcpus.foldl scan_vcpu
    { cpu_time := 0, flags_blocked := true, flags_running := false,
      max_vcpu_id := max_vcpu_id, nr_online_vcpus := 0 }
  { domain := d.domain_id, nr_online_vcpus := st.nr_online_vcpus,
    max_vcpu_id := st.max_vcpu_id, cpu_time := st.cpu_time,
    flags :=
      { blocked := if st.nr_online_vcpus ≠ 0 then st.flags_blocked else false,
        running := if st.nr_online_vcpus ≠ 0 then st.flags_running else false,
        dying := d.is_dying_dead, shutdown := d.is_shut_down,
        paused := d.is_paused_by_controller || d.is_paused_for_suspend,
        debugged := d.debugger_attached, shutting_down := d.is_shutting_down,
        hvm_guest := d.is_hvm_domain, shutdown_code := d.shutdown_code } }

/-- A domain whose vcpu 0 is online and blocked and whose vcpu 1 is offline and
not blocked. -/
def dom_one_offline : domain :=
  { domain_id := 1,
    vcpus := [{ vcpu_id := 0, down := false, blocked := true, is_running := false,
                time_running := 100 },
              { vcpu_id := 1, down := true, blocked := false, is_running := false,
                time_running := 0 }],
    is_dying_dead := false, is_shut_down := false, is_paused_by_controller := false,
    is_paused_for_suspend := false, debugger_attached := false, is_shutting_down := false,
    shutdown_code := 0, is_hvm_domain := true }

end Domctl

namespace SharedFolders

/-! ## Folder options (dm/vbox-drivers/shared-folders/mappings-opts.c)

A `wchar_t` string is the list of its characters before the terminating NUL. -/

/-- A NUL-terminated `wchar_t` string: its characters, none of them 0. -/
abbrev wstr := List Nat

/-- `#define SUBFOLDER_PATHMAX 512`. -/
def SUBFOLDER_PATHMAX : Nat := 512

/-- `#define PATH_SEP '\\'`. -/
def PATH_SEP : Nat := 92

/-- `#define PATH_SEP_ALT '/'`. -/
def PATH_SEP_ALT : Nat := 47

/-- The literal `L"\\\\?\\"` of `is_path_prefixof`: backslash, backslash,
question mark, backslash. -/
def long_path_marker : wstr := [92, 92, 63, 92]

/-- The character `*s` a string pointer points at: 0 at the end of the string. -/
def deref (s : wstr) : Nat :=
  s.headD 0

/-- The test `!wcsncmp(a, b, n)`: the strings agree on their first `n`
characters. -/
def wcsncmp_eq (a b : wstr) (n : Nat) : Bool :=
  a.take n == b.take n

/-- The function `is_sep`. -/
def is_sep (c : Nat) : Bool :=
  c == PATH_SEP || c == PATH_SEP_ALT

/-- Lines 114-117 of `is_path_prefixof`: skip one leading marker. -/
def skip_marker (s : wstr) : wstr :=
  if wcsncmp_eq long_path_marker s 4 then s.drop 4 else s

/-- The loops `while (is_sep(*s)) ++s` of lines 118-119. -/
def skip_seps : wstr → wstr
  | [] => []
  | c :: rest => if is_sep c then skip_seps rest else c :: rest

/-- Lines 121-130 of `is_path_prefixof`: the comparison loop and the final
test. -/
def prefix_loop (towlower : Nat → Nat) : wstr → wstr → Bool
  | a :: path, b :: pfx =>
    if towlower a ≠ towlower b then false else prefix_loop towlower path pfx
  | path, pfx => (is_sep (deref path) || deref path == 0) && deref pfx == 0

/-- The function `is_path_prefixof(prefix, path)`, nonzero as `true`; `towlower`
is the C library function. -/
def is_path_prefixof (towlower : Nat → Nat) (pfx path : wstr) : Bool :=
  prefix_loop towlower (skip_seps (skip_marker path)) (skip_seps (skip_marker pfx))

/-- The function `catpath(buf, path)`: the string in `buf` afterwards. (The code
writes no terminator; the buffer it is used on is zeroed and, but for a full
buffer, longer than the result.) -/
def catpath (buf path : wstr) : wstr :=
  buf ++ (if buf.length ≠ 0 ∧ buf.getLast? ≠ some PATH_SEP then [PATH_SEP] else [])
    ++ path.dropWhile (fun c => c == PATH_SEP)

/-- An entry `folder_opt_entry_t` of the option list. -/
structure folder_opt_entry where
  mapname : wstr
  subfolder : wstr
  opts : Nat
deriving DecidableEq, Repr

/-- The locals `found` and `maxlen` of `find_entry_for_path`. -/
structure find_state where
  found : Option folder_opt_entry
  maxlen : Int
deriving DecidableEq, Repr

/-- The test of lines 185-194 of `find_entry_for_path` for one entry: the paths
fit the buffer, the map name is the entry's and the entry's full path is a path
prefix of `path`. -/
def entry_matches (towlower : Nat → Nat) (rootpath mapname path : wstr)
    (e : folder_opt_entry) : Bool :=
  if rootpath.length + e.subfolder.length ≥ SUBFOLDER_PATHMAX then false
  else
    wcsncmp_eq mapname e.mapname SUBFOLDER_PATHMAX &&
      is_path_prefixof towlower (catpath (rootpath.take SUBFOLDER_PATHMAX) e.subfolder) path

/-- The body of the loop of `find_entry_for_path` (lines 183-201). The statement
`len = maxlen;` of line 198 assigns to `len`: `maxlen` keeps its value. -/
def find_entry_step (towlower : Nat → Nat) (rootpath mapname path : wstr)
    (st : find_state) (e : folder_opt_entry) : find_state :=
  if entry_matches towlower rootpath mapname path e then
    let len : Int := e.subfolder.length
    if len ≥ st.maxlen then { st with found := some e } else st
  else st

/-- The function `find_entry_for_path(root, path)`; `rootpath` and `mapname` are
what `vbsfMappingsQueryHostRoot(root)` and `get_mapname(root)` return (`none` for
NULL) and `entries` the list `folder_opt_entries`. -/
def find_entry_for_path (towlower : Nat → Nat) (rootpath mapname : Option wstr)
    (entries : List folder_opt_entry) (path : wstr) : Option folder_opt_entry :=
  match rootpath, mapname with
  | some r, some m =>
    (entries.foldl (find_entry_step towlower r m path) { found := none, maxlen := 0 }).found
  | _, _ => none

/-- C library `towlower` on the ASCII letters. -/
def towlower_ascii (c : Nat) : Nat :=
  if 65 ≤ c ∧ c ≤ 90 then c + 32 else c

/-- The host root path `C:\r`. -/
def sample_root : wstr := [67, 58, 92, 114]

/-- The map name `docs`. -/
def sample_mapname : wstr := [100, 111, 99, 115]

/-- The option entry of `docs` for subfolder `a\b`. -/
def entry_ab : folder_opt_entry :=
  { mapname := [100, 111, 99, 115], subfolder := [97, 92, 98], opts := 1 }

/-- The option entry of `docs` for subfolder `a`. -/
def entry_a : folder_opt_entry :=
  { mapname := [100, 111, 99, 115], subfolder := [97], opts := 2 }

/-- The queried path `C:\r\a\b\f`. -/
def sample_path : wstr := [67, 58, 92, 114, 92, 97, 92, 98, 92, 102]

end SharedFolders

namespace UxenDisplay

/-! ## The uXen display device (dm/hw/uxen_display.c)

The register map and the hardware constants (`uxdisp_hw.h`, `uxen_display.h`) are
not among the sources: they are the fields of `uxdisp_hw`, and a register write
is identified by the register its address decodes to. -/

/-- `#define UXENDISP_XRES_MAX 23170`. -/
def UXENDISP_XRES_MAX : Nat := 23170

/-- `#define UXENDISP_YRES_MAX 23170`. -/
def UXENDISP_YRES_MAX : Nat := 23170

/-- `#define UXENDISP_STRIDE_MAX 92683`. -/
def UXENDISP_STRIDE_MAX : Nat := 92683

/-- The page size `TARGET_PAGE_SIZE` of the device model. -/
def TARGET_PAGE_SIZE : Nat := 4096

/-- The registers of one CRTC told apart by the `switch` of `crtc_write`. -/
inductive crtc_reg where
  | OFFSET
  | ENABLE
  | XRES
  | YRES
  | STRIDE
  | FORMAT
  | other
deriving DecidableEq, Repr

/-- What an aligned 4-byte MMIO address decodes to in `uxendisp_mmio_write`
(lines 552-592): a register of CRTC `idx`, the register at `addr` of bank `idx`,
one of the four global registers, or nothing. -/
inductive mmio_reg where
  | crtc (idx : Nat) (reg : crtc_reg)
  | bank (idx : Nat) (addr : Nat)
  | INTERRUPT
  | CURSOR_ENABLE
  | MODE
  | INTERRUPT_ENABLE
  | invalid
deriving DecidableEq, Repr

/-- The constants of the hardware interface and the address decoding. -/
structure uxdisp_hw where
  UXENDISP_NB_CRTCS : Nat
  UXENDISP_NB_BANKS : Nat
  UXENDISP_BANK_ORDER : Nat
  UXENDISP_BANK_SIZE : Nat
  UXDISP_MODE_VGA_DISABLED : Nat
  UXDISP_CRTC_FORMAT_BGRX_8888 : Int
  UXDISP_CRTC_FORMAT_BGR_888 : Int
  UXDISP_CRTC_FORMAT_BGR_565 : Int
  UXDISP_CRTC_FORMAT_BGR_555 : Int
  decode : Nat → mmio_reg

/-- The guest-writable registers `crtc->regs->p`. -/
structure crtc_regs where
  enable : Nat
  xres : Nat
  yres : Nat
  stride : Nat
  format : Nat
deriving DecidableEq, Repr

/-- The fields of `struct crtc_state` followed here; `regs` is the content of the
register page `crtc->regs` points to. -/
structure crtc_state where
  status : Nat
  offset : Nat
  enable : Nat
  xres : Nat
  yres : Nat
  stride : Nat
  format : Nat
  regs : crtc_regs
  flush_pending : Bool
deriving DecidableEq, Repr

/-- The field `len` of `struct bank_state`. -/
structure bank_state where
  len : Nat
deriving DecidableEq, Repr

/-- The fields of `struct uxendisp_state` followed here. -/
structure uxendisp_state where
  crtcs : List crtc_state
  banks : List bank_state
  io_index : Nat
  isr : Nat
  interrupt_en : Nat
  cursor_en : Nat
  mode : Nat
deriving DecidableEq, Repr

/-- The C conversion of an `unsigned int` to `int`. -/
def int_of_unsigned (x : Nat) : Int :=
  if x % 2 ^ 32 < 2 ^ 31 then ((x % 2 ^ 32 : Nat) : Int) else ((x % 2 ^ 32 : Nat) : Int) - 2 ^ 32

/-- The function `fmt_valid(int fmt)`, nonzero as `true`. -/
def fmt_valid (hw : uxdisp_hw) (fmt : Int) : Bool :=
  fmt == hw.UXDISP_CRTC_FORMAT_BGRX_8888 || fmt == hw.UXDISP_CRTC_FORMAT_BGR_888 ||
    fmt == hw.UXDISP_CRTC_FORMAT_BGR_565 || fmt == hw.UXDISP_CRTC_FORMAT_BGR_555

/-- The function `bank_reg_write(s, bank_id, addr, val)`: the new `bank->len`
(the resize of the video RAM is not followed). -/
def bank_reg_write (s : uxendisp_state) (bank_id : Nat) (addr val : Nat) : uxendisp_state :=
  if addr ≠ 0 then s
  else
    { s with banks := (s.banks.modify
        (fun _ => { len := (val + (TARGET_PAGE_SIZE - 1)) % 2 ^ 32 / TARGET_PAGE_SIZE
                            * TARGET_PAGE_SIZE }) bank_id) }

/-- The checks of lines 400-413 of `crtc_flush` on the mode in the registers of
`crtc`: `true` when the mode is accepted. -/
def mode_accepted (hw : uxdisp_hw) (crtc : crtc_state) : Bool :=
  let offset := crtc.offset &&& (hw.UXENDISP_BANK_SIZE - 1)
  let bank_id := int_of_unsigned (crtc.offset >>> hw.UXENDISP_BANK_ORDER)
  let w := crtc.regs.xres
  let h := crtc.regs.yres
  let stride := crtc.regs.stride
  let fmt := crtc.regs.format
  if w > UXENDISP_XRES_MAX ∨ h > UXENDISP_YRES_MAX ∨ stride > UXENDISP_STRIDE_MAX then false
  else if !fmt_valid hw (int_of_unsigned fmt) then false
  else if bank_id ≥ (hw.UXENDISP_NB_BANKS : Int) then false
  else if (offset + h * stride % 2 ^ 32) % 2 ^ 32 > hw.UXENDISP_BANK_SIZE then false
  else true

/-- The function `crtc_flush(s, crtc_id)`. The display surface calls are not
followed. -/
def crtc_flush (hw : uxdisp_hw) (s : uxendisp_state) (crtc_id : Nat) : uxendisp_state :=
  match s.crtcs[crtc_id]? with
  | none => s
  | some crtc =>
    if crtc_id = 0 ∧ s.mode &&& hw.UXDISP_MODE_VGA_DISABLED ≠ 0 then
      if crtc.regs.enable ≠ 0 then
        if mode_accepted hw crtc then
          let offset := crtc.offset &&& (hw.UXENDISP_BANK_SIZE - 1)
          let bank_id := (int_of_unsigned (crtc.offset >>> hw.UXENDISP_BANK_ORDER)).toNat
          let sz := (offset + crtc.regs.yres * crtc.regs.stride % 2 ^ 32) % 2 ^ 32
          let s1 := if ((s.banks[bank_id]?).map bank_state.len).getD 0 < sz
                    then bank_reg_write s bank_id 0 sz else s
          { s1 with crtcs := (s1.crtcs.set crtc_id
              { crtc with xres := crtc.regs.xres, yres := crtc.regs.yres,
                          stride := crtc.regs.stride, format := crtc.regs.format,
                          enable := crtc.regs.enable, flush_pending := false }) }
        else s
      else
        { s with crtcs := (s.crtcs.set crtc_id
            { crtc with enable := crtc.regs.enable, flush_pending := false }) }
    else
      { s with crtcs := (s.crtcs.set crtc_id { crtc with flush_pending := false }) }

/-- The function `crtc_write(s, crtc_id, addr, val)`. -/
def crtc_write (hw : uxdisp_hw) (s : uxendisp_state) (crtc_id : Nat) (reg : crtc_reg)
    (val : Nat) : uxendisp_state :=
  match s.crtcs[crtc_id]? with
  | none => s
  | some crtc =>
    match reg with
    | crtc_reg.OFFSET =>
      crtc_flush hw { s with crtcs := (s.crtcs.set crtc_id { crtc with offset := val }) } crtc_id
    | crtc_reg.ENABLE =>
      { s with crtcs := (s.crtcs.set crtc_id { crtc with regs := { crtc.regs with enable := val } }) }
    | crtc_reg.XRES =>
      { s with crtcs := (s.crtcs.set crtc_id { crtc with regs := { crtc.regs with xres := val } }) }
    | crtc_reg.YRES =>
      { s with crtcs := (s.crtcs.set crtc_id { crtc with regs := { crtc.regs with yres := val } }) }
    | crtc_reg.STRIDE =>
      { s with crtcs := (s.crtcs.set crtc_id { crtc with regs := { crtc.regs with stride := val } }) }
    | crtc_reg.FORMAT =>
      { s with crtcs := (s.crtcs.set crtc_id { crtc with regs := { crtc.regs with format := val } }) }
    | crtc_reg.other => s

/-- The function `uxendisp_mmio_write(opaque, addr, val, size)`. -/
def uxendisp_mmio_write (hw : uxdisp_hw) (s : uxendisp_state) (addr val size : Nat) :
    uxendisp_state :=
  if size ≠ 4 ∨ addr &&& 3 ≠ 0 then s
  else
    match hw.decode addr with
    | mmio_reg.crtc idx reg => crtc_write hw s idx reg (val % 2 ^ 32)
    | mmio_reg.bank idx a => bank_reg_write s idx a (val % 2 ^ 32)
    | mmio_reg.INTERRUPT => { s with isr := s.isr ^^^ (val % 2 ^ 32) }
    | mmio_reg.CURSOR_ENABLE => { s with cursor_en := val &&& 1 }
    | mmio_reg.MODE => crtc_flush hw { s with mode := val % 2 ^ 32 } 0
    | mmio_reg.INTERRUPT_ENABLE => { s with interrupt_en := val % 2 ^ 32 }
    | mmio_reg.invalid => s

/-- The function `uxendisp_pio_write(opaque, addr, val, size)`. -/
def uxendisp_pio_write (hw : uxdisp_hw) (s : uxendisp_state) (addr val size : Nat) :
    uxendisp_state :=
  if size ≠ 4 then s
  else if addr = 0 then { s with io_index := val % 2 ^ 32 }
  else if addr = 4 then uxendisp_mmio_write hw s s.io_index val 4
  else s

/-- What can act on the device: a guest write to the MMIO or the PIO region, a
guest store to the register page of a CRTC, the console refresh
(`uxendisp_update`, which reaches `crtc_flush` through `crtc_draw` when a flush
is pending) and `uxendisp_post_load`. -/
inductive DevOp where
  | mmio_write (addr val size : Nat)
  | pio_write (addr val size : Nat)
  | regs_store (crtc_id : Nat) (regs : crtc_regs)
  | update
  | post_load
deriving DecidableEq, Repr

/-- The device after one operation. -/
def dev_step (hw : uxdisp_hw) (s : uxendisp_state) : DevOp → uxendisp_state
  | DevOp.mmio_write addr val size => uxendisp_mmio_write hw s addr val size
  | DevOp.pio_write addr val size => uxendisp_pio_write hw s addr val size
  | DevOp.regs_store crtc_id regs =>
    { s with crtcs := (s.crtcs.modify (fun crtc => { crtc with regs := regs }) crtc_id) }
  | DevOp.update =>
    if s.mode &&& hw.UXDISP_MODE_VGA_DISABLED ≠ 0 then
      match s.crtcs[0]? with
      | some crtc => if crtc.flush_pending then crtc_flush hw s 0 else s
      | none => s
    else s
  | DevOp.post_load =>
    { s with crtcs := (s.crtcs.map (fun crtc => { crtc with flush_pending := true })) }

/-- The device after a sequence of operations. -/
def dev_run (hw : uxdisp_hw) : List DevOp → uxendisp_state → uxendisp_state
  | [], s => s
  | op :: rest, s => dev_run hw rest (dev_step hw s op)

/-- The device as `uxendisp_initfn` leaves the zeroed `struct uxendisp_state`. -/
def dev_init (hw : uxdisp_hw) : uxendisp_state :=
  { crtcs := (List.range hw.UXENDISP_NB_CRTCS).map (fun i =>
      { status := if i = 0 then 1 else 0, offset := 0, enable := 0, xres := 0, yres := 0,
        stride := 0, format := 0,
        regs := { enable := 0, xres := 0, yres := 0, stride := 0, format := 0 },
        flush_pending := false }),
    banks := List.replicate hw.UXENDISP_NB_BANKS { len := 0x1000 },
    io_index := 0, isr := 0, interrupt_en := 0, cursor_en := 0, mode := 0 }

/-- The fields of a CRTC marked `Validated` hold values that pass the checks of
`crtc_flush`, or the initial zero format. -/
def crtc_validated (hw : uxdisp_hw) (crtc : crtc_state) : Prop :=
  crtc.xres ≤ UXENDISP_XRES_MAX ∧ crtc.yres ≤ UXENDISP_YRES_MAX ∧
    crtc.stride ≤ UXENDISP_STRIDE_MAX ∧
    (fmt_valid hw (int_of_unsigned crtc.format) = true ∨ crtc.format = 0)

/-- The resolution fields of every CRTC of the device. -/
def modes (s : uxendisp_state) : List (Nat × Nat × Nat × Nat) :=
  s.crtcs.map (fun crtc => (crtc.xres, crtc.yres, crtc.stride, crtc.format))

/-- A sample hardware interface: two CRTCs, four banks of 32 MiB, a register
block per CRTC at 0x2000 and the mode register at 0x18. -/
def sample_hw : uxdisp_hw :=
  { UXENDISP_NB_CRTCS := 2, UXENDISP_NB_BANKS := 4, UXENDISP_BANK_ORDER := 25,
    UXENDISP_BANK_SIZE := 2 ^ 25, UXDISP_MODE_VGA_DISABLED := 1,
    UXDISP_CRTC_FORMAT_BGRX_8888 := 0, UXDISP_CRTC_FORMAT_BGR_888 := 1,
    UXDISP_CRTC_FORMAT_BGR_565 := 2, UXDISP_CRTC_FORMAT_BGR_555 := 3,
    decode := fun addr =>
      if addr = 0x18 then mmio_reg.MODE
      else if addr = 0x2000 then mmio_reg.crtc 0 crtc_reg.OFFSET
      else if addr = 0x2004 then mmio_reg.crtc 0 crtc_reg.ENABLE
      else if addr = 0x2008 then mmio_reg.crtc 0 crtc_reg.XRES
      else if addr = 0x200c then mmio_reg.crtc 0 crtc_reg.YRES
      else if addr = 0x2010 then mmio_reg.crtc 0 crtc_reg.STRIDE
      else if addr = 0x2014 then mmio_reg.crtc 0 crtc_reg.FORMAT
      else mmio_reg.invalid }

/-- A guest programs 1024 x 768 at stride 4096 and flushes, then programs a
width of 30000 and flushes again. -/
def sample_ops : List DevOp :=
  [DevOp.mmio_write 0x18 1 4, DevOp.mmio_write 0x2004 1 4, DevOp.mmio_write 0x2008 1024 4,
   DevOp.mmio_write 0x200c 768 4, DevOp.mmio_write 0x2010 4096 4, DevOp.mmio_write 0x2000 0 4,
   DevOp.mmio_write 0x2008 30000 4, DevOp.mmio_write 0x2000 0 4]

end UxenDisplay

namespace UxenNet

/-! ## `uxen_net::receivePacket` (debugger polling receive) -/

/-- Calls `receivePacket` makes, in program order. -/
inductive PollEvent where
  /-- The call `v4v_service->receiveFromRing(v4v_ring, pkt, 1518, true)`. -/
  | receiveFromRing
  /-- The call `IOSleep(wait_ms)`. -/
  | IOSleep (wait_ms : Nat)
  /-- The call `v4v_service->notify()`. -/
  | notify
deriving DecidableEq, Repr

/-- The loop `while (true)` of `receivePacket` with the locals
`total_time_waited` and `next_wait_ms` (both `uint32_t`); `poll k` is the value
the `k`-th call of `receiveFromRing` returns and `fuel` bounds the number of
passes. Returns `*pktSize` and the calls made, `none` when the passes run out. -/
def receivePacket_loop (poll : Nat → Int) (timeout_ms : Nat) :
    Nat → Nat → Nat → Nat → Option (Nat × List PollEvent)
  | 0, _, _, _ => none
  | fuel + 1, k, total_time_waited, next_wait_ms =>
    let receive_message := poll k
    if receive_message > 0 then
      some (min (receive_message.toNat % 2 ^ 32) 1518,
        [PollEvent.receiveFromRing, PollEvent.notify])
    else if total_time_waited ≥ timeout_ms then
      some (0, [PollEvent.receiveFromRing])
    else
      let wait_ms := min ((timeout_ms - total_time_waited) % 2 ^ 32) next_wait_ms
      match receivePacket_loop poll timeout_ms fuel (k + 1)
          ((total_time_waited + wait_ms) % 2 ^ 32) ((next_wait_ms + 1) % 2 ^ 32) with
      | none => none
      | some (pktSize, calls) =>
        some (pktSize, PollEvent.receiveFromRing :: PollEvent.IOSleep wait_ms :: calls)

/-- The method `uxen_net::receivePacket(pkt, pktSize, timeout_ms)`. -/
def receivePacket (poll : Nat → Int) (timeout_ms : Nat) (fuel : Nat) :
    Option (Nat × List PollEvent) :=
  receivePacket_loop poll timeout_ms fuel 0 0 1

/-- The arguments of the `IOSleep` calls in a trace, in order. -/
def sleeps : List PollEvent → List Nat
  | [] => []
  | PollEvent.IOSleep w :: rest => w :: sleeps rest
  | _ :: rest => sleeps rest

/-- The trace of a run that slept `l` and whose last poll was answered
`last`: a poll before every sleep, the last poll, and `notify` after a packet. -/
def poll_trace (l : List Nat) (last : Int) : List PollEvent :=
  l.flatMap (fun w => [PollEvent.receiveFromRing, PollEvent.IOSleep w])
    ++ PollEvent.receiveFromRing :: (if 0 < last then [PollEvent.notify] else [])

/-- A ring that stays empty. -/
def poll_empty : Nat → Int := fun _ => 0

/-- A ring on which a packet of 60 bytes shows up at the fourth poll. -/
def poll_fourth : Nat → Int := fun k => if k = 3 then 60 else -1

end UxenNet

namespace UxenDisplay

/-! ## Drawing a CRTC (`crtc_draw`) -/

/-- The shift `TARGET_PAGE_BITS` of the device model. -/
def TARGET_PAGE_BITS : Nat := 12

/-- What `crtc_draw` gets from outside the device state: whether `crtc->ds` is
set, the results of `xen_hvm_track_dirty_vram` and `ds_surface_lock`, the byte
the code finds at each index of `dirty`, `ds_vram_surface(crtc->ds->surface)` and
`bank->vram.mapped_len`. -/
structure DrawEnv where
  ds : Bool
  track_dirty_rc : Int
  surface_lock : Int
  dirty : Nat → Nat
  vram_surface : Bool
  mapped_len : Nat

/-- What `crtc_draw` does once its page-count check has passed: the bank it
takes `vram.gfn` from, the `npages` it sizes `dirty` with (the bitmap has
`(npages + 7) / 8` bytes) and the page indices `pagei` it reads `dirty` at. -/
structure DrawTrace where
  bank_id : Int
  npages : Int
  reads : List Nat
deriving DecidableEq, Repr

/-- The loop `for (y = 0; y < crtc->yres; y++)` of `crtc_draw` with `rows` lines
to go and the local `addr1`: the page indices at which `dirty` is read. The
copies of the lines and the `dpy_update` calls are not followed. -/
def draw_rows (env : DrawEnv) (crtc : crtc_state) : Nat → Nat → List Nat
  | 0, _ => []
  | rows + 1, addr1 =>
    let addr := addr1
    let page0 := addr >>> TARGET_PAGE_BITS
    let page1 := ((addr + crtc.stride + (2 ^ 32 - 1)) % 2 ^ 32) >>> TARGET_PAGE_BITS
    let pages := List.range' page0 (page1 + 1 - page0)
    let update := pages.any (fun pagei => env.dirty (pagei / 8) &&& (1 <<< (pagei % 8)) != 0)
    if update ∧ env.vram_surface = false ∧ (addr1 + crtc.xres * 4 % 2 ^ 32) % 2 ^ 32 > env.mapped_len then
      pages
    else
      pages ++ draw_rows env crtc rows ((addr1 + crtc.stride) % 2 ^ 32)

/-- The function `crtc_draw(s, crtc_id)`: the device state afterwards and, when
the page-count check of line 190 passed, what was done after it. -/
def crtc_draw (hw : uxdisp_hw) (env : DrawEnv) (s : uxendisp_state) (crtc_id : Nat) :
    uxendisp_state × Option DrawTrace :=
  match s.crtcs[crtc_id]? with
  | none => (s, none)
  | some crtc0 =>
    let bank_id := int_of_unsigned (crtc0.offset >>> hw.UXENDISP_BANK_ORDER)
    let s1 := if crtc0.flush_pending then crtc_flush hw s crtc_id else s
    if env.ds = false then (s1, none)
    else
      match s1.crtcs[crtc_id]? with
      | none => (s1, none)
      | some crtc =>
        let npages := int_of_unsigned
          (((crtc.offset + crtc.stride * crtc.yres % 2 ^ 32 + (TARGET_PAGE_SIZE - 1)) % 2 ^ 32)
            >>> TARGET_PAGE_BITS)
        if npages > ((hw.UXENDISP_BANK_SIZE >>> TARGET_PAGE_BITS : Nat) : Int) then (s1, none)
        else if env.track_dirty_rc ≠ 0 then (s1, some { bank_id := bank_id, npages := npages, reads := [] })
        else if env.surface_lock ≠ 0 then (s1, some { bank_id := bank_id, npages := npages, reads := [] })
        else
          (s1, some { bank_id := bank_id, npages := npages,
                      reads := draw_rows env crtc crtc.yres crtc.offset })

/-- A guest programs 16 x 2 at stride 4096 at offset 0, which `crtc_flush`
accepts, and then writes 0xFFFFF000 to the offset register. -/
def wrap_ops : List DevOp :=
  [DevOp.mmio_write 0x18 1 4, DevOp.mmio_write 0x2004 1 4, DevOp.mmio_write 0x2008 16 4,
   DevOp.mmio_write 0x200c 2 4, DevOp.mmio_write 0x2010 4096 4, DevOp.mmio_write 0x2000 0 4,
   DevOp.mmio_write 0x2000 0xFFFFF000 4]

/-- A console with a display surface, no dirty pages and no failing call. -/
def quiet_env : DrawEnv :=
  { ds := true, track_dirty_rc := 0, surface_lock := 0, dirty := fun _ => 0,
    vram_surface := true, mapped_len := 0 }

end UxenDisplay

namespace Domctl

/-! ## The hypercall `do_domctl` (xen/common/domctl.c)

A domain is named by the pointer `rcu_lock_domain_by_id` returns for it. What
the hypercall gets from the guest and from the rest of the hypervisor is the
record `DomctlEnv`; the calls that take, release or pause a domain are traced. -/

/-- Errno `EPERM`. -/
def EPERM : Int := 1

/-- Errno `ESRCH`. -/
def ESRCH : Int := 3

/-- Errno `ENXIO`. -/
def ENXIO : Int := 6

/-- Errno `ENOMEM`. -/
def ENOMEM : Int := 12

/-- Errno `EACCES`. -/
def EACCES : Int := 13

/-- Errno `EFAULT`. -/
def EFAULT : Int := 14

/-- Errno `EEXIST`. -/
def EEXIST : Int := 17

/-- Errno `EINVAL`. -/
def EINVAL : Int := 22

/-- The commands `op->cmd` with a case of their own in `do_domctl`; every other
command is handled by `arch_do_domctl`. -/
inductive Cmd where
  | XEN_DOMCTL_pausedomain
  | XEN_DOMCTL_unpausedomain
  | XEN_DOMCTL_resumedomain
  | XEN_DOMCTL_max_vcpus
  | XEN_DOMCTL_destroydomain
  | XEN_DOMCTL_getdomaininfo
  | XEN_DOMCTL_getvcpucontext
  | XEN_DOMCTL_getvcpuinfo
  | XEN_DOMCTL_max_mem
  | XEN_DOMCTL_setdomainhandle
  | XEN_DOMCTL_setdebugging
  | XEN_DOMCTL_settimeoffset
  | XEN_DOMCTL_set_introspection_features
  | other
deriving DecidableEq, Repr

/-- Calls of `do_domctl`, in program order. -/
inductive Call where
  /-- The call `rcu_lock_domain_by_id(op->domain)` and the pointer it returned. -/
  | rcu_lock_domain_by_id (domid : Nat) (d : Option Nat)
  /-- The call `rcu_lock_domain_by_uuid(handle, UUID_HANDLE)` and its result. -/
  | rcu_lock_domain_by_uuid (d : Option Nat)
  /-- The call `rcu_unlock_domain(d)`. -/
  | rcu_unlock_domain (d : Nat)
  /-- The call `domctl_lock_acquire()` that succeeded. -/
  | domctl_lock_acquire
  /-- The call `domctl_lock_release()`. -/
  | domctl_lock_release
  /-- The calls `domain_pause(d)` and `domain_pause_by_systemcontroller(d)`. -/
  | domain_pause (d : Nat)
  /-- The calls `domain_unpause(d)` and `domain_unpause_by_systemcontroller(d)`. -/
  | domain_unpause (d : Nat)
  /-- The call `domain_resume(d)`. -/
  | domain_resume (d : Nat)
  /-- The call `domain_set_max_vcpus(d, max)`. -/
  | domain_set_max_vcpus (d : Nat) (max : Nat)
  /-- The call `domain_kill(d)`. -/
  | domain_kill (d : Nat)
  /-- The call `arch_do_domctl(op, u_domctl)`. -/
  | arch_do_domctl
deriving DecidableEq, Repr

/-- What `do_domctl` is given: the operation copied from the guest, the answers
of the domain lookups (the first in the access check, the second in the case of
the command), of the XSM hook of the command and of the other functions it
calls, and the limits `MAX_VIRT_CPUS` and `MAX_HVM_VCPUS` of the build. -/
structure DomctlEnv where
  copy_from_guest : Bool
  interface_version_ok : Bool
  cmd : Cmd
  domain : Nat
  max : Nat
  first_lookup : Option Nat
  second_lookup : Option Nat
  uuid_lookup : Option Nat
  IS_PRIV_FOR : Bool
  current_domain : Nat
  xsm : Int
  MAX_VIRT_CPUS : Nat
  MAX_HVM_VCPUS : Nat
  is_hvm_domain : Bool
  domain_set_max_vcpus : Int
  domain_kill : Int
  domain_in_list : Bool
  copy_to_guest : Bool
  copy_ctxt_to_guest : Int
  vcpu_in_range : Bool
  vcpu_present : Bool
  vcpu_initialised : Bool
  xmalloc_ok : Bool
  UXEN_debugger : Bool
  arch_do_domctl : Int

/-- The function `do_domctl_max_vcpus(d, max)`. -/
def do_domctl_max_vcpus (env : DomctlEnv) (d : Nat) (max : Nat) : Int × List Call :=
  if d = env.current_domain ∨ max > env.MAX_VIRT_CPUS ∨
      (env.is_hvm_domain = true ∧ max > env.MAX_HVM_VCPUS) then
    (-EINVAL, [Call.rcu_unlock_domain d])
  else if env.xsm ≠ 0 then
    (env.xsm, [Call.rcu_unlock_domain d])
  else
    (env.domain_set_max_vcpus,
      [Call.domain_pause d, Call.domain_set_max_vcpus d max, Call.domain_unpause d])

/-- The second `switch ( op->cmd )` of `do_domctl`: the value left in `ret` and
the calls made. -/
def do_domctl_case (env : DomctlEnv) : Int × List Call :=
  let lock := Call.rcu_lock_domain_by_id env.domain env.second_lookup
  match env.cmd with
  | Cmd.XEN_DOMCTL_pausedomain =>
    match env.second_lookup with
    | none => (-ESRCH, [lock])
    | some d =>
      if env.xsm ≠ 0 then (env.xsm, [lock, Call.rcu_unlock_domain d])
      else if d ≠ env.current_domain then
        (0, [lock, Call.domain_pause d, Call.rcu_unlock_domain d])
      else (-EINVAL, [lock, Call.rcu_unlock_domain d])
  | Cmd.XEN_DOMCTL_unpausedomain =>
    match env.second_lookup with
    | none => (-ESRCH, [lock])
    | some d =>
      if env.xsm ≠ 0 then (env.xsm, [lock, Call.rcu_unlock_domain d])
      else (0, [lock, Call.domain_unpause d, Call.rcu_unlock_domain d])
  | Cmd.XEN_DOMCTL_resumedomain =>
    match env.second_lookup with
    | none => (-ESRCH, [lock])
    | some d =>
      if env.xsm ≠ 0 then (env.xsm, [lock, Call.rcu_unlock_domain d])
      else (0, [lock, Call.domain_resume d, Call.rcu_unlock_domain d])
  | Cmd.XEN_DOMCTL_max_vcpus =>
    match env.second_lookup with
    | none => (-ESRCH, [lock])
    | some d =>
      let r := do_domctl_max_vcpus env d env.max
      (r.1, lock :: r.2 ++ [Call.rcu_unlock_domain d])
  | Cmd.XEN_DOMCTL_destroydomain =>
    match env.second_lookup with
    | none => (-ESRCH, [lock])
    | some d =>
      if env.xsm ≠ 0 then (env.xsm, [lock, Call.rcu_unlock_domain d])
      else (env.domain_kill, [lock, Call.domain_kill d, Call.rcu_unlock_domain d])
  | Cmd.XEN_DOMCTL_getdomaininfo =>
    if env.domain_in_list = false then (-ESRCH, [])
    else if env.xsm ≠ 0 then (env.xsm, [])
    else if env.copy_to_guest then (-EFAULT, [])
    else (0, [])
  | Cmd.XEN_DOMCTL_getvcpucontext =>
    match env.second_lookup with
    | none => (-ESRCH, [lock])
    | some d =>
      let ret : Int :=
        if env.xsm ≠ 0 then env.xsm
        else if env.vcpu_in_range = false then -EINVAL
        else if env.vcpu_present = false then -ESRCH
        else if env.vcpu_initialised = false then - ENXIO
        else if env.xmalloc_ok = false then -ENOMEM
        else if env.copy_to_guest ∨ env.copy_ctxt_to_guest ≠ 0 then -EFAULT
        else env.copy_ctxt_to_guest
      (ret, [lock, Call.rcu_unlock_domain d])
  | Cmd.XEN_DOMCTL_getvcpuinfo =>
    match env.second_lookup with
    | none => (-ESRCH, [lock])
    | some d =>
      let ret : Int :=
        if env.xsm ≠ 0 then env.xsm
        else if env.vcpu_in_range = false then -EINVAL
        else if env.vcpu_present = false then -ESRCH
        else if env.copy_to_guest then -EFAULT
        else 0
      (ret, [lock, Call.rcu_unlock_domain d])
  | Cmd.XEN_DOMCTL_max_mem =>
    match env.second_lookup with
    | none => (-ESRCH, [lock])
    | some d =>
      if env.xsm ≠ 0 then (env.xsm, [lock, Call.rcu_unlock_domain d])
      else (0, [lock, Call.rcu_unlock_domain d])
  | Cmd.XEN_DOMCTL_setdomainhandle =>
    match env.second_lookup with
    | none => (-ESRCH, [lock])
    | some d =>
      if env.xsm ≠ 0 then (env.xsm, [lock, Call.rcu_unlock_domain d])
      else
        match env.uuid_lookup with
        | some d_uuid =>
          (if d_uuid = d then 0 else -EEXIST,
            [lock, Call.rcu_lock_domain_by_uuid (some d_uuid), Call.rcu_unlock_domain d_uuid,
              Call.rcu_unlock_domain d])
        | none => (0, [lock, Call.rcu_lock_domain_by_uuid none, Call.rcu_unlock_domain d])
  | Cmd.XEN_DOMCTL_setdebugging =>
    if env.UXEN_debugger = false then (env.arch_do_domctl, [Call.arch_do_domctl])
    else
      match env.second_lookup with
      | none => (-ESRCH, [lock])
      | some d =>
        if d = env.current_domain then (-EINVAL, [lock, Call.rcu_unlock_domain d])
        else if env.xsm ≠ 0 then (env.xsm, [lock, Call.rcu_unlock_domain d])
        else (0, [lock, Call.domain_pause d, Call.domain_unpause d, Call.rcu_unlock_domain d])
  | Cmd.XEN_DOMCTL_settimeoffset =>
    match env.second_lookup with
    | none => (-ESRCH, [lock])
    | some d =>
      if env.xsm ≠ 0 then (env.xsm, [lock, Call.rcu_unlock_domain d])
      else (0, [lock, Call.rcu_unlock_domain d])
  | Cmd.XEN_DOMCTL_set_introspection_features =>
    match env.second_lookup with
    | none => (-ESRCH, [lock])
    | some d => (0, [lock, Call.rcu_unlock_domain d])
  | Cmd.other => (env.arch_do_domctl, [Call.arch_do_domctl])

/-- The hypercall `do_domctl(u_domctl)`: its return value and the calls made. -/
def do_domctl (env : DomctlEnv) : Int × List Call :=
  if env.copy_from_guest then (-EFAULT, [])
  else if env.interface_version_ok = false then (-EACCES, [])
  else
    let lock := Call.rcu_lock_domain_by_id env.domain env.first_lookup
    match env.first_lookup with
    | none => (-EEXIST, [lock])
    | some d =>
      if env.IS_PRIV_FOR = false then (-EPERM, [lock, Call.rcu_unlock_domain d])
      else
        let r := do_domctl_case env
        (r.1, [lock, Call.rcu_unlock_domain d, Call.domctl_lock_acquire] ++ r.2
                ++ [Call.domctl_lock_release])

/-- How many references to the domain `d` a trace takes with
`rcu_lock_domain_by_id`. -/
def locks_by_id (d : Nat) : List Call → Nat
  | [] => 0
  | Call.rcu_lock_domain_by_id _ (some x) :: rest =>
    (if x = d then 1 else 0) + locks_by_id d rest
  | _ :: rest => locks_by_id d rest

/-- How many references to the domain `d` a trace takes with
`rcu_lock_domain_by_uuid`. -/
def locks_by_uuid (d : Nat) : List Call → Nat
  | [] => 0
  | Call.rcu_lock_domain_by_uuid (some x) :: rest =>
    (if x = d then 1 else 0) + locks_by_uuid d rest
  | _ :: rest => locks_by_uuid d rest

/-- How many times a trace calls `rcu_unlock_domain` on the domain `d`. -/
def unlocks (d : Nat) : List Call → Nat
  | [] => 0
  | Call.rcu_unlock_domain x :: rest => (if x = d then 1 else 0) + unlocks d rest
  | _ :: rest => unlocks d rest

/-- A privileged caller (domain 0) asks for 9000 vcpus for the HVM domain 7,
where `MAX_VIRT_CPUS` is 8192 and `MAX_HVM_VCPUS` is 128. -/
def env_too_many_vcpus : DomctlEnv :=
  { copy_from_guest := false, interface_version_ok := true,
    cmd := Cmd.XEN_DOMCTL_max_vcpus, domain := 7, max := 9000,
    first_lookup := some 7, second_lookup := some 7, uuid_lookup := none,
    IS_PRIV_FOR := true, current_domain := 0, xsm := 0,
    MAX_VIRT_CPUS := 8192, MAX_HVM_VCPUS := 128, is_hvm_domain := true,
    domain_set_max_vcpus := 0, domain_kill := 0, domain_in_list := true,
    copy_to_guest := false, copy_ctxt_to_guest := 0, vcpu_in_range := true,
    vcpu_present := true, vcpu_initialised := true, xmalloc_ok := true,
    UXEN_debugger := false, arch_do_domctl := 0 }

end Domctl

namespace SharedFolders

/-! ## Path prefixes, as the specification words them -/

/-- A string with one leading `\\?\` marker removed and then all its leading
separators removed. -/
def strip_spec (s : wstr) : wstr :=
  (if long_path_marker <+: s then s.drop long_path_marker.length else s).dropWhile
    (fun c => c = PATH_SEP ∨ c = PATH_SEP_ALT)

/-- The relation of the specification: with both arguments stripped, `pfx`
equals under `towlower`, character by character, the first `|pfx|` characters of
`path`, and the next character of `path` is a separator or the end of the
string. -/
def path_prefix_spec (towlower : Nat → Nat) (pfx path : wstr) : Prop :=
  (strip_spec pfx).length ≤ (strip_spec path).length ∧
  (∀ i, i < (strip_spec pfx).length →
    ((strip_spec path)[i]?).map towlower = ((strip_spec pfx)[i]?).map towlower) ∧
  ((strip_spec path)[(strip_spec pfx).length]? = none ∨
    (strip_spec path)[(strip_spec pfx).length]? = some PATH_SEP ∨
    (strip_spec path)[(strip_spec pfx).length]? = some PATH_SEP_ALT)

/-- The string `\\?\C:\Docs`. -/
def sample_prefix_marked : wstr := [92, 92, 63, 92, 67, 58, 92, 68, 111, 99, 115]

/-- The string `\c:\docs\a.txt`. -/
def sample_path_lower : wstr := [92, 99, 58, 92, 100, 111, 99, 115, 92, 97, 46, 116, 120, 116]

end SharedFolders

namespace SharedFolders

/-! ## Saving and loading the option list (`state_save`, `state_load`)

A `QEMUFile` is the sequence of its bytes: written at the end, read from the
front. The functions `qemu_put_be32`, `qemu_put_be64`, `qemu_put_buffer`,
`qemu_get_be32`, `qemu_get_be64` and `qemu_get_buffer` of the device model's file
API are not among the sources; they are taken as the big-endian byte stream
they are in QEMU, where a read past the end yields zero bytes. A `wchar_t` has
two bytes, as the `len*2` of `put_wstr` and `get_wstr` has it, stored low byte
first. -/

/-- A `QEMUFile`: its bytes. -/
abbrev QEMUFile := List Nat

/-- The four bytes of a 32-bit value, most significant first. -/
def be32 (v : Nat) : List Nat :=
  [v / 2 ^ 24 % 256, v / 2 ^ 16 % 256, v / 2 ^ 8 % 256, v % 256]

/-- The function `qemu_put_be32(f, v)`. -/
def qemu_put_be32 (f : QEMUFile) (v : Nat) : QEMUFile :=
  f ++ be32 v

/-- The function `qemu_put_be64(f, v)`. -/
def qemu_put_be64 (f : QEMUFile) (v : Nat) : QEMUFile :=
  qemu_put_be32 (qemu_put_be32 f (v / 2 ^ 32)) v

/-- The function `qemu_put_buffer(f, buf, size)` for the bytes `buf`. -/
def qemu_put_buffer (f : QEMUFile) (buf : List Nat) : QEMUFile :=
  f ++ buf

/-- The function `qemu_get_be32(f)`: the value read and the file afterwards. -/
def qemu_get_be32 (f : QEMUFile) : Nat × QEMUFile :=
  (f.getD 0 0 * 2 ^ 24 + f.getD 1 0 * 2 ^ 16 + f.getD 2 0 * 2 ^ 8 + f.getD 3 0, f.drop 4)

/-- The function `qemu_get_be64(f)`. -/
def qemu_get_be64 (f : QEMUFile) : Nat × QEMUFile :=
  let hi := qemu_get_be32 f
  let lo := qemu_get_be32 hi.2
  (hi.1 * 2 ^ 32 + lo.1, lo.2)

/-- The function `qemu_get_buffer(f, buf, size)`: the bytes read (none for a
`size` that is not positive) and the file afterwards. -/
def qemu_get_buffer (f : QEMUFile) (size : Int) : List Nat × QEMUFile :=
  (f.take size.toNat, f.drop size.toNat)

/-- The bytes of a `wchar_t` array holding the characters `s`. -/
def wchar_bytes : wstr → List Nat
  | [] => []
  | c :: rest => c % 256 :: c / 256 % 256 :: wchar_bytes rest

/-- The `wchar_t` string in a zeroed buffer into which `bytes` were copied: its
characters up to the first NUL. -/
def wstr_of_bytes : List Nat → wstr
  | lo :: hi :: rest =>
    if lo + 256 * hi = 0 then [] else (lo + 256 * hi) :: wstr_of_bytes rest
  | [lo] => if lo = 0 then [] else [lo]
  | [] => []

/-- The C conversion of the `unsigned int` that `qemu_get_be32` returns to the
`int len` of `get_wstr`. -/
def int_of_be32 (v : Nat) : Int :=
  if v % 2 ^ 32 < 2 ^ 31 then ((v % 2 ^ 32 : Nat) : Int) else ((v % 2 ^ 32 : Nat) : Int) - 2 ^ 32

/-- The function `put_wstr(f, s)`. -/
def put_wstr (f : QEMUFile) (s : wstr) : QEMUFile :=
  let len := s.length
  qemu_put_buffer (qemu_put_be32 f (len % 2 ^ 32)) (wchar_bytes s)

/-- The function `get_wstr(f, s)`: the string in the buffer `s` afterwards and
the file afterwards. -/
def get_wstr (f : QEMUFile) (s : wstr) : wstr × QEMUFile :=
  let r := qemu_get_be32 f
  let len := int_of_be32 r.1
  if len < (SUBFOLDER_PATHMAX : Int) then
    let b := qemu_get_buffer r.2 (len * 2)
    (wstr_of_bytes b.1, b.2)
  else (s, r.2)

/-- The function `state_save(f, opaque)` on the list `folder_opt_entries`. -/
def state_save (f : QEMUFile) (folder_opt_entries : List folder_opt_entry) : QEMUFile :=
  let count := folder_opt_entries.length % 2 ^ 32
  folder_opt_entries.foldl
    (fun f e => qemu_put_be64 (put_wstr (put_wstr f e.mapname) e.subfolder) (e.opts % 2 ^ 64))
    (qemu_put_be32 f count)

/-- The loop `while (count--)` of `state_load`; each new entry comes zeroed from
`calloc`. -/
def load_loop : Nat → QEMUFile → List folder_opt_entry → List folder_opt_entry × QEMUFile
  | 0, f, entries => (entries, f)
  | count + 1, f, entries =>
    let m := get_wstr f []
    let s := get_wstr m.2 []
    let o := qemu_get_be64 s.2
    load_loop count o.2 (entries ++ [{ mapname := m.1, subfolder := s.1, opts := o.1 }])

/-- The function `state_load(f, opaque, version_id)`: the list
`folder_opt_entries` afterwards and the file afterwards. It returns 0. -/
def state_load (f : QEMUFile) (folder_opt_entries : List folder_opt_entry) :
    List folder_opt_entry × QEMUFile :=
  let c := qemu_get_be32 f
  let count := c.1
  load_loop count c.2 (if count ≠ 0 then [] else folder_opt_entries)

/-- A `wchar_t` string that fits its array of `SUBFOLDER_PATHMAX` characters
with the terminator: fewer than 512 characters, each a nonzero 16-bit value. -/
def wstr_ok (s : wstr) : Prop :=
  s.length < SUBFOLDER_PATHMAX ∧ ∀ c ∈ s, c ≠ 0 ∧ c < 2 ^ 16

instance (s : wstr) : Decidable (wstr_ok s) := by
  unfold wstr_ok
  infer_instance

/-- An entry as the list holds it: two strings that fit and a 64-bit `opts`. -/
def entry_ok (e : folder_opt_entry) : Prop :=
  wstr_ok e.mapname ∧ wstr_ok e.subfolder ∧ e.opts < 2 ^ 64

instance (e : folder_opt_entry) : Decidable (entry_ok e) := by
  unfold entry_ok
  infer_instance

/-- The bytes `state_save` writes for one entry. -/
def entry_bytes (e : folder_opt_entry) : List Nat :=
  be32 (e.mapname.length % 2 ^ 32) ++ wchar_bytes e.mapname
    ++ (be32 (e.subfolder.length % 2 ^ 32) ++ wchar_bytes e.subfolder)
    ++ (be32 (e.opts % 2 ^ 64 / 2 ^ 32) ++ be32 (e.opts % 2 ^ 64))

/-- The option entry of `docs` for the root of the mapping, with `opts` 5. -/
def entry_root : folder_opt_entry :=
  { mapname := [100, 111, 99, 115], subfolder := [], opts := 5 }

end SharedFolders

namespace Patcher

/-! ## The pattern search of the patcher (vm-support/windows/uxenpatcher/patcher.c)

An array passed by pointer is the function from an index to the element there;
its size is passed separately, as in the code. The values of the `int`
variables stay between -1 and the sizes, so no `int` arithmetic overflows. -/

/-- The loop `while (k > -1 && pattern[k + 1] != c) k = pi[k];` of `pre_kmp` and
`kmp`, where `c` is `pattern[i]` resp. `target[i]`: the value of `k` after it,
`none` when it takes more than `fuel` tests of the condition. -/
def kmp_back (pi : Nat → Int) (pattern : Nat → Nat) (c : Nat) : Nat → Int → Option Int
  | 0, _ => none
  | fuel + 1, k =>
    if k > -1 ∧ pattern (k + 1).toNat ≠ c then kmp_back pi pattern c fuel (pi k.toNat)
    else some k

/-- The loop `for (i = 1; i < psize; i++)` of `pre_kmp` with `n` passes to go:
the array `pi` afterwards. -/
def pre_kmp_loop (pattern : Nat → Nat) (fuel : Nat) :
    Nat → Nat → Int → (Nat → Int) → Option (Nat → Int)
  | 0, _, _, pi => some pi
  | n + 1, i, k, pi =>
    match kmp_back pi pattern (pattern i) fuel k with
    | none => none
    | some k1 =>
      let k2 := if pattern i = pattern (k1 + 1).toNat then k1 + 1 else k1
      pre_kmp_loop pattern fuel n (i + 1) k2 (Function.update pi i k2)

/-- The function `pre_kmp(pi, pattern, psize)`: the array `pi` afterwards. -/
def pre_kmp (pi : Nat → Int) (pattern : Nat → Nat) (psize : Nat) (fuel : Nat) :
    Option (Nat → Int) :=
  pre_kmp_loop pattern fuel (psize - 1) 1 (-1) (Function.update pi 0 (-1))

/-- The loop `for (i = 0; i < tsize; i++)` of `kmp` with `n` passes to go: the
value `kmp` returns. -/
def kmp_loop (pi : Nat → Int) (target pattern : Nat → Nat) (psize : Nat) (fuel : Nat) :
    Nat → Nat → Int → Option Int
  | 0, _, _ => some (-1)
  | n + 1, i, k =>
    match kmp_back pi pattern (target i) fuel k with
    | none => none
    | some k1 =>
      let k2 := if target i = pattern (k1 + 1).toNat then k1 + 1 else k1
      if k2 = (psize : Int) - 1 then some ((i : Int) - k2)
      else kmp_loop pi target pattern psize fuel n (i + 1) k2

/-- The function `kmp(pi, target, tsize, pattern, psize)`; `pi` is the scratch
array as the caller passes it. -/
def kmp (pi : Nat → Int) (target : Nat → Nat) (tsize : Nat) (pattern : Nat → Nat)
    (psize : Nat) (fuel : Nat) : Option Int :=
  match pre_kmp pi pattern psize fuel with
  | none => none
  | some pi1 => kmp_loop pi1 target pattern psize fuel tsize 0 (-1)

/-- The pattern occurs in the target at index `i`: `target[i .. i+psize-1]`
equals `pattern[0 .. psize-1]`. -/
def occurs_at (target pattern : Nat → Nat) (psize i : Nat) : Prop :=
  ∀ j, j < psize → target (i + j) = pattern j

/-- The first `q` characters of `p` are the `q` characters of `t` before index
`i`. -/
def matches_ending (t p : Nat → Nat) (q i : Nat) : Prop :=
  q ≤ i ∧ ∀ j, j < q → t (i - q + j) = p j

/-- The longest prefix of `p` that ends in `t` right before index `i` has `q`
characters. -/
def longest_ending (t p : Nat → Nat) (q i : Nat) : Prop :=
  matches_ending t p q i ∧ ∀ q2, matches_ending t p q2 i → q2 ≤ q

/-- The array `p` from its second element on. -/
def shifted (p : Nat → Nat) : Nat → Nat :=
  fun j => p (j + 1)

/-- The first `m` entries of `pi` are the failure function of `p`: `pi[j] + 1` is
the length of the longest proper prefix of `p[0 .. j]` that is also its suffix. -/
def pi_ok (p : Nat → Nat) (pi : Nat → Int) (m : Nat) : Prop :=
  ∀ j, j < m → ∃ b : Nat, pi j = (b : Int) - 1 ∧ longest_ending (shifted p) p b j

/-- The array holding `xs`, with 0 behind it. -/
def array_of (xs : List Nat) : Nat → Nat :=
  fun i => xs.getD i 0

end Patcher

/-! # Theorems -/

namespace Uxenstor

/-! ## Facts about the id map -/

theorem lookup_filter_self (l : List (Int × scsi_cmnd)) (id : Int) :
    (l.filter (fun e => e.1 != id)).lookup id = none := by
  induction l with
  | nil => rfl
  | cons e l ih =>
    obtain ⟨k, v⟩ := e
    rw [List.filter_cons]
    by_cases h : k = id
    · subst h; simpa using ih
    · have h2 : (id == k) = false := by simpa using fun h3 => h h3.symm
      have h4 : (k != id) = true := by simpa using h
      simp only [h4, if_true, List.lookup, h2, ih]

theorem lookup_filter_ne (l : List (Int × scsi_cmnd)) (id id2 : Int) (hne : id2 ≠ id) :
    (l.filter (fun e => e.1 != id)).lookup id2 = l.lookup id2 := by
  induction l with
  | nil => rfl
  | cons e l ih =>
    obtain ⟨k, v⟩ := e
    rw [List.filter_cons]
    by_cases h : k = id
    · subst h
      have h2 : (id2 == k) = false := by simpa using hne
      have h4 : (k != k) = false := by simp
      simp only [h4, List.lookup, h2]
      simpa using ih
    · have h4 : (k != id) = true := by simpa using h
      by_cases h3 : id2 = k
      · subst h3; simp only [h4, if_true, List.lookup, beq_self_eq_true]
      · have h2 : (id2 == k) = false := by simpa using h3
        simp only [h4, if_true, List.lookup, h2, ih]

theorem idr_find_remove_self (m : idr) (id : Int) : idr_find (idr_remove m id) id = none :=
  lookup_filter_self m.entries id

theorem idr_find_remove_ne (m : idr) (id id2 : Int) (hne : id2 ≠ id) :
    idr_find (idr_remove m id) id2 = idr_find m id2 :=
  lookup_filter_ne m.entries id id2 hne

end Uxenstor

namespace Uxenstor

/-! ## The dispatcher `uxenstor_softirq` -/

theorem scsi_done_calls_append (a b : List Event) :
    scsi_done_calls (a ++ b) = scsi_done_calls a ++ scsi_done_calls b := by
  induction a with
  | nil => rfl
  | cons e a ih => cases e <;> simp [scsi_done_calls, ih]

theorem scsi_done_calls_sg_loop (sgs : List scatterlist) (j copied buflen : Nat) :
    scsi_done_calls (softirq_sg_loop sgs j copied buflen) = [] := by
  induction sgs generalizing j copied buflen with
  | nil => rfl
  | cons sg rest ih =>
    unfold softirq_sg_loop
    split
    · rfl
    · simp [scsi_done_calls, ih]

theorem scsi_done_calls_reply (hdr : XFER_HEADER) (sc : scsi_cmnd) :
    scsi_done_calls (softirq_reply hdr sc).2 = [] := by
  unfold softirq_reply
  split
  · split <;> rfl
  · split
    · split
      · rfl
      · dsimp only
        split
        · exact scsi_done_calls_sg_loop _ _ _ _
        · split
          · split <;> rfl
          · rfl
    · rfl

theorem softirq_reply_addr (hdr : XFER_HEADER) (sc : scsi_cmnd) :
    (softirq_reply hdr sc).1.addr = sc.addr := by
  unfold softirq_reply
  split
  · split <;> rfl
  · split
    · split
      · rfl
      · dsimp only
        split
        · rfl
        · split
          · split <;> rfl
          · rfl
    · rfl

/-- Claim C1. For a reply datagram at the head of the ring that is at least a
header long and whose `(int) hdr.seq` is bound in `seq_map` to the command `sc`,
one pass of the dispatcher loop does not hit `BUG_ON`, calls `scsi_done` exactly
once, on that command (same address, with the result bytes the reply handling
set), removes that id from `seq_map` and leaves the lookup of every other id
unchanged. For a datagram shorter than the header it calls `scsi_done` for no
command and leaves `seq_map` as it was. -/
theorem softirq_iter_completes_matched_once (d : Dgram) (seq_map : idr) (readlen : Nat) :
    (∀ sc : scsi_cmnd, sizeof_XFER_HEADER ≤ d.len →
      idr_find seq_map (to_int d.hdr.seq) = some sc →
        (softirq_iter d seq_map readlen).bug = false ∧
        scsi_done_calls (softirq_iter d seq_map readlen).events = [(softirq_reply d.hdr sc).1] ∧
        (softirq_reply d.hdr sc).1.addr = sc.addr ∧
        idr_find (softirq_iter d seq_map readlen).seq_map (to_int d.hdr.seq) = none ∧
        ∀ id : Int, id ≠ to_int d.hdr.seq →
          idr_find (softirq_iter d seq_map readlen).seq_map id = idr_find seq_map id) ∧
    (d.len < sizeof_XFER_HEADER →
      (softirq_iter d seq_map readlen).bug = false ∧
      scsi_done_calls (softirq_iter d seq_map readlen).events = [] ∧
      (softirq_iter d seq_map readlen).seq_map = seq_map) := by
  constructor
  · intro sc hlen hfind
    have hnot : ¬ d.len < sizeof_XFER_HEADER := Nat.not_lt.mpr hlen
    simp only [softirq_iter, hnot, if_false, hfind]
    refine ⟨trivial, ?_, softirq_reply_addr _ _, idr_find_remove_self _ _, ?_⟩
    · simp [scsi_done_calls_append, scsi_done_calls, scsi_done_calls_reply]
    · intro id hne
      exact idr_find_remove_ne _ _ _ hne
  · intro hlen
    simp only [softirq_iter, hlen, if_true]
    exact ⟨trivial, rfl, trivial⟩

/-- Witness for C1: the reply to request 5 completes `sc_read` and nothing else,
and a 7-byte datagram completes nothing. -/
theorem softirq_iter_completes_matched_once_witness :
    (scsi_done_calls (softirq_iter (reply 5 8192 0) two_pending 0).events
        = [(softirq_reply (reply 5 8192 0).hdr sc_read).1] ∧
      idr_find (softirq_iter (reply 5 8192 0) two_pending 0).seq_map 6 = some sc_write) ∧
    (softirq_iter { len := 7, hdr := reply_hdr 5 0 0 } two_pending 0).seq_map = two_pending :=
  ⟨⟨((softirq_iter_completes_matched_once (reply 5 8192 0) two_pending 0).1 sc_read
        (by decide) (by decide)).2.1,
      (((softirq_iter_completes_matched_once (reply 5 8192 0) two_pending 0).1 sc_read
        (by decide) (by decide)).2.2.2.2 6 (by decide)).trans (by decide)⟩,
    ((softirq_iter_completes_matched_once { len := 7, hdr := reply_hdr 5 0 0 } two_pending 0).2
      (by decide)).2.2⟩

/-- Claim C2, as the code has it. For a reply datagram at least a header long
whose `(int) hdr.seq` has no entry in `seq_map`, the dispatcher loop stops in
`BUG_ON(!sc)`: after the peek it makes no further call, so no command is
completed and `seq_map` is unchanged, but the datagram is not consumed and the
datagrams behind it are not drained. -/
theorem softirq_loop_unmatched_is_bug (d : Dgram) (rest : List Dgram) (seq_map : idr)
    (readlen : Nat) (hrl : readlen ≤ V4V_STOR_RING_LEN) (hlen : sizeof_XFER_HEADER ≤ d.len)
    (hfind : idr_find seq_map (to_int d.hdr.seq) = none) :
    softirq_loop (d :: rest) seq_map readlen =
      { ring := d :: rest, seq_map := seq_map, readlen := readlen,
        events := [Event.copy_out Dest.hdr sizeof_XFER_HEADER false], bug := true } := by
  have hnot : ¬ d.len < sizeof_XFER_HEADER := Nat.not_lt.mpr hlen
  simp [softirq_loop, hrl, softirq_iter, hnot, hfind]

/-- Witness for the amended C2: a reply for the unknown id 9. -/
theorem softirq_loop_unmatched_is_bug_witness :
    softirq_loop [reply 9 0 0, reply 5 8192 0] two_pending 0 =
      { ring := [reply 9 0 0, reply 5 8192 0], seq_map := two_pending, readlen := 0,
        events := [Event.copy_out Dest.hdr sizeof_XFER_HEADER false], bug := true } :=
  softirq_loop_unmatched_is_bug (reply 9 0 0) [reply 5 8192 0] two_pending 0
    (by decide) (by decide) (by decide)

/-- Counterexample to C2 as stated: with requests 5 and 6 in flight and a reply
for id 9 at the head of the ring, followed by the reply for request 5, the
tasklet ends in `BUG_ON`; it consumes no datagram, leaves both datagrams in the
ring and never completes request 5. -/
theorem softirq_unmatched_reply_counterexample :
    (uxenstor_softirq (dev_with [reply 9 0 0, reply 5 8192 0])).2.2 = true ∧
    consume_calls (uxenstor_softirq (dev_with [reply 9 0 0, reply 5 8192 0])).2.1 = 0 ∧
    (uxenstor_softirq (dev_with [reply 9 0 0, reply 5 8192 0])).1.recv_ring
      = some [reply 9 0 0, reply 5 8192 0] ∧
    scsi_done_calls (uxenstor_softirq (dev_with [reply 9 0 0, reply 5 8192 0])).2.1 = [] := by
  decide

/-! ## The id allocator -/

theorem idr_get_free_ge (keys : List Int) (fuel s : Nat) : s ≤ idr_get_free keys s fuel := by
  induction fuel generalizing s with
  | zero => exact le_refl _
  | succ n ih =>
    unfold idr_get_free
    split
    · exact le_trans (Nat.le_succ s) (ih (s + 1))
    · exact le_refl _

theorem idr_get_free_fresh_aux (keys : List Int) (fuel s : Nat)
    (hcard : (keys.toFinset.filter (fun k => (s : Int) ≤ k)).card ≤ fuel) :
    ((idr_get_free keys s fuel : Nat) : Int) ∉ keys := by
  induction fuel generalizing s with
  | zero =>
    intro hmem
    have hin : ((s : Nat) : Int) ∈ keys.toFinset.filter (fun k => (s : Int) ≤ k) := by
      simp only [idr_get_free] at hmem
      simp [hmem]
    have h0 : keys.toFinset.filter (fun k => (s : Int) ≤ k) = ∅ :=
      Finset.card_eq_zero.mp (Nat.le_zero.mp hcard)
    rw [h0] at hin
    exact absurd hin (Finset.not_mem_empty _)
  | succ n ih =>
    unfold idr_get_free
    split
    · rename_i hmem
      apply ih
      have hsub : keys.toFinset.filter (fun k => ((s + 1 : Nat) : Int) ≤ k)
          ⊂ keys.toFinset.filter (fun k => (s : Int) ≤ k) := by
        rw [Finset.ssubset_iff_of_subset]
        · refine ⟨(s : Int), by simp [hmem], ?_⟩
          simp
        · intro k hk
          simp only [Finset.mem_filter, List.mem_toFinset] at hk ⊢
          refine ⟨hk.1, ?_⟩
          have := hk.2
          push_cast at this
          omega
      have := Finset.card_lt_card hsub
      omega
    · assumption

theorem idr_get_free_fresh (keys : List Int) (s : Nat) :
    ((idr_get_free keys s keys.length : Nat) : Int) ∉ keys := by
  apply idr_get_free_fresh_aux
  exact le_trans (Finset.card_filter_le _ _) (List.toFinset_card_le keys)

/-- The three ways `idr_alloc_u32` can end. -/
theorem idr_alloc_u32_cases (m : idr) (ptr : scsi_cmnd) (id max : Nat) (gfp_ok : Bool) :
    ((idr_alloc_u32 m ptr id max gfp_ok).1 = -ENOSPC
        ∧ max < idr_get_free (m.entries.map Prod.fst) id m.entries.length) ∨
    ((idr_alloc_u32 m ptr id max gfp_ok).1 = -ENOMEM ∧ gfp_ok = false) ∨
    (∃ slot : Nat, slot ≤ max ∧ (slot : Int) ∉ m.entries.map Prod.fst
      ∧ idr_alloc_u32 m ptr id max gfp_ok
          = (0, slot, { m with entries := ((slot : Int), ptr) :: m.entries })) := by
  unfold idr_alloc_u32
  dsimp only
  split
  · left; exact ⟨rfl, by assumption⟩
  · rename_i hle
    split
    · rename_i hg
      right; left; exact ⟨rfl, by simpa using hg⟩
    · right; right
      refine ⟨idr_get_free (m.entries.map Prod.fst) id m.entries.length,
        Nat.le_of_not_lt hle, ?_, rfl⟩
      have := idr_get_free_fresh (m.entries.map Prod.fst) id
      simpa using this

/-- The last lines of `idr_alloc_cyclic` applied to any `idr_alloc_u32` result. -/
theorem idr_alloc_cyclic_finish (m : idr) (ptr : scsi_cmnd) (id0 : Nat) (gfp_ok : Bool)
    (out : Int × idr)
    (hout : out = if (idr_alloc_u32 m ptr id0 INT_MAX gfp_ok).1 ≠ 0
      then ((idr_alloc_u32 m ptr id0 INT_MAX gfp_ok).1, m)
      else (((idr_alloc_u32 m ptr id0 INT_MAX gfp_ok).2.1 : Int),
        { (idr_alloc_u32 m ptr id0 INT_MAX gfp_ok).2.2 with
          idr_next := (idr_alloc_u32 m ptr id0 INT_MAX gfp_ok).2.1 + 1 })) :
    (out.1 < 0 ∧ out.2 = m ∧ (out.1 = -ENOSPC ∨ (out.1 = -ENOMEM ∧ gfp_ok = false))) ∨
    (∃ slot : Nat, slot ≤ INT_MAX ∧ (slot : Int) ∉ m.entries.map Prod.fst
      ∧ out = ((slot : Int),
          { entries := ((slot : Int), ptr) :: m.entries, idr_next := slot + 1 })) := by
  rcases idr_alloc_u32_cases m ptr id0 INT_MAX gfp_ok with h1 | h1 | ⟨slot, hle, hfresh, heq⟩
  · left
    have hne : (idr_alloc_u32 m ptr id0 INT_MAX gfp_ok).1 ≠ 0 := by rw [h1.1]; decide
    rw [if_pos hne] at hout
    subst hout
    exact ⟨by rw [h1.1]; decide, rfl, Or.inl h1.1⟩
  · left
    have hne : (idr_alloc_u32 m ptr id0 INT_MAX gfp_ok).1 ≠ 0 := by rw [h1.1]; decide
    rw [if_pos hne] at hout
    subst hout
    exact ⟨by rw [h1.1]; decide, rfl, Or.inr h1⟩
  · right
    rw [heq] at hout
    exact ⟨slot, hle, hfresh, by simpa using hout⟩

/-- A successful `idr_alloc_cyclic(idr, ptr, 0, 0, gfp)` returns an id in
`[0, INT_MAX]` that was not bound, binds it to `ptr` and changes no other
binding; a failed one returns a negative errno and leaves the map alone. -/
theorem idr_alloc_cyclic_cases (m : idr) (ptr : scsi_cmnd) (gfp_ok : Bool) :
    ((idr_alloc_cyclic m ptr 0 0 gfp_ok).1 < 0 ∧ (idr_alloc_cyclic m ptr 0 0 gfp_ok).2 = m
      ∧ ((idr_alloc_cyclic m ptr 0 0 gfp_ok).1 = -ENOSPC
          ∨ ((idr_alloc_cyclic m ptr 0 0 gfp_ok).1 = -ENOMEM ∧ gfp_ok = false))) ∨
    (∃ slot : Nat, slot ≤ INT_MAX ∧ (slot : Int) ∉ m.entries.map Prod.fst
      ∧ idr_alloc_cyclic m ptr 0 0 gfp_ok
          = ((slot : Int), { entries := ((slot : Int), ptr) :: m.entries, idr_next := slot + 1 })) := by
  by_cases hwrap : (idr_alloc_u32 m ptr (if to_int m.idr_next < 0 then (0 : Int).toNat
        else m.idr_next) INT_MAX gfp_ok).1 = -ENOSPC
      ∧ (((if to_int m.idr_next < 0 then (0 : Int).toNat else m.idr_next : Nat) : Int) > 0)
  · apply idr_alloc_cyclic_finish m ptr 0 gfp_ok
    unfold idr_alloc_cyclic
    simp only [gt_iff_lt, lt_self_iff_false, if_false, Int.toNat_zero]
    simp only [gt_iff_lt, Int.toNat_zero] at hwrap
    rw [if_pos hwrap]
  · apply idr_alloc_cyclic_finish m ptr
      (if to_int m.idr_next < 0 then (0 : Int).toNat else m.idr_next) gfp_ok
    unfold idr_alloc_cyclic
    simp only [gt_iff_lt, lt_self_iff_false, if_false, Int.toNat_zero]
    simp only [gt_iff_lt, Int.toNat_zero] at hwrap
    rw [if_neg hwrap]

theorem lookup_none_of_not_mem (l : List (Int × scsi_cmnd)) (id : Int)
    (h : id ∉ l.map Prod.fst) : l.lookup id = none := by
  induction l with
  | nil => rfl
  | cons e l ih =>
    obtain ⟨k, v⟩ := e
    simp only [List.map_cons, List.mem_cons, not_or] at h
    have h2 : (id == k) = false := by simpa using h.1
    simp only [List.lookup, h2]
    exact ih h.2

theorem filter_ne_of_not_mem (l : List (Int × scsi_cmnd)) (id : Int)
    (h : id ∉ l.map Prod.fst) : l.filter (fun e => e.1 != id) = l := by
  rw [List.filter_eq_self]
  intro e he
  have : e.1 ≠ id := fun heq => h (heq ▸ List.mem_map_of_mem Prod.fst he)
  simpa using this

/-! ## `uxenstor_queuecommand` -/

/-- What `uxenstor_queuecommand` returns once the id allocation is reached. -/
theorem queuecommand_at_alloc (dev : uxenstor_dev) (ring : List Dgram) (sc : scsi_cmnd)
    (env : QueueEnv) (hring : dev.recv_ring = some ring)
    (hiov : ¬ (sc.sc_data_direction = dma_data_direction.DMA_TO_DEVICE ∧
      sc.sg_count + 2 > MAX_STACK_IOV ∧ env.kmalloc_ok = false)) :
    uxenstor_queuecommand (some dev) sc env =
      if (idr_alloc_cyclic dev.seq_map sc 0 0 env.idr_gfp_ok).1 < 0 then
        ((idr_alloc_cyclic dev.seq_map sc 0 0 env.idr_gfp_ok).1,
          some { dev with seq_map := (idr_alloc_cyclic dev.seq_map sc 0 0 env.idr_gfp_ok).2 }, [])
      else if env.sendv_ret < 0 then
        (if env.sendv_ret = -EAGAIN then SCSI_MLQUEUE_DEVICE_BUSY else env.sendv_ret,
          some { dev with seq_map :=
            (idr_remove (idr_alloc_cyclic dev.seq_map sc 0 0 env.idr_gfp_ok).2
              (((idr_alloc_cyclic dev.seq_map sc 0 0 env.idr_gfp_ok).1.toNat % 2 ^ 32 : Nat) : Int)) },
          [Event.sendv { queuecommand_hdr sc with
              seq := ((idr_alloc_cyclic dev.seq_map sc 0 0 env.idr_gfp_ok).1.toNat % 2 ^ 32) }
            (ROUNDUP_16 (sizeof_XFER_HEADER + sc.cmd_len) :: queuecommand_iov sc), Event.printk])
      else
        (0, some { dev with seq_map := (idr_alloc_cyclic dev.seq_map sc 0 0 env.idr_gfp_ok).2 },
          [Event.sendv { queuecommand_hdr sc with
              seq := ((idr_alloc_cyclic dev.seq_map sc 0 0 env.idr_gfp_ok).1.toNat % 2 ^ 32) }
            (ROUNDUP_16 (sizeof_XFER_HEADER + sc.cmd_len) :: queuecommand_iov sc)]) := by
  unfold uxenstor_queuecommand
  simp only [hring]
  rw [if_neg hiov]

/-- Claim C3. With the device and its ring present and the id allocation
reached and successful, `uxenstor_queuecommand` returns
`SCSI_MLQUEUE_DEVICE_BUSY` when the ring send returns `-EAGAIN`, returns every
other negative send result unchanged, and returns 0 exactly when the send result
is not negative. -/
theorem queuecommand_send_result (dev : uxenstor_dev) (ring : List Dgram) (sc : scsi_cmnd)
    (env : QueueEnv) (hring : dev.recv_ring = some ring)
    (hiov : ¬ (sc.sc_data_direction = dma_data_direction.DMA_TO_DEVICE ∧
      sc.sg_count + 2 > MAX_STACK_IOV ∧ env.kmalloc_ok = false))
    (halloc : 0 ≤ (idr_alloc_cyclic dev.seq_map sc 0 0 env.idr_gfp_ok).1) :
    (env.sendv_ret = -EAGAIN →
      (uxenstor_queuecommand (some dev) sc env).1 = SCSI_MLQUEUE_DEVICE_BUSY) ∧
    (env.sendv_ret < 0 → env.sendv_ret ≠ -EAGAIN →
      (uxenstor_queuecommand (some dev) sc env).1 = env.sendv_ret) ∧
    ((uxenstor_queuecommand (some dev) sc env).1 = 0 ↔ 0 ≤ env.sendv_ret) := by
  rw [queuecommand_at_alloc dev ring sc env hring hiov, if_neg (not_lt.mpr halloc)]
  refine ⟨?_, ?_, ?_⟩
  · intro h
    have hneg : env.sendv_ret < 0 := by rw [h]; decide
    rw [if_pos hneg, if_pos h]
  · intro hneg hne
    rw [if_pos hneg, if_neg hne]
  · by_cases hneg : env.sendv_ret < 0
    · rw [if_pos hneg]
      by_cases h : env.sendv_ret = -EAGAIN
      · rw [if_pos h]
        constructor
        · intro h0
          have h1 : SCSI_MLQUEUE_DEVICE_BUSY = (0 : Int) := h0
          exact absurd h1 (by decide)
        · intro h0; exact absurd hneg (not_lt.mpr h0)
      · rw [if_neg h]
        constructor
        · intro h0
          have h1 : env.sendv_ret = 0 := h0
          rw [h1] at hneg
          exact absurd hneg (by decide)
        · intro h0; exact absurd hneg (not_lt.mpr h0)
    · rw [if_neg hneg]
      exact ⟨fun _ => not_lt.mp hneg, fun _ => rfl⟩

/-- Witness for C3: a full ring (`-EAGAIN`) while requests 5 and 6 are pending. -/
theorem queuecommand_send_result_witness :
    (uxenstor_queuecommand (some (dev_with [])) sc_read
      { kmalloc_ok := true, idr_gfp_ok := true, sendv_ret := -EAGAIN }).1
        = SCSI_MLQUEUE_DEVICE_BUSY :=
  (queuecommand_send_result (dev_with []) [] sc_read
    { kmalloc_ok := true, idr_gfp_ok := true, sendv_ret := -EAGAIN } rfl (by decide)
    (by decide)).1 rfl

/-- With every id of `[0, INT_MAX]` bound and memory available,
`idr_alloc_cyclic` fails with `-ENOSPC`. -/
theorem idr_alloc_cyclic_full (m : idr) (ptr : scsi_cmnd) (gfp_ok : Bool)
    (hg : gfp_ok = true)
    (hfull : ∀ slot : Nat, slot ≤ INT_MAX → (slot : Int) ∈ m.entries.map Prod.fst) :
    (idr_alloc_cyclic m ptr 0 0 gfp_ok).1 = -ENOSPC := by
  rcases idr_alloc_cyclic_cases m ptr gfp_ok with h | ⟨slot, hle, hfresh, _⟩
  · rcases h.2.2 with h1 | h1
    · exact h1
    · rw [hg] at h1
      exact absurd h1.2 (by decide)
  · exact absurd (hfull slot hle) hfresh

/-- Every id of `[0, INT_MAX]` is bound in `full_idr`. -/
theorem full_idr_full (slot : Nat) (hle : slot ≤ INT_MAX) :
    (slot : Int) ∈ dev_full.seq_map.entries.map Prod.fst := by
  have hlt : slot < 2 ^ 31 := by
    unfold INT_MAX at hle
    omega
  simp only [dev_full, full_idr, List.map_map, List.mem_map, List.mem_range, Function.comp]
  exact ⟨slot, hlt, rfl⟩

/-- When the id allocation is reached and fails with `-ENOSPC`, so does
`uxenstor_queuecommand`. -/
theorem queuecommand_enospc (dev : uxenstor_dev) (ring : List Dgram) (sc : scsi_cmnd)
    (env : QueueEnv) (hring : dev.recv_ring = some ring)
    (hiov : ¬ (sc.sc_data_direction = dma_data_direction.DMA_TO_DEVICE ∧
      sc.sg_count + 2 > MAX_STACK_IOV ∧ env.kmalloc_ok = false))
    (hE : (idr_alloc_cyclic dev.seq_map sc 0 0 env.idr_gfp_ok).1 = -ENOSPC) :
    (idr_alloc_cyclic dev.seq_map sc 0 0 env.idr_gfp_ok).1 < 0 ∧
    (uxenstor_queuecommand (some dev) sc env).1 = -ENOSPC ∧
    (uxenstor_queuecommand (some dev) sc env).1 ≠ SCSI_MLQUEUE_DEVICE_BUSY := by
  have hneg : (idr_alloc_cyclic dev.seq_map sc 0 0 env.idr_gfp_ok).1 < 0 := by
    rw [hE]; decide
  have hq : (uxenstor_queuecommand (some dev) sc env).1 = -ENOSPC := by
    rw [queuecommand_at_alloc dev ring sc env hring hiov, if_pos hneg]
    exact hE
  refine ⟨hneg, hq, ?_⟩
  rw [hq]
  decide

/-- Claim C4, as the code has it. When the id allocation is reached and fails,
`uxenstor_queuecommand` makes no ring send, leaves the device with its id map as
they were, and returns the negative errno of `idr_alloc_cyclic` unchanged
(`-ENOSPC` or `-ENOMEM`), which is not `SCSI_MLQUEUE_DEVICE_BUSY`. -/
theorem queuecommand_alloc_failure (dev : uxenstor_dev) (ring : List Dgram) (sc : scsi_cmnd)
    (env : QueueEnv) (hring : dev.recv_ring = some ring)
    (hiov : ¬ (sc.sc_data_direction = dma_data_direction.DMA_TO_DEVICE ∧
      sc.sg_count + 2 > MAX_STACK_IOV ∧ env.kmalloc_ok = false))
    (hfail : (idr_alloc_cyclic dev.seq_map sc 0 0 env.idr_gfp_ok).1 < 0) :
    uxenstor_queuecommand (some dev) sc env
      = ((idr_alloc_cyclic dev.seq_map sc 0 0 env.idr_gfp_ok).1, some dev, []) ∧
    ((uxenstor_queuecommand (some dev) sc env).1 = -ENOSPC
      ∨ (uxenstor_queuecommand (some dev) sc env).1 = -ENOMEM) ∧
    (uxenstor_queuecommand (some dev) sc env).1 ≠ SCSI_MLQUEUE_DEVICE_BUSY := by
  rw [queuecommand_at_alloc dev ring sc env hring hiov, if_pos hfail]
  rcases idr_alloc_cyclic_cases dev.seq_map sc env.idr_gfp_ok with h | ⟨slot, _, _, heq⟩
  · refine ⟨?_, ?_, ?_⟩
    · rw [h.2.1]
    · rcases h.2.2 with h1 | h1
      · exact Or.inl h1
      · exact Or.inr h1.1
    · intro hb
      have hb2 : (idr_alloc_cyclic dev.seq_map sc 0 0 env.idr_gfp_ok).1
          = SCSI_MLQUEUE_DEVICE_BUSY := hb
      rw [hb2] at hfail
      exact absurd hfail (by decide)
  · rw [heq] at hfail
    exact absurd hfail (by simp)

/-- Witness for the amended C4: the allocator gets no memory. -/
theorem queuecommand_alloc_failure_witness :
    uxenstor_queuecommand (some (dev_with [])) sc_read
        { kmalloc_ok := true, idr_gfp_ok := false, sendv_ret := 64 }
      = ((idr_alloc_cyclic (dev_with []).seq_map sc_read 0 0 false).1, some (dev_with []), []) :=
  (queuecommand_alloc_failure (dev_with []) [] sc_read
    { kmalloc_ok := true, idr_gfp_ok := false, sendv_ret := 64 } rfl (by decide) (by decide)).1

/-- Counterexample to C4 as stated: with the id namespace fully occupied by
pending requests the id allocation fails and `uxenstor_queuecommand` returns
`-ENOSPC` (-28), not `SCSI_MLQUEUE_DEVICE_BUSY` (0x1056). -/
theorem queuecommand_exhausted_ids_counterexample :
    (idr_alloc_cyclic dev_full.seq_map sc_write 0 0 env_sent.idr_gfp_ok).1 < 0 ∧
    (uxenstor_queuecommand (some dev_full) sc_write env_sent).1 = -ENOSPC ∧
    (uxenstor_queuecommand (some dev_full) sc_write env_sent).1 ≠ SCSI_MLQUEUE_DEVICE_BUSY :=
  queuecommand_enospc dev_full [] sc_write env_sent rfl (by decide)
    (idr_alloc_cyclic_full dev_full.seq_map sc_write env_sent.idr_gfp_ok rfl full_idr_full)

/-- Claim C5. After `uxenstor_queuecommand` on a device: if it returned 0 the
send was made and succeeded, the id map gained exactly one entry, binding the
command to an id that was free before, and that id is the `seq` of the header
that was sent; if it returned anything else the entries of the id map are those
before the call. Hence, for a command that was not pending before, the id map
holds an entry for it afterwards if and only if the return value is 0. -/
theorem queuecommand_pending_iff_sent (dev : uxenstor_dev) (sc : scsi_cmnd) (env : QueueEnv) :
    ∃ dev2 : uxenstor_dev, (uxenstor_queuecommand (some dev) sc env).2.1 = some dev2 ∧
      ((uxenstor_queuecommand (some dev) sc env).1 = 0 →
        0 ≤ env.sendv_ret ∧
        ∃ req_id : Nat, idr_find dev.seq_map (req_id : Int) = none ∧
          dev2.seq_map.entries = ((req_id : Int), sc) :: dev.seq_map.entries ∧
          idr_find dev2.seq_map (req_id : Int) = some sc ∧
          (uxenstor_queuecommand (some dev) sc env).2.2 =
            [Event.sendv { queuecommand_hdr sc with seq := req_id }
              (ROUNDUP_16 (sizeof_XFER_HEADER + sc.cmd_len) :: queuecommand_iov sc)]) ∧
      ((uxenstor_queuecommand (some dev) sc env).1 ≠ 0 →
        dev2.seq_map.entries = dev.seq_map.entries) ∧
      ((∀ id : Int, idr_find dev.seq_map id ≠ some sc) →
        ((∃ id : Int, idr_find dev2.seq_map id = some sc)
          ↔ (uxenstor_queuecommand (some dev) sc env).1 = 0)) := by
  have main : ∃ dev2 : uxenstor_dev, (uxenstor_queuecommand (some dev) sc env).2.1 = some dev2 ∧
      ((uxenstor_queuecommand (some dev) sc env).1 = 0 →
        0 ≤ env.sendv_ret ∧
        ∃ req_id : Nat, idr_find dev.seq_map (req_id : Int) = none ∧
          dev2.seq_map.entries = ((req_id : Int), sc) :: dev.seq_map.entries ∧
          idr_find dev2.seq_map (req_id : Int) = some sc ∧
          (uxenstor_queuecommand (some dev) sc env).2.2 =
            [Event.sendv { queuecommand_hdr sc with seq := req_id }
              (ROUNDUP_16 (sizeof_XFER_HEADER + sc.cmd_len) :: queuecommand_iov sc)]) ∧
      ((uxenstor_queuecommand (some dev) sc env).1 ≠ 0 →
        dev2.seq_map.entries = dev.seq_map.entries) := by
    cases hring : dev.recv_ring with
    | none =>
      refine ⟨dev, ?_, ?_, ?_⟩
      · simp [uxenstor_queuecommand, hring]
      · intro h0
        simp [uxenstor_queuecommand, hring, EINVAL] at h0
      · intro _; rfl
    | some ring =>
      by_cases hiov : sc.sc_data_direction = dma_data_direction.DMA_TO_DEVICE ∧
          sc.sg_count + 2 > MAX_STACK_IOV ∧ env.kmalloc_ok = false
      · refine ⟨dev, ?_, ?_, ?_⟩
        · simp only [uxenstor_queuecommand, hring]
          rw [if_pos hiov]
        · intro h0
          simp only [uxenstor_queuecommand, hring] at h0
          rw [if_pos hiov] at h0
          have h1 : -ENOMEM = (0 : Int) := h0
          exact absurd h1 (by decide)
        · intro _; rfl
      · rw [queuecommand_at_alloc dev ring sc env hring hiov]
        rcases idr_alloc_cyclic_cases dev.seq_map sc env.idr_gfp_ok with
          h | ⟨slot, hle, hfresh, heq⟩
        · rw [if_pos h.1]
          refine ⟨_, rfl, ?_, ?_⟩
          · intro h0
            have h1 : (idr_alloc_cyclic dev.seq_map sc 0 0 env.idr_gfp_ok).1 = 0 := h0
            have h2 := h.1
            rw [h1] at h2
            exact absurd h2 (by decide)
          · intro _
            show (idr_alloc_cyclic dev.seq_map sc 0 0 env.idr_gfp_ok).2.entries = _
            rw [h.2.1]
        · have hnn : ¬ (idr_alloc_cyclic dev.seq_map sc 0 0 env.idr_gfp_ok).1 < 0 := by
            rw [heq]; simp
          have hmod : (slot : Int).toNat % 2 ^ 32 = slot := by
            unfold INT_MAX at hle
            simp only [Int.toNat_ofNat]
            omega
          rw [if_neg hnn]
          by_cases hneg : env.sendv_ret < 0
          · rw [if_pos hneg]
            refine ⟨_, rfl, ?_, ?_⟩
            · intro h0
              exfalso
              have h1 : (if env.sendv_ret = -EAGAIN then SCSI_MLQUEUE_DEVICE_BUSY
                  else env.sendv_ret) = 0 := h0
              by_cases he : env.sendv_ret = -EAGAIN
              · rw [if_pos he] at h1; exact absurd h1 (by decide)
              · rw [if_neg he] at h1; rw [h1] at hneg; exact absurd hneg (by decide)
            · intro _
              show (idr_remove (idr_alloc_cyclic dev.seq_map sc 0 0 env.idr_gfp_ok).2 _).entries = _
              rw [heq]
              simp only [hmod, idr_remove]
              rw [List.filter_cons]
              simp only [bne_self_eq_false, Bool.false_eq_true, if_false]
              exact filter_ne_of_not_mem _ _ hfresh
          · rw [if_neg hneg]
            refine ⟨_, rfl, ?_, ?_⟩
            · intro _
              refine ⟨not_lt.mp hneg, slot, lookup_none_of_not_mem _ _ hfresh, ?_, ?_, ?_⟩
              · show (idr_alloc_cyclic dev.seq_map sc 0 0 env.idr_gfp_ok).2.entries = _
                rw [heq]
              · show idr_find (idr_alloc_cyclic dev.seq_map sc 0 0 env.idr_gfp_ok).2 _ = _
                rw [heq]
                simp [idr_find, List.lookup]
              · rw [heq]
                simp only [hmod]
            · intro h0
              exact absurd rfl h0
  obtain ⟨dev2, h1, h2, h3⟩ := main
  refine ⟨dev2, h1, h2, h3, ?_⟩
  intro hnot
  constructor
  · rintro ⟨id, hid⟩
    by_contra hne
    have := h3 hne
    apply hnot id
    unfold idr_find at hid ⊢
    rw [← this]
    exact hid
  · intro h0
    obtain ⟨_, req_id, _, _, hf, _⟩ := h2 h0
    exact ⟨req_id, hf⟩

/-- Witness for C5: on a device with no request in flight, `sc_write` is pending
after the call exactly when the call returned 0. -/
theorem queuecommand_pending_iff_sent_witness :
    ∃ dev2 : uxenstor_dev,
      (uxenstor_queuecommand (some { dev_with [] with seq_map := { entries := [], idr_next := 3 } })
        sc_write { kmalloc_ok := true, idr_gfp_ok := true, sendv_ret := 544 }).2.1 = some dev2 ∧
      ((∃ id : Int, idr_find dev2.seq_map id = some sc_write) ↔
        (uxenstor_queuecommand (some { dev_with [] with seq_map := { entries := [], idr_next := 3 } })
          sc_write { kmalloc_ok := true, idr_gfp_ok := true, sendv_ret := 544 }).1 = 0) := by
  obtain ⟨dev2, h1, _, _, h4⟩ := queuecommand_pending_iff_sent
    { dev_with [] with seq_map := { entries := [], idr_next := 3 } } sc_write
    { kmalloc_ok := true, idr_gfp_ok := true, sendv_ret := 544 }
  exact ⟨dev2, h1, h4 (fun id => by simp [idr_find])⟩

/-! ## Suspend -/

/-- The tasklet touches only the ring and the id map of the device. -/
theorem uxenstor_softirq_blocked (uxstor : uxenstor_dev) :
    (uxenstor_softirq uxstor).1.requests_blocked = uxstor.requests_blocked := by
  unfold uxenstor_softirq
  split <;> rfl

/-- When no signal arrives, `wait_event_interruptible` returns only once no
request is pending, with new requests still blocked. -/
theorem wait_event_no_signal (evs : List WaitEvent) (uxstor : uxenstor_dev) (ret : Int)
    (woken : uxenstor_dev) (hsig : WaitEvent.signal ∉ evs)
    (h : wait_event_interruptible evs uxstor false = some (ret, woken)) :
    ret = 0 ∧ uxenstor_has_pending woken = false
      ∧ woken.requests_blocked = uxstor.requests_blocked := by
  induction evs generalizing uxstor with
  | nil =>
    unfold wait_event_interruptible at h
    by_cases hp : uxenstor_has_pending uxstor = false
    · rw [if_pos hp] at h
      simp only [Option.some.injEq, Prod.mk.injEq] at h
      exact ⟨h.1.symm, h.2 ▸ hp, h.2 ▸ rfl⟩
    · rw [if_neg hp] at h
      simp at h
  | cons ev rest ih =>
    unfold wait_event_interruptible at h
    by_cases hp : uxenstor_has_pending uxstor = false
    · rw [if_pos hp] at h
      simp only [Option.some.injEq, Prod.mk.injEq] at h
      exact ⟨h.1.symm, h.2 ▸ hp, h.2 ▸ rfl⟩
    · rw [if_neg hp] at h
      simp only [Bool.false_eq_true, if_false] at h
      cases ev with
      | signal => exact absurd (List.mem_cons_self _ _) hsig
      | irq dgrams =>
        simp only at h
        split at h
        · exact absurd h (by simp)
        · have hrest : WaitEvent.signal ∉ rest := fun hm => hsig (List.mem_cons_of_mem _ hm)
          have := ih _ hrest h
          refine ⟨this.1, this.2.1, ?_⟩
          rw [this.2.2, uxenstor_softirq_blocked]

/-- Claim C6, at the failing input. With requests 5 and 6 in flight and a signal
arriving during the wait before any reply, `uxenstor_suspend_one` returns 0 with
the tasklet disabled although `uxenstor_has_pending` still holds. -/
theorem suspend_one_signal_leaves_pending :
    uxenstor_suspend_one (dev_with []) [WaitEvent.signal]
      = some (0, { dev_with [] with requests_blocked := true, tasklet_disabled := 1 }) ∧
    uxenstor_has_pending { dev_with [] with requests_blocked := true, tasklet_disabled := 1 }
      = true := by
  decide

/-! ## Reply payloads -/

theorem offset_copies_append (a b : List Event) :
    offset_copies (a ++ b) = offset_copies a ++ offset_copies b := by
  induction a with
  | nil => rfl
  | cons e a ih => cases e <;> simp [offset_copies, ih]

/-- What one pass of the loop does for a reply whose command is found. -/
theorem softirq_iter_found (d : Dgram) (seq_map : idr) (readlen : Nat) (sc : scsi_cmnd)
    (hlen : sizeof_XFER_HEADER ≤ d.len)
    (hfind : idr_find seq_map (to_int d.hdr.seq) = some sc) :
    (softirq_iter d seq_map readlen).events =
      [Event.copy_out Dest.hdr sizeof_XFER_HEADER false] ++ (softirq_reply d.hdr sc).2
        ++ [Event.copy_out Dest.null 0 true, Event.scsi_done (softirq_reply d.hdr sc).1,
            Event.wake_up] := by
  have hnot : ¬ d.len < sizeof_XFER_HEADER := Nat.not_lt.mpr hlen
  simp only [softirq_iter, hnot, if_false, hfind]

theorem offset_copies_iter (d : Dgram) (seq_map : idr) (readlen : Nat) (sc : scsi_cmnd)
    (hlen : sizeof_XFER_HEADER ≤ d.len)
    (hfind : idr_find seq_map (to_int d.hdr.seq) = some sc) :
    offset_copies (softirq_iter d seq_map readlen).events
      = offset_copies (softirq_reply d.hdr sc).2 := by
  rw [softirq_iter_found d seq_map readlen sc hlen hfind]
  simp [offset_copies_append, offset_copies]

theorem scsi_done_calls_iter (d : Dgram) (seq_map : idr) (readlen : Nat) (sc : scsi_cmnd)
    (hlen : sizeof_XFER_HEADER ≤ d.len)
    (hfind : idr_find seq_map (to_int d.hdr.seq) = some sc) :
    scsi_done_calls (softirq_iter d seq_map readlen).events = [(softirq_reply d.hdr sc).1] := by
  rw [softirq_iter_found d seq_map readlen sc hlen hfind]
  simp [scsi_done_calls_append, scsi_done_calls, scsi_done_calls_reply]

/-- The scatter loop tiles the payload: started with `copied` bytes done and
`buflen` bytes to go, it covers `[hdr + copied, hdr + copied + buflen)` when the
remaining segments are long enough. -/
theorem sg_loop_covers (sgs : List scatterlist) (j copied buflen : Nat)
    (hfit : buflen ≤ (sgs.map scatterlist.length).sum) :
    covers (sizeof_XFER_HEADER + copied) (sizeof_XFER_HEADER + copied + buflen)
      (offset_copies (softirq_sg_loop sgs j copied buflen)) := by
  induction sgs generalizing j copied buflen with
  | nil =>
    simp only [List.map_nil, List.sum_nil, Nat.le_zero] at hfit
    subst hfit
    simp [softirq_sg_loop, offset_copies, covers]
  | cons sg rest ih =>
    unfold softirq_sg_loop
    by_cases h0 : buflen = 0
    · subst h0
      simp [offset_copies, covers]
    · rw [if_neg h0]
      simp only [List.map_cons, List.sum_cons] at hfit
      by_cases hgt : sg.length > buflen
      · simp only [hgt, if_true, offset_copies, covers]
        refine ⟨trivial, by omega, ?_⟩
        have := ih (j + 1) (copied + buflen) (buflen - buflen) (by omega)
        have e : sizeof_XFER_HEADER + (copied + buflen) + (buflen - buflen)
            = sizeof_XFER_HEADER + copied + buflen := by omega
        rw [e, ← Nat.add_assoc] at this
        exact this
      · simp only [hgt, if_false, offset_copies, covers]
        refine ⟨trivial, by omega, ?_⟩
        have := ih (j + 1) (copied + sg.length) (buflen - sg.length) (by omega)
        have e : sizeof_XFER_HEADER + (copied + sg.length) + (buflen - sg.length)
            = sizeof_XFER_HEADER + copied + buflen := by omega
        rw [e, ← Nat.add_assoc] at this
        exact this

/-- Every copy of the scatter loop goes to the segment it is at and writes at
most that segment's length. -/
theorem sg_loop_within (sgs : List scatterlist) (j copied buflen : Nat)
    (c : Dest × Nat × Nat × Bool)
    (hc : c ∈ offset_copies (softirq_sg_loop sgs j copied buflen)) :
    ∃ i seg, sgs[i]? = some seg ∧ c.1 = Dest.sg (j + i) ∧ c.2.2.1 - c.2.1 ≤ seg.length
      ∧ c.2.2.2 = false := by
  induction sgs generalizing j copied buflen with
  | nil => simp [softirq_sg_loop, offset_copies] at hc
  | cons sg rest ih =>
    unfold softirq_sg_loop at hc
    by_cases h0 : buflen = 0
    · rw [if_pos h0] at hc
      simp [offset_copies] at hc
    · rw [if_neg h0] at hc
      simp only [offset_copies, List.mem_cons] at hc
      rcases hc with hc | hc
      · refine ⟨0, sg, by simp, ?_, ?_, ?_⟩
        · rw [hc]; rfl
        · rw [hc]
          dsimp only
          split <;> omega
        · rw [hc]
      · obtain ⟨i, seg, h1, h2, h3, h4⟩ := ih _ _ _ hc
        refine ⟨i + 1, seg, by simpa using h1, ?_, h3, h4⟩
        rw [h2]
        congr 1
        omega

theorem getElem?_of_take (l : List scatterlist) (n i : Nat) (seg : scatterlist)
    (h : (l.take n)[i]? = some seg) : l[i]? = some seg := by
  induction l generalizing n i with
  | nil => simp at h
  | cons a l ih =>
    cases n with
    | zero => simp at h
    | succ n =>
      cases i with
      | zero => simpa using h
      | succ i =>
        simp only [List.take_succ_cons, List.getElem?_cons_succ] at h ⊢
        exact ih n i h

/-- The reply handling for a data reply that fits the command's buffer. -/
theorem softirq_reply_read (hdr : XFER_HEADER) (sc : scsi_cmnd) (hsense : hdr.sense_size = 0)
    (hpos : 0 < hdr.read_size) (hfit : hdr.read_size ≤ sc.bufflen)
    (htotal : hdr.read_size ≤ sg_total sc) :
    covers sizeof_XFER_HEADER (sizeof_XFER_HEADER + hdr.read_size)
        (offset_copies (softirq_reply hdr sc).2) ∧
    ∀ c ∈ offset_copies (softirq_reply hdr sc).2, within_segment sc.sglist c := by
  have h1 : ¬ hdr.sense_size > 0 := by omega
  have h2 : ¬ hdr.read_size > sc.bufflen := by omega
  have h3 : hdr.read_size ≠ 0 := by omega
  unfold softirq_reply
  rw [if_neg h1, if_pos hpos, if_neg h2]
  dsimp only
  by_cases hcount : sc.sg_count ≠ 0
  · rw [if_pos hcount]
    dsimp only
    simp only [sg_total, scsi_segments, if_pos hcount] at htotal
    constructor
    · have := sg_loop_covers (sc.sglist.take sc.sg_count) 0 0 hdr.read_size htotal
      simpa using this
    · intro c hc
      obtain ⟨i, seg, e1, e2, e3, e4⟩ := sg_loop_within _ _ _ _ c hc
      obtain ⟨dst, skip, t, consume⟩ := c
      simp only at e2 e3 e4
      subst e2 e4
      simp only [within_segment, Nat.zero_add, and_true]
      exact ⟨seg, getElem?_of_take _ _ _ _ e1, e3⟩
  · rw [if_neg hcount]
    simp only [sg_total, scsi_segments, if_neg hcount] at htotal
    cases hl : sc.sglist with
    | nil =>
      rw [hl] at htotal
      simp at htotal
      omega
    | cons sg rest =>
      rw [hl] at htotal
      simp only [List.take_succ_cons, List.take_zero, List.map_cons, List.map_nil,
        List.sum_cons, List.sum_nil, Nat.add_zero] at htotal
      have hto : (if sg.length > hdr.read_size then hdr.read_size else sg.length)
          = hdr.read_size := by
        split <;> omega
      simp only [ne_eq, h3, not_false_eq_true, if_true, hto, offset_copies, covers,
        Nat.add_zero, List.mem_singleton, forall_eq, within_segment, and_true, true_and]
      exact ⟨by omega, sg, by simp, by omega⟩

/-- The reply handling for a data reply longer than the command's buffer. -/
theorem softirq_reply_too_large (hdr : XFER_HEADER) (sc : scsi_cmnd)
    (hsense : hdr.sense_size = 0) (hbig : sc.bufflen < hdr.read_size) :
    softirq_reply hdr sc = (set_host_byte sc DID_ERROR, [Event.printk]) := by
  have h1 : ¬ hdr.sense_size > 0 := by omega
  have h2 : hdr.read_size > 0 := by omega
  unfold softirq_reply
  rw [if_neg h1, if_pos h2, if_pos hbig]

/-- Claim C7. For a reply without sense data whose command is found: when
`0 < read_size <= scsi_bufflen(sc)` and the scatter list is at least `read_size`
long in total, the frame ranges of the offset copies are consecutive and
disjoint, start at `sizeof(XFER_HEADER)`, end at `sizeof(XFER_HEADER) +
read_size` (payload bytes `[0, read_size)`), and each copy goes to a scatter
segment of the command and writes at most that segment's length; when
`read_size > scsi_bufflen(sc)` there is no offset copy at all and the one command
completed has host byte `DID_ERROR`. -/
theorem softirq_read_payload_copies (d : Dgram) (seq_map : idr) (readlen : Nat)
    (sc : scsi_cmnd) (hlen : sizeof_XFER_HEADER ≤ d.len)
    (hfind : idr_find seq_map (to_int d.hdr.seq) = some sc)
    (hsense : d.hdr.sense_size = 0) :
    (0 < d.hdr.read_size → d.hdr.read_size ≤ sc.bufflen → d.hdr.read_size ≤ sg_total sc →
      covers sizeof_XFER_HEADER (sizeof_XFER_HEADER + d.hdr.read_size)
          (offset_copies (softirq_iter d seq_map readlen).events) ∧
      ∀ c ∈ offset_copies (softirq_iter d seq_map readlen).events,
        within_segment sc.sglist c) ∧
    (sc.bufflen < d.hdr.read_size →
      offset_copies (softirq_iter d seq_map readlen).events = [] ∧
      ∃ done : scsi_cmnd, scsi_done_calls (softirq_iter d seq_map readlen).events = [done] ∧
        done.addr = sc.addr ∧ done.host_byte = DID_ERROR) := by
  rw [offset_copies_iter d seq_map readlen sc hlen hfind,
    scsi_done_calls_iter d seq_map readlen sc hlen hfind]
  constructor
  · intro hpos hfit htotal
    exact softirq_reply_read d.hdr sc hsense hpos hfit htotal
  · intro hbig
    rw [softirq_reply_too_large d.hdr sc hsense hbig]
    exact ⟨rfl, _, rfl, rfl, rfl⟩

/-- Witness for C7: a 6000-byte reply to `sc_read` (two 4096-byte segments) is
copied as frame ranges `[32, 4128)` and `[4128, 6032)`. -/
theorem softirq_read_payload_copies_witness :
    covers sizeof_XFER_HEADER (sizeof_XFER_HEADER + (reply 5 6000 0).hdr.read_size)
        (offset_copies (softirq_iter (reply 5 6000 0) two_pending 0).events) ∧
    offset_copies (softirq_iter (reply 5 6000 0) two_pending 0).events
      = [(Dest.sg 0, 32, 4128, false), (Dest.sg 1, 4128, 6032, false)] ∧
    offset_copies (softirq_iter (reply 5 9000 0) two_pending 0).events = [] :=
  ⟨((softirq_read_payload_copies (reply 5 6000 0) two_pending 0 sc_read (by decide)
      (by decide) rfl).1 (by decide) (by decide) (by decide)).1,
    by decide,
    ((softirq_read_payload_copies (reply 5 9000 0) two_pending 0 sc_read (by decide)
      (by decide) rfl).2 (by decide)).1⟩

/-- Claim C8. For a reply with `sense_size > 0` whose command is found, the
dispatcher completes that command with host byte `DID_ERROR` and makes no copy
into the command's scatter list whatever `read_size` is; its only possible copy
is the sense copy of frame range `[sizeof(XFER_HEADER), sizeof(XFER_HEADER) +
sense_size)`, made exactly when the command has a sense buffer and
`sense_size <= SCSI_SENSE_BUFFERSIZE`. -/
theorem softirq_sense_reply_terminal (d : Dgram) (seq_map : idr) (readlen : Nat)
    (sc : scsi_cmnd) (hlen : sizeof_XFER_HEADER ≤ d.len)
    (hfind : idr_find seq_map (to_int d.hdr.seq) = some sc)
    (hsense : 0 < d.hdr.sense_size) :
    (∃ done : scsi_cmnd, scsi_done_calls (softirq_iter d seq_map readlen).events = [done] ∧
      done.addr = sc.addr ∧ done.host_byte = DID_ERROR) ∧
    offset_copies (softirq_iter d seq_map readlen).events =
      (if sc.sense_buffer = true ∧ d.hdr.sense_size ≤ SCSI_SENSE_BUFFERSIZE then
        [(Dest.sense_buffer, sizeof_XFER_HEADER, sizeof_XFER_HEADER + d.hdr.sense_size, false)]
      else []) ∧
    ∀ c ∈ offset_copies (softirq_iter d seq_map readlen).events, ∀ j : Nat, c.1 ≠ Dest.sg j := by
  rw [offset_copies_iter d seq_map readlen sc hlen hfind,
    scsi_done_calls_iter d seq_map readlen sc hlen hfind]
  have hs : d.hdr.sense_size > 0 := hsense
  unfold softirq_reply
  rw [if_pos hs]
  by_cases hbuf : sc.sense_buffer = true ∧ d.hdr.sense_size ≤ SCSI_SENSE_BUFFERSIZE
  · rw [if_pos hbuf, if_pos hbuf]
    refine ⟨⟨_, rfl, rfl, rfl⟩, rfl, ?_⟩
    intro c hc j
    simp only [offset_copies, List.mem_singleton] at hc
    rw [hc]
    simp
  · rw [if_neg hbuf, if_neg hbuf]
    refine ⟨⟨_, rfl, rfl, rfl⟩, rfl, ?_⟩
    intro c hc
    simp [offset_copies] at hc

/-- Witness for C8: a reply with 18 sense bytes and a stale `read_size`. -/
theorem softirq_sense_reply_terminal_witness :
    offset_copies (softirq_iter (reply 5 4096 18) two_pending 0).events =
      (if sc_read.sense_buffer = true ∧ (reply 5 4096 18).hdr.sense_size ≤ SCSI_SENSE_BUFFERSIZE
        then [(Dest.sense_buffer, sizeof_XFER_HEADER,
          sizeof_XFER_HEADER + (reply 5 4096 18).hdr.sense_size, false)]
      else []) :=
  (softirq_sense_reply_terminal (reply 5 4096 18) two_pending 0 sc_read (by decide) (by decide)
    (by decide)).2.1

end Uxenstor

namespace UxenNet

/-! ## `uxen_net::outputPacket` -/

/-- Claim C9. `outputPacket` returns `kIOReturnOutputStall` exactly when the
packet is not null and the ring send returns `-EAGAIN`, and then it does not free
the packet; it returns `kIOReturnOutputSuccess` exactly when the packet is not
null and the send returns a positive count; it returns
`kIOReturnOutputDropped` exactly for a null packet or any other send result. A
null packet is neither sent nor freed, and a non-null packet is freed exactly
once when the result is Success or Dropped. -/
theorem outputPacket_result (packet : mbuf_t) (sendvOnRing : List v4v_iov_t → Int) :
    ((outputPacket packet sendvOnRing).1 = kIOReturnOutputStall ↔
      packet ≠ [] ∧ sendvOnRing (packet.map
        (fun cur => ({ iov_base := cur.data, iov_len := cur.len } : v4v_iov_t))) = -EAGAIN) ∧
    ((outputPacket packet sendvOnRing).1 = kIOReturnOutputSuccess ↔
      packet ≠ [] ∧ 0 < sendvOnRing (packet.map
        (fun cur => ({ iov_base := cur.data, iov_len := cur.len } : v4v_iov_t)))) ∧
    ((outputPacket packet sendvOnRing).1 = kIOReturnOutputDropped ↔
      packet = [] ∨ (¬ 0 < sendvOnRing (packet.map
          (fun cur => ({ iov_base := cur.data, iov_len := cur.len } : v4v_iov_t)))
        ∧ sendvOnRing (packet.map
          (fun cur => ({ iov_base := cur.data, iov_len := cur.len } : v4v_iov_t))) ≠ -EAGAIN)) ∧
    free_calls (outputPacket packet sendvOnRing).2 =
      (if packet ≠ [] ∧ (outputPacket packet sendvOnRing).1 ≠ kIOReturnOutputStall
        then [packet] else []) ∧
    (packet = [] → (outputPacket packet sendvOnRing).2 = []) := by
  have hE : (0 : Int) ≤ EAGAIN := by decide
  unfold outputPacket
  by_cases hnull : packet = []
  · subst hnull
    simp [kIOReturnOutputDropped, kIOReturnOutputStall, kIOReturnOutputSuccess, free_calls]
  · rw [if_neg hnull]
    dsimp only
    by_cases hpos : 0 < sendvOnRing (packet.map
        (fun cur => ({ iov_base := cur.data, iov_len := cur.len } : v4v_iov_t)))
    · have hne : sendvOnRing (packet.map
          (fun cur => ({ iov_base := cur.data, iov_len := cur.len } : v4v_iov_t))) ≠ -EAGAIN := by
        intro h
        rw [h] at hpos
        exact absurd hpos (by decide)
      have hgt : sendvOnRing (packet.map
          (fun cur => ({ iov_base := cur.data, iov_len := cur.len } : v4v_iov_t))) > 0 := hpos
      rw [if_pos hgt]
      simp [hnull, hpos, hne, kIOReturnOutputDropped, kIOReturnOutputStall,
        kIOReturnOutputSuccess, free_calls]
    · have hgt : ¬ sendvOnRing (packet.map
          (fun cur => ({ iov_base := cur.data, iov_len := cur.len } : v4v_iov_t))) > 0 := hpos
      rw [if_neg hgt]
      by_cases hag : sendvOnRing (packet.map
          (fun cur => ({ iov_base := cur.data, iov_len := cur.len } : v4v_iov_t))) = -EAGAIN
      · rw [if_pos hag]
        simp [hnull, hag, hE, kIOReturnOutputDropped, kIOReturnOutputStall,
          kIOReturnOutputSuccess, free_calls]
      · rw [if_neg hag]
        simp [hnull, hpos, hag, kIOReturnOutputDropped, kIOReturnOutputStall,
          kIOReturnOutputSuccess, free_calls]

/-! ## `uxen_net::processReceivedPackets` -/

theorem receive_calls_append (a b : List Event) :
    receive_calls (a ++ b) = receive_calls a ++ receive_calls b := by
  induction a with
  | nil => rfl
  | cons e a ih => cases e <;> simp [receive_calls, ih]

theorem alloc_calls_append (a b : List Event) :
    alloc_calls (a ++ b) = alloc_calls a ++ alloc_calls b := by
  induction a with
  | nil => rfl
  | cons e a ih => cases e <;> simp [alloc_calls, ih]

theorem delivered_append (a b : List Event) :
    delivered (a ++ b) = delivered a ++ delivered b := by
  induction a with
  | nil => rfl
  | cons e a ih => cases e <;> simp [delivered, ih]

theorem notify_calls_append (a b : List Event) :
    notify_calls (a ++ b) = notify_calls a + notify_calls b := by
  induction a with
  | nil => simp [notify_calls]
  | cons e a ih =>
    cases e <;> simp [notify_calls, ih]
    omega

/-- The copy loop only issues `v4v_copy_out_offset` calls. -/
theorem copy_loop_other_calls (packet : mbuf_t) (pos : Nat) :
    receive_calls (copy_loop packet pos) = [] ∧ alloc_calls (copy_loop packet pos) = []
      ∧ delivered (copy_loop packet pos) = [] ∧ notify_calls (copy_loop packet pos) = 0 := by
  induction packet generalizing pos with
  | nil => exact ⟨rfl, rfl, rfl, rfl⟩
  | cons cur next ih =>
    obtain ⟨h1, h2, h3, h4⟩ := ih (pos + cur.len)
    simp only [copy_loop, receive_calls, alloc_calls, delivered, notify_calls]
    exact ⟨h1, h2, h3, h4⟩

/-- The calls of the receive loop, read by kind. -/
theorem receive_loop_calls (allocatePacket : Nat → Nat → mbuf_t) (ring : List Msg) (k : Nat)
    (flag : Bool) :
    receive_calls (receive_loop allocatePacket ring k flag).2
        = ring.flatMap (fun _ => [false, true]) ++ [false] ∧
    alloc_calls (receive_loop allocatePacket ring k flag).2
        = ring.map (fun m => m.len % 2 ^ 32) ∧
    delivered (receive_loop allocatePacket ring k flag).2
        = expected_deliveries allocatePacket ring k ∧
    notify_calls (receive_loop allocatePacket ring k flag).2 = 0 ∧
    (receive_loop allocatePacket ring k flag).1
        = (flag || decide (expected_deliveries allocatePacket ring k ≠ [])) := by
  induction ring generalizing k flag with
  | nil =>
    simp [receive_loop, receive_calls, alloc_calls, delivered, notify_calls,
      expected_deliveries]
  | cons m rest ih =>
    obtain ⟨c1, c2, c3, c4⟩ := copy_loop_other_calls (allocatePacket k (m.len % 2 ^ 32)) 0
    simp only [receive_loop, receiveFromRing, Int.toNat_ofNat, expected_deliveries]
    by_cases hp : allocatePacket k (m.len % 2 ^ 32) = []
    · simp [-Nat.reducePow, hp, receive_calls_append, alloc_calls_append, delivered_append,
        notify_calls_append, receive_calls, alloc_calls, delivered, notify_calls, ih]
    · simp [-Nat.reducePow, hp, receive_calls_append, alloc_calls_append, delivered_append,
        notify_calls_append, receive_calls, alloc_calls, delivered, notify_calls, ih,
        c1, c2, c3, c4]

/-- Replaying peek, consume, ..., peek on a ring returns each message's length
twice and a negative value at the end, and empties the ring. -/
theorem replay_receives_drain (ring : List Msg) :
    replay_receives (ring.flatMap (fun _ => [false, true]) ++ [false]) ring
      = (expected_receives ring, []) := by
  induction ring with
  | nil => rfl
  | cons m rest ih =>
    have e : (m :: rest).flatMap (fun _ => [false, true]) ++ [false]
        = false :: true :: (rest.flatMap (fun _ => [false, true]) ++ [false]) := rfl
    rw [e]
    simp only [replay_receives, receiveFromRing, expected_receives, ih, Bool.false_eq_true,
      if_false, if_true]

/-- Claim C10. For every ring content, `processReceivedPackets` calls
`receiveFromRing` as peek, consume, peek, consume, ..., and a last peek: each
message is peeked without being consumed and then consumed once, whether or not
its packet allocation succeeded, the loop ends at the first negative peek (the
empty ring), and the ring is empty afterwards. One packet is asked for per
message, of the message's size; the messages whose allocation succeeded are
delivered in ring order; and `notify` is called once if at least one message was
delivered and not at all otherwise. -/
theorem processReceivedPackets_drains (ring : List Msg)
    (allocatePacket : Nat → Nat → mbuf_t) :
    (processReceivedPackets (some ring) allocatePacket).1 = some [] ∧
    receive_calls (processReceivedPackets (some ring) allocatePacket).2
        = ring.flatMap (fun _ => [false, true]) ++ [false] ∧
    replay_receives (receive_calls (processReceivedPackets (some ring) allocatePacket).2) ring
        = (expected_receives ring, []) ∧
    alloc_calls (processReceivedPackets (some ring) allocatePacket).2
        = ring.map (fun m => m.len % 2 ^ 32) ∧
    delivered (processReceivedPackets (some ring) allocatePacket).2
        = expected_deliveries allocatePacket ring 0 ∧
    notify_calls (processReceivedPackets (some ring) allocatePacket).2
        = (if delivered (processReceivedPackets (some ring) allocatePacket).2 = []
            then 0 else 1) := by
  obtain ⟨h1, h2, h3, h4, h5⟩ := receive_loop_calls allocatePacket ring 0 false
  have hcalls : receive_calls (processReceivedPackets (some ring) allocatePacket).2
      = ring.flatMap (fun _ => [false, true]) ++ [false] := by
    simp only [processReceivedPackets]
    split <;> simp [receive_calls_append, receive_calls, h1]
  have hdel : delivered (processReceivedPackets (some ring) allocatePacket).2
      = expected_deliveries allocatePacket ring 0 := by
    simp only [processReceivedPackets]
    split <;> simp [delivered_append, delivered, h3]
  refine ⟨rfl, hcalls, ?_, ?_, hdel, ?_⟩
  · rw [hcalls]
    exact replay_receives_drain ring
  · simp only [processReceivedPackets]
    split <;> simp [alloc_calls_append, alloc_calls, h2]
  · rw [hdel]
    simp only [processReceivedPackets]
    by_cases he : expected_deliveries allocatePacket ring 0 = []
    · simp only [h5, he, ne_eq, not_true_eq_false, decide_False, Bool.or_false,
        Bool.false_eq_true, if_false, if_true, h4]
    · simp only [h5, he, ne_eq, not_false_eq_true, decide_True, Bool.or_true, if_true,
        if_false, notify_calls_append, h4, notify_calls]

end UxenNet

namespace UxenNet

/-! ## Scatter copies into an mbuf chain -/

theorem copy_calls_append (a b : List Event) :
    copy_calls (a ++ b) = copy_calls a ++ copy_calls b := by
  induction a with
  | nil => rfl
  | cons e a ih => cases e <;> simp [copy_calls, ih]

/-- The copy loop issues exactly one copy per mbuf. -/
theorem copy_calls_copy_loop (packet : mbuf_t) (pos : Nat) :
    copy_calls (copy_loop packet pos)
      = match packet with
        | [] => []
        | cur :: next =>
          (cur.data, pos, pos + cur.len, false) :: copy_calls (copy_loop next (pos + cur.len)) := by
  cases packet with
  | nil => rfl
  | cons cur next => rfl

/-- The `i`-th copy of the loop started at `pos`. -/
theorem copy_loop_nth (packet : mbuf_t) (pos i : Nat) :
    (copy_calls (copy_loop packet pos))[i]?
      = packet[i]?.map (fun cur =>
          (cur.data, pos + ((seg_lengths packet).take i).sum,
            pos + ((seg_lengths packet).take (i + 1)).sum, false)) := by
  induction packet generalizing pos i with
  | nil => simp [copy_loop, copy_calls]
  | cons cur next ih =>
    rw [copy_calls_copy_loop]
    cases i with
    | zero => simp [seg_lengths]
    | succ i =>
      simp only [List.getElem?_cons_succ, ih, seg_lengths, List.map_cons, List.take_succ_cons,
        List.sum_cons]
      cases next[i]? with
      | none => rfl
      | some c =>
        simp only [Option.map_some', Option.some.injEq, Prod.mk.injEq, true_and, and_true]
        constructor <;> omega

/-- The copies of the loop started at `pos` tile `[pos, pos + l_1 + ... + l_k)`. -/
theorem copy_loop_tiles (packet : mbuf_t) (pos : Nat) :
    tiles pos (pos + (seg_lengths packet).sum) (copy_calls (copy_loop packet pos)) := by
  induction packet generalizing pos with
  | nil => simp [copy_loop, copy_calls, tiles, seg_lengths]
  | cons cur next ih =>
    rw [copy_calls_copy_loop]
    simp only [tiles, seg_lengths, List.map_cons, List.sum_cons, true_and]
    refine ⟨by omega, ?_⟩
    have := ih (pos + cur.len)
    simp only [seg_lengths] at this
    rw [Nat.add_assoc] at this
    exact this

theorem receive_loop_copies (allocatePacket : Nat → Nat → mbuf_t) (ring : List Msg) (k : Nat)
    (flag : Bool) :
    copy_calls (receive_loop allocatePacket ring k flag).2
      = expected_copies allocatePacket ring k := by
  induction ring generalizing k flag with
  | nil => rfl
  | cons m rest ih =>
    simp only [receive_loop, receiveFromRing, Int.toNat_ofNat, expected_copies]
    by_cases hp : allocatePacket k (m.len % 2 ^ 32) = []
    · simp [-Nat.reducePow, hp, copy_calls_append, copy_calls, copy_loop, ih]
    · simp [-Nat.reducePow, hp, copy_calls_append, copy_calls, ih]

/-- Claim C11. For an mbuf chain with segment lengths `l_1, ..., l_k` the copy
loop of `processReceivedPackets` makes exactly `k` `v4v_copy_out_offset` calls;
the `i`-th goes to the `i`-th mbuf with offset `l_1 + ... + l_(i-1)`, end
position `l_1 + ... + l_i` and consume false, so the copied frame ranges are
disjoint, contiguous and cover exactly `[0, l_1 + ... + l_k)`. The copies
`processReceivedPackets` makes for a ring are these loops, one per message, over
the packet allocated for it. -/
theorem processReceivedPackets_copy_ranges (packet : mbuf_t) (ring : List Msg)
    (allocatePacket : Nat → Nat → mbuf_t) :
    (copy_calls (copy_loop packet 0)).length = packet.length ∧
    (∀ i : Nat, (copy_calls (copy_loop packet 0))[i]?
      = packet[i]?.map (fun cur =>
          (cur.data, ((seg_lengths packet).take i).sum,
            ((seg_lengths packet).take (i + 1)).sum, false))) ∧
    tiles 0 (seg_lengths packet).sum (copy_calls (copy_loop packet 0)) ∧
    copy_calls (processReceivedPackets (some ring) allocatePacket).2
      = expected_copies allocatePacket ring 0 := by
  refine ⟨?_, ?_, ?_, ?_⟩
  · generalize 0 = pos
    induction packet generalizing pos with
    | nil => rfl
    | cons cur next ih =>
      rw [copy_calls_copy_loop]
      simp only [List.length_cons, ih]
  · intro i
    have := copy_loop_nth packet 0 i
    simpa using this
  · have := copy_loop_tiles packet 0
    simpa using this
  · simp only [processReceivedPackets]
    split <;> simp [copy_calls_append, copy_calls, receive_loop_copies]

end UxenNet

namespace Headctl

/-! ## The dirty rectangle accumulator -/

theorem foldl_min_le (l : List Int) (a : Int) :
    List.foldl min a l ≤ a ∧ ∀ b ∈ l, List.foldl min a l ≤ b := by
  induction l generalizing a with
  | nil => simp
  | cons c l ih =>
    obtain ⟨h1, h2⟩ := ih (min a c)
    simp only [List.foldl_cons, List.mem_cons, forall_eq_or_imp]
    exact ⟨le_trans h1 (min_le_left a c), le_trans h1 (min_le_right a c), h2⟩

theorem le_foldl_max (l : List Int) (a : Int) :
    a ≤ List.foldl max a l ∧ ∀ b ∈ l, b ≤ List.foldl max a l := by
  induction l generalizing a with
  | nil => simp
  | cons c l ih =>
    obtain ⟨h1, h2⟩ := ih (max a c)
    simp only [List.foldl_cons, List.mem_cons, forall_eq_or_imp]
    exact ⟨le_trans (le_max_left a c) h1, le_trans (le_max_right a c) h1, h2⟩

/-- One pass of the loop takes the componentwise minimum and maximum. -/
theorem damage_rect_eq (rect : XRectangle) (r : drc) :
    damage_rect rect r =
      { x0 := min r.x0 rect.x, y0 := min r.y0 rect.y,
        x1 := max r.x1 (rect.x + rect.width - 1), y1 := max r.y1 (rect.y + rect.height - 1) } := by
  unfold damage_rect
  obtain ⟨a, b, c, d⟩ := r
  dsimp only
  by_cases h1 : rect.x < a <;> by_cases h2 : rect.y < b <;>
    by_cases h3 : rect.x + rect.width - 1 > c <;>
    by_cases h4 : rect.y + rect.height - 1 > d <;>
    simp only [h1, h2, h3, h4, if_true, if_false, drc.mk.injEq] <;>
    refine ⟨?_, ?_, ?_, ?_⟩ <;> omega

/-- The loop over the fetched rectangles computes the bounding box. -/
theorem damage_loop_eq (l : List XRectangle) (r : drc) :
    damage_loop l r =
      { x0 := List.foldl min r.x0 (l.map (fun rect => rect.x)),
        y0 := List.foldl min r.y0 (l.map (fun rect => rect.y)),
        x1 := List.foldl max r.x1 (l.map (fun rect => rect.x + rect.width - 1)),
        y1 := List.foldl max r.y1 (l.map (fun rect => rect.y + rect.height - 1)) } := by
  induction l generalizing r with
  | nil => rfl
  | cons rect l ih =>
    simp only [damage_loop, ih, damage_rect_eq, List.map_cons, List.foldl_cons]

/-- The accumulator after the loop contains the one before and every rectangle
of the loop. -/
theorem damage_loop_contains (l : List XRectangle) (r : drc) :
    (damage_loop l r).x0 ≤ r.x0 ∧ (damage_loop l r).y0 ≤ r.y0 ∧
    r.x1 ≤ (damage_loop l r).x1 ∧ r.y1 ≤ (damage_loop l r).y1 ∧
    ∀ rect ∈ l, in_drc rect (damage_loop l r) := by
  rw [damage_loop_eq]
  refine ⟨(foldl_min_le _ _).1, (foldl_min_le _ _).1, (le_foldl_max _ _).1,
    (le_foldl_max _ _).1, ?_⟩
  intro rect hrect
  refine ⟨?_, ?_, ?_, ?_⟩
  · exact (foldl_min_le _ _).2 _ (List.mem_map_of_mem (fun rect => rect.x) hrect)
  · exact (foldl_min_le _ _).2 _ (List.mem_map_of_mem (fun rect => rect.y) hrect)
  · exact (le_foldl_max _ _).2 _
      (List.mem_map_of_mem (fun rect => rect.x + (rect.width : Int) - 1) hrect)
  · exact (le_foldl_max _ _).2 _
      (List.mem_map_of_mem (fun rect => rect.y + (rect.height : Int) - 1) hrect)

/-- Claim C12. For a notification of its own damage handle `process_damage_ev`
returns 0 and leaves in the accumulator the bounding box of its previous value
and the fetched rectangles: `x0` and `y0` are the minimum of the old value and
all `x_i`, `y_i`, and `x1`, `y1` the maximum of the old value and all
`x_i + w_i - 1`, `y_i + h_i - 1`, so the new accumulator contains the old one and
every fetched rectangle. For a notification of another handle it returns -1 and
leaves the accumulator unchanged. -/
theorem process_damage_ev_bounding_box (damage dev_damage : Nat) (l : List XRectangle)
    (r : drc) :
    (dev_damage = damage →
      process_damage_ev damage dev_damage (some l) r =
        (0, { x0 := List.foldl min r.x0 (l.map (fun rect => rect.x)),
              y0 := List.foldl min r.y0 (l.map (fun rect => rect.y)),
              x1 := List.foldl max r.x1 (l.map (fun rect => rect.x + rect.width - 1)),
              y1 := List.foldl max r.y1 (l.map (fun rect => rect.y + rect.height - 1)) }) ∧
      (process_damage_ev damage dev_damage (some l) r).2.x0 ≤ r.x0 ∧
      (process_damage_ev damage dev_damage (some l) r).2.y0 ≤ r.y0 ∧
      r.x1 ≤ (process_damage_ev damage dev_damage (some l) r).2.x1 ∧
      r.y1 ≤ (process_damage_ev damage dev_damage (some l) r).2.y1 ∧
      (∀ rect ∈ l, in_drc rect (process_damage_ev damage dev_damage (some l) r).2) ∧
      process_damage_ev damage dev_damage none r = (0, r)) ∧
    (dev_damage ≠ damage →
      ∀ rects : Option (List XRectangle),
        process_damage_ev damage dev_damage rects r = (-1, r)) := by
  constructor
  · intro h
    have hrun : process_damage_ev damage dev_damage (some l) r = (0, damage_loop l r) := by
      simp [process_damage_ev, h]
    rw [hrun]
    obtain ⟨h1, h2, h3, h4, h5⟩ := damage_loop_contains l r
    refine ⟨by rw [damage_loop_eq], h1, h2, h3, h4, h5, ?_⟩
    simp [process_damage_ev, h]
  · intro h rects
    simp [process_damage_ev, h]

/-- Witness for C12: two rectangles are added to an accumulator holding
`[10, 20] x [10, 20]`. -/
theorem process_damage_ev_bounding_box_witness :
    process_damage_ev 7 7
        (some [{ x := 5, y := 12, width := 4, height := 30 },
               { x := 15, y := 2, width := 10, height := 3 }])
        { x0 := 10, y0 := 10, x1 := 20, y1 := 20 }
      = (0, { x0 := 5, y0 := 2, x1 := 24, y1 := 41 }) ∧
    process_damage_ev 7 8 none { x0 := 10, y0 := 10, x1 := 20, y1 := 20 }
      = (-1, { x0 := 10, y0 := 10, x1 := 20, y1 := 20 }) :=
  ⟨((process_damage_ev_bounding_box 7 7
      [{ x := 5, y := 12, width := 4, height := 30 },
       { x := 15, y := 2, width := 10, height := 3 }]
      { x0 := 10, y0 := 10, x1 := 20, y1 := 20 }).1 rfl).1.trans (by decide),
    (process_damage_ev_bounding_box 7 8 [] { x0 := 10, y0 := 10, x1 := 20, y1 := 20 }).2
      (by decide) none⟩

/-! ## Sending dirty rectangles -/

/-- The three ways a `pending_dr_sync` call can end: no `send_dr` call and at
most the pending flag cleared, a failed `send_dr`, or a successful one. -/
theorem pending_dr_sync_cases (h : head) (st : dr_state) (env : TickEnv) :
    ((pending_dr_sync h st env).2 = [] ∧
      (pending_dr_sync h st env).1.hdr.dr_rect = st.hdr.dr_rect ∧
      (pending_dr_sync h st env).1.hdr.dr_ts = st.hdr.dr_ts ∧
      (pending_dr_sync h st env).1.rect_id = st.rect_id ∧
      ((pending_dr_sync h st env).1.hdr.dr_pending = st.hdr.dr_pending
        ∨ drc_empty st.hdr.dr_rect = true)) ∨
    (st.hdr.dr_pending = true ∧ ¬ (env.now - st.hdr.dr_ts) % 2 ^ 64 < DR_PERIOD_NS ∧
      drc_empty st.hdr.dr_rect = false ∧
      (pending_dr_sync h st env).2 =
        [{ now := env.now, send_ts := env.send.send_ts,
           msg := (send_dr h st.hdr.dr_rect st env.send).2.1,
           ret := (send_dr h st.hdr.dr_rect st env.send).1 }] ∧
      (pending_dr_sync h st env).1.hdr.dr_ts = env.send.send_ts ∧
      (pending_dr_sync h st env).1.rect_id = st.rect_id + 1 ∧
      (((send_dr h st.hdr.dr_rect st env.send).1 ≠ 0 ∧
          (pending_dr_sync h st env).1.hdr.dr_rect = st.hdr.dr_rect ∧
          (pending_dr_sync h st env).1.hdr.dr_pending = true) ∨
        ((send_dr h st.hdr.dr_rect st env.send).1 = 0 ∧
          (pending_dr_sync h st env).1.hdr.dr_rect = drc_reset st.hdr.dr_rect ∧
          (pending_dr_sync h st env).1.hdr.dr_pending = false))) := by
  unfold pending_dr_sync
  by_cases hp : st.hdr.dr_pending = true
  · rw [if_pos hp]
    by_cases hearly : (env.now - st.hdr.dr_ts) % 2 ^ 64 < DR_PERIOD_NS
    · rw [if_pos hearly]
      exact Or.inl ⟨rfl, rfl, rfl, rfl, Or.inl rfl⟩
    · rw [if_neg hearly]
      by_cases hempty : drc_empty st.hdr.dr_rect = true
      · rw [if_pos hempty]
        exact Or.inl ⟨rfl, rfl, rfl, rfl, Or.inr hempty⟩
      · rw [if_neg hempty]
        right
        refine ⟨hp, hearly, by simpa using hempty, ?_⟩
        dsimp only
        by_cases hret : (send_dr h st.hdr.dr_rect st env.send).1 = 0
        · rw [if_pos hret]
          exact ⟨rfl, rfl, rfl, Or.inr ⟨hret, rfl, rfl⟩⟩
        · rw [if_neg hret]
          exact ⟨rfl, rfl, rfl, Or.inl ⟨hret, rfl, hp⟩⟩
  · rw [if_neg hp]
    exact Or.inl ⟨rfl, rfl, rfl, rfl, Or.inl rfl⟩

/-- One step of the loop makes at most one `send_dr` call; the message of that
call carries the counter value before the step, and the counter never goes
down. -/
theorem run_dr_step_rect_id (h : head) (damage : Nat) (st : dr_state) (i : DrInput) :
    st.rect_id ≤ (run_dr_step h damage st i).1.rect_id ∧
    (run_dr_step h damage st i).2.length ≤ 1 ∧
    ∀ inv ∈ (run_dr_step h damage st i).2,
      inv.msg.rect_id = st.rect_id ∧ st.rect_id < (run_dr_step h damage st i).1.rect_id := by
  cases i with
  | damage dev_damage rects =>
    simp only [run_dr_step]
    split <;> simp
  | foreign_send => simp [run_dr_step]
  | tick env =>
    simp only [run_dr_step]
    rcases pending_dr_sync_cases h st env with hc | hc
    · rw [hc.1, hc.2.2.2.1]
      simp
    · rw [hc.2.2.2.1, hc.2.2.2.2.2.1]
      simp [send_dr]

theorem run_dr_rect_ids (inputs : List DrInput) (h : head) (damage : Nat) (st : dr_state) :
    st.rect_id ≤ (run_dr inputs h damage st).1.rect_id ∧
    (∀ inv ∈ (run_dr inputs h damage st).2,
      st.rect_id ≤ inv.msg.rect_id ∧ inv.msg.rect_id < (run_dr inputs h damage st).1.rect_id) ∧
    List.Pairwise (fun a b : Invocation => a.msg.rect_id < b.msg.rect_id)
      (run_dr inputs h damage st).2 := by
  induction inputs generalizing st with
  | nil => simp [run_dr]
  | cons i rest ih =>
    obtain ⟨s1, s2, s3⟩ := run_dr_step_rect_id h damage st i
    obtain ⟨r1, r2, r3⟩ := ih (run_dr_step h damage st i).1
    simp only [run_dr]
    refine ⟨le_trans s1 r1, ?_, ?_⟩
    · intro inv hinv
      rcases List.mem_append.mp hinv with hm | hm
      · obtain ⟨e1, e2⟩ := s3 inv hm
        exact ⟨by omega, by omega⟩
      · obtain ⟨e1, e2⟩ := r2 inv hm
        exact ⟨by omega, e2⟩
    · rw [List.pairwise_append]
      refine ⟨?_, r3, ?_⟩
      · match hl : (run_dr_step h damage st i).2 with
        | [] => exact List.Pairwise.nil
        | [a] => exact List.pairwise_singleton _ a
        | a :: b :: l =>
          rw [hl] at s2
          simp at s2
      · intro a ha b hb
        obtain ⟨e1, e2⟩ := s3 a ha
        obtain ⟨e3, _⟩ := r2 b hb
        omega

/-- Claim C15. `send_dr` builds the message with `left = x0`, `top = y0`,
`right = x1 + 1`, `bottom = y1 + 1`, the head's id and, as `rect_id`, the value of
the shared counter before the call; every call, whether its send succeeds or
not, leaves the counter one higher. Hence the `rect_id`s of the messages a head
sends, in order, are strictly increasing, whatever other heads send in
between. -/
theorem send_dr_message (h : head) (r : drc) (st : dr_state) (env : SendEnv)
    (inputs : List DrInput) (damage : Nat) :
    (send_dr h r st env).2.1 =
      { left := r.x0, top := r.y0, right := r.x1 + 1, bottom := r.y1 + 1,
        rect_id := st.rect_id, head_id := h.id } ∧
    (send_dr h r st env).2.2.rect_id = st.rect_id + 1 ∧
    List.Pairwise (fun a b : Invocation => a.msg.rect_id < b.msg.rect_id)
      (run_dr inputs h damage st).2 :=
  ⟨rfl, rfl, (run_dr_rect_ids inputs h damage st).2.2⟩

/-! ## Rate of dirty rectangle messages -/

theorem chain_of_spaced (a : Invocation) (l : List Invocation)
    (hs : spaced_from a.send_ts l) :
    List.Chain (fun a b : Invocation => a.send_ts + DR_PERIOD_NS ≤ b.now) a l := by
  induction l generalizing a with
  | nil => exact List.Chain.nil
  | cons b l ih =>
    simp only [spaced_from] at hs
    exact List.Chain.cons hs.1 (ih b hs.2.2)

/-- Only a tick calls `send_dr` or touches the timestamp. -/
theorem run_dr_step_no_tick (h : head) (damage : Nat) (st : dr_state) (i : DrInput)
    (hi : ∀ env, i ≠ DrInput.tick env) :
    (run_dr_step h damage st i).2 = [] ∧
    (run_dr_step h damage st i).1.hdr.dr_ts = st.hdr.dr_ts := by
  cases i with
  | damage dev_damage rects =>
    simp only [run_dr_step]
    split <;> exact ⟨rfl, rfl⟩
  | foreign_send => exact ⟨rfl, rfl⟩
  | tick env => exact absurd rfl (hi env)

theorem run_dr_spaced (inputs : List DrInput) (h : head) (damage : Nat) (st : dr_state)
    (last : Int) (h0 : 0 ≤ st.hdr.dr_ts) (hlast : st.hdr.dr_ts ≤ last)
    (hclock : clock_monotonic last inputs) :
    spaced_from st.hdr.dr_ts (run_dr inputs h damage st).2 := by
  induction inputs generalizing st last with
  | nil => simp [run_dr, spaced_from]
  | cons i rest ih =>
    cases i with
    | damage dev_damage rects =>
      simp only [clock_monotonic] at hclock
      obtain ⟨e1, e2⟩ := run_dr_step_no_tick h damage st (DrInput.damage dev_damage rects)
        (by simp)
      simp only [run_dr]
      rw [e1, List.nil_append]
      have := ih (run_dr_step h damage st (DrInput.damage dev_damage rects)).1 last
        (by rw [e2]; exact h0) (by rw [e2]; exact hlast) hclock
      rw [e2] at this
      exact this
    | foreign_send =>
      simp only [clock_monotonic] at hclock
      obtain ⟨e1, e2⟩ := run_dr_step_no_tick h damage st DrInput.foreign_send (by simp)
      simp only [run_dr]
      rw [e1, List.nil_append]
      have := ih (run_dr_step h damage st DrInput.foreign_send).1 last
        (by rw [e2]; exact h0) (by rw [e2]; exact hlast) hclock
      rw [e2] at this
      exact this
    | tick env =>
      simp only [clock_monotonic] at hclock
      obtain ⟨c1, c2, c3, c4⟩ := hclock
      simp only [run_dr, run_dr_step]
      rcases pending_dr_sync_cases h st env with hc | hc
      · rw [hc.1, List.nil_append]
        have := ih (pending_dr_sync h st env).1 env.send.send_ts (by rw [hc.2.2.1]; exact h0)
          (by rw [hc.2.2.1]; omega) c4
        rw [hc.2.2.1] at this
        exact this
      · obtain ⟨_, hlate, _, hinv, hts, _, _⟩ := hc
        rw [hinv]
        simp only [List.singleton_append, spaced_from]
        have hmod : (env.now - st.hdr.dr_ts) % 2 ^ 64 = env.now - st.hdr.dr_ts :=
          Int.emod_eq_of_lt (by omega) (by omega)
        rw [hmod] at hlate
        refine ⟨by omega, c2, ?_⟩
        have := ih (pending_dr_sync h st env).1 env.send.send_ts (by rw [hts]; omega)
          (by rw [hts]) c4
        rw [hts] at this
        exact this

/-- Claim C13. Under a clock that never goes back, the `send_dr` invocations
`pending_dr_sync` makes for a head are at least `DR_PERIOD_NS` apart: each one
reads `now` at least `DR_PERIOD_NS` after the timestamp `dr_ts` the previous one
took (for the first one, after the initial `dr_ts`), and takes its own timestamp
after that reading. So at most one message is sent per period, however many
damage notifications arrive. -/
theorem send_dr_rate_limited (inputs : List DrInput) (h : head) (damage : Nat)
    (st : dr_state) (h0 : 0 ≤ st.hdr.dr_ts)
    (hclock : clock_monotonic st.hdr.dr_ts inputs) :
    spaced_from st.hdr.dr_ts (run_dr inputs h damage st).2 ∧
    List.Chain' (fun a b : Invocation => a.send_ts + DR_PERIOD_NS ≤ b.now)
      (run_dr inputs h damage st).2 := by
  have hs := run_dr_spaced inputs h damage st st.hdr.dr_ts h0 (le_refl _) hclock
  refine ⟨hs, ?_⟩
  match hl : (run_dr inputs h damage st).2 with
  | [] => exact List.chain'_nil
  | a :: l =>
    rw [hl] at hs
    simp only [spaced_from] at hs
    exact chain_of_spaced a l hs.2.2

/-- Witness for C13: on the sample run the three `send_dr` calls read `now` at 20,
31 and 42 ms. -/
theorem send_dr_rate_limited_witness :
    List.Chain' (fun a b : Invocation => a.send_ts + DR_PERIOD_NS ≤ b.now)
      (run_dr sample_inputs head0 7 dr_start).2 ∧
    (run_dr sample_inputs head0 7 dr_start).2.map (fun inv => inv.now)
      = [20000000, 31000000, 42000000] :=
  ⟨(send_dr_rate_limited sample_inputs head0 7 dr_start (by decide)
      (by simp [sample_inputs, damage_at, tick_at, clock_monotonic, dr_start])).2,
    by decide⟩

/-! ## No damage is dropped -/

/-- An accumulator that contains a rectangle with a pixel is not empty. -/
theorem not_empty_of_in_drc (rect : XRectangle) (r : drc) (hne : rect.nonempty)
    (hin : in_drc rect r) : drc_empty r = false := by
  obtain ⟨w, hh⟩ := hne
  obtain ⟨h1, h2, h3, h4⟩ := hin
  simp only [drc_empty, Bool.or_eq_false_iff, decide_eq_false_iff_not, not_lt, ge_iff_le, gt_iff_lt]
  constructor <;> omega

/-- A pending rectangle is still pending or has been sent after one step. -/
theorem run_dr_step_keeps (h : head) (damage : Nat) (st : dr_state) (i : DrInput)
    (rect : XRectangle) (hne : rect.nonempty) (hp : st.hdr.dr_pending = true)
    (hin : in_drc rect st.hdr.dr_rect) :
    sent_or_pending rect (run_dr_step h damage st i) := by
  cases i with
  | foreign_send => exact Or.inr ⟨hp, hin⟩
  | damage dev_damage rects =>
    have hgrow : in_drc rect (process_damage_ev damage dev_damage rects st.hdr.dr_rect).2 := by
      unfold process_damage_ev
      split
      · exact hin
      · split
        · rename_i l
          obtain ⟨g1, g2, g3, g4, _⟩ := damage_loop_contains l st.hdr.dr_rect
          obtain ⟨h1, h2, h3, h4⟩ := hin
          exact ⟨le_trans g1 h1, le_trans g2 h2, le_trans h3 g3, le_trans h4 g4⟩
        · exact hin
    simp only [run_dr_step]
    split
    · exact Or.inr ⟨rfl, hgrow⟩
    · exact Or.inr ⟨hp, hgrow⟩
  | tick env =>
    simp only [run_dr_step]
    have hnot := not_empty_of_in_drc rect st.hdr.dr_rect hne hin
    rcases pending_dr_sync_cases h st env with hc | hc
    · right
      obtain ⟨_, hrect, _, _, hpend⟩ := hc
      rcases hpend with hpend | hpend
      · exact ⟨by rw [hpend]; exact hp, by rw [hrect]; exact hin⟩
      · rw [hnot] at hpend
        exact absurd hpend (by decide)
    · obtain ⟨_, _, _, hinv, _, _, hres⟩ := hc
      rcases hres with ⟨_, hrect, hpend⟩ | ⟨hok, _, _⟩
      · exact Or.inr ⟨hpend, by rw [hrect]; exact hin⟩
      · left
        refine ⟨_, by rw [hinv]; exact List.mem_singleton_self _, hok, ?_⟩
        obtain ⟨h1, h2, h3, h4⟩ := hin
        simp only [send_dr, in_msg]
        exact ⟨h1, h2, by omega, by omega⟩

/-- What holds of a rectangle after the first step and is kept by the rest of
the run holds after the whole run. -/
theorem sent_or_pending_cons (h : head) (damage : Nat) (st : dr_state) (i : DrInput)
    (rest : List DrInput) (rect : XRectangle)
    (hstep : sent_or_pending rect (run_dr_step h damage st i))
    (hkeep : (run_dr_step h damage st i).1.hdr.dr_pending = true →
      in_drc rect (run_dr_step h damage st i).1.hdr.dr_rect →
      sent_or_pending rect (run_dr rest h damage (run_dr_step h damage st i).1)) :
    sent_or_pending rect (run_dr (i :: rest) h damage st) := by
  simp only [run_dr]
  rcases hstep with ⟨inv, hm, hok, hmsg⟩ | ⟨hp, hin⟩
  · exact Or.inl ⟨inv, List.mem_append_left _ hm, hok, hmsg⟩
  · rcases hkeep hp hin with ⟨inv, hm, hok, hmsg⟩ | hpend
    · exact Or.inl ⟨inv, List.mem_append_right _ hm, hok, hmsg⟩
    · exact Or.inr hpend

theorem run_dr_keeps (inputs : List DrInput) (h : head) (damage : Nat) (st : dr_state)
    (rect : XRectangle) (hne : rect.nonempty) (hp : st.hdr.dr_pending = true)
    (hin : in_drc rect st.hdr.dr_rect) :
    sent_or_pending rect (run_dr inputs h damage st) := by
  induction inputs generalizing st with
  | nil => exact Or.inr ⟨hp, hin⟩
  | cons i rest ih =>
    exact sent_or_pending_cons h damage st i rest rect
      (run_dr_step_keeps h damage st i rect hne hp hin) (fun hp2 hin2 => ih _ hp2 hin2)

theorem run_dr_received (inputs : List DrInput) (h : head) (damage : Nat) (st : dr_state)
    (rect : XRectangle) (hne : rect.nonempty) (hrec : rect ∈ received damage inputs) :
    sent_or_pending rect (run_dr inputs h damage st) := by
  induction inputs generalizing st with
  | nil => simp [received] at hrec
  | cons i rest ih =>
    have later : rect ∈ received damage rest →
        sent_or_pending rect (run_dr (i :: rest) h damage st) := by
      intro hr
      simp only [run_dr]
      rcases ih (run_dr_step h damage st i).1 hr with ⟨inv, hm, hok, hmsg⟩ | hpend
      · exact Or.inl ⟨inv, List.mem_append_right _ hm, hok, hmsg⟩
      · exact Or.inr hpend
    cases i with
    | foreign_send => exact later (by simpa [received] using hrec)
    | tick env => exact later (by simpa [received] using hrec)
    | damage dev_damage rects =>
      cases rects with
      | none => exact later (by simpa [received] using hrec)
      | some l =>
        simp only [received] at hrec
        by_cases hd : dev_damage = damage
        · rw [if_pos hd] at hrec
          rcases List.mem_append.mp hrec with hr | hr
          · have hrun : run_dr_step h damage st (DrInput.damage dev_damage (some l))
                = ({ st with hdr := { st.hdr with dr_rect := damage_loop l st.hdr.dr_rect,
                                                    dr_pending := true } }, []) := by
              simp [run_dr_step, process_damage_ev, hd]
            apply sent_or_pending_cons
            · rw [hrun]
              exact Or.inr ⟨rfl, (damage_loop_contains l st.hdr.dr_rect).2.2.2.2 rect hr⟩
            · intro hp2 hin2
              exact run_dr_keeps rest h damage _ rect hne hp2 hin2
          · exact later hr
        · rw [if_neg hd] at hrec
          exact later hrec

/-- Claim C14. For every sequence of damage notifications and `pending_dr_sync`
ticks run from the state `run_dr_` sets up with `drc_reset`, every rectangle
with a pixel received so far lies in the rectangle of a message whose send
succeeded or in the accumulator with `dr_pending` set. `pending_dr_sync` changes
the accumulator only when a send succeeded; a too-early tick changes nothing,
and a failed send leaves accumulator and pending flag as they were. -/
theorem damage_never_dropped (inputs : List DrInput) (h : head) (damage : Nat)
    (st : dr_state) (env : TickEnv) :
    (∀ rect ∈ received damage inputs, rect.nonempty →
      sent_or_pending rect (run_dr inputs h damage (run_dr_init st))) ∧
    ((pending_dr_sync h st env).1.hdr.dr_rect ≠ st.hdr.dr_rect →
      ∃ inv ∈ (pending_dr_sync h st env).2, inv.ret = 0) ∧
    ((env.now - st.hdr.dr_ts) % 2 ^ 64 < DR_PERIOD_NS → pending_dr_sync h st env = (st, [])) ∧
    ((∃ inv ∈ (pending_dr_sync h st env).2, inv.ret ≠ 0) →
      (pending_dr_sync h st env).1.hdr.dr_rect = st.hdr.dr_rect ∧
      (pending_dr_sync h st env).1.hdr.dr_pending = st.hdr.dr_pending) := by
  refine ⟨fun rect hrec hne => run_dr_received inputs h damage _ rect hne hrec, ?_, ?_, ?_⟩
  · intro hchg
    rcases pending_dr_sync_cases h st env with hc | hc
    · exact absurd hc.2.1 hchg
    · obtain ⟨_, _, _, hinv, _, _, hres⟩ := hc
      rcases hres with ⟨_, hrect, _⟩ | ⟨hok, _, _⟩
      · exact absurd hrect hchg
      · exact ⟨_, by rw [hinv]; exact List.mem_singleton_self _, hok⟩
  · intro hearly
    unfold pending_dr_sync
    by_cases hp : st.hdr.dr_pending = true
    · rw [if_pos hp, if_pos hearly]
    · rw [if_neg hp]
  · rintro ⟨inv, hm, hfail⟩
    rcases pending_dr_sync_cases h st env with hc | hc
    · rw [hc.1] at hm
      simp at hm
    · obtain ⟨hp, _, _, hinv, _, _, hres⟩ := hc
      rw [hinv, List.mem_singleton] at hm
      rcases hres with ⟨_, hrect, hpend⟩ | ⟨hok, _, _⟩
      · exact ⟨hrect, by rw [hpend, hp]⟩
      · rw [hm] at hfail
        exact absurd hok hfail

/-- Witness for C14: in the sample run the first rectangle was sent by the first
tick, and the second, whose first send failed, by the last tick. -/
theorem damage_never_dropped_witness :
    sent_or_pending { x := 100, y := 50, width := 8, height := 2 }
      (run_dr sample_inputs head0 7 (run_dr_init dr_start)) ∧
    (run_dr sample_inputs head0 7 (run_dr_init dr_start)).2.map (fun inv => (inv.ret, inv.msg))
      = [(0, { left := 10, top := 10, right := 15, bottom := 15, rect_id := 0, head_id := 3 }),
         (-11, { left := 100, top := 50, right := 108, bottom := 52, rect_id := 1, head_id := 3 }),
         (0, { left := 100, top := 50, right := 108, bottom := 52, rect_id := 2, head_id := 3 })] :=
  ⟨(damage_never_dropped sample_inputs head0 7 dr_start
      { now := 0, send := { send_ts := 0, send_len := 0, errno := 0 } }).1
      { x := 100, y := 50, width := 8, height := 2 }
      (by simp [sample_inputs, damage_at, tick_at, received])
      ⟨by decide, by decide⟩,
    by decide⟩

end Headctl

namespace Uxenstor

/-! ## Binding the ring -/

/-- Claim C16. `uxenstor_v4v_ring_init` binds port `V4V_STOR_PORT_BASE +
host_id` with a ring of `V4V_STOR_RING_LEN` bytes. It returns 0 exactly when the
bind returned a valid pointer (neither NULL nor an error pointer), and then
`recv_ring` is that ring; for NULL it returns `-ENOMEM`; for an error pointer it
returns the errno encoded in it, a value in `[-MAX_ERRNO, -1]`; in both failure
cases `recv_ring` is NULL afterwards. -/
theorem ring_init_result (dev : uxenstor_dev) (bind_ptr : Nat) (ring : List Dgram)
    (hptr : bind_ptr < 2 ^ 64) :
    (uxenstor_v4v_ring_init dev bind_ptr ring).2.2
      = [Event.ring_bind (V4V_STOR_PORT_BASE + dev.host_id) V4V_STOR_RING_LEN] ∧
    ((uxenstor_v4v_ring_init dev bind_ptr ring).1 = 0 ↔
      bind_ptr ≠ 0 ∧ IS_ERR bind_ptr = false) ∧
    ((uxenstor_v4v_ring_init dev bind_ptr ring).1 = 0 →
      (uxenstor_v4v_ring_init dev bind_ptr ring).2.1.recv_ring = some ring) ∧
    (bind_ptr = 0 →
      (uxenstor_v4v_ring_init dev bind_ptr ring).1 = -ENOMEM ∧
      (uxenstor_v4v_ring_init dev bind_ptr ring).2.1.recv_ring = none) ∧
    (IS_ERR bind_ptr = true →
      (uxenstor_v4v_ring_init dev bind_ptr ring).1 = (bind_ptr : Int) - 2 ^ 64 ∧
      -(MAX_ERRNO : Int) ≤ (uxenstor_v4v_ring_init dev bind_ptr ring).1 ∧
      (uxenstor_v4v_ring_init dev bind_ptr ring).1 < 0 ∧
      (uxenstor_v4v_ring_init dev bind_ptr ring).2.1.recv_ring = none) := by
  have herr : IS_ERR bind_ptr = true →
      bind_ptr ≠ 0 ∧ to_int (PTR_ERR bind_ptr % 2 ^ 64).toNat = (bind_ptr : Int) - 2 ^ 64
        ∧ -(MAX_ERRNO : Int) ≤ (bind_ptr : Int) - 2 ^ 64 ∧ (bind_ptr : Int) - 2 ^ 64 < 0 := by
    intro h
    simp only [IS_ERR, MAX_ERRNO, decide_eq_true_eq] at h
    have hmod : bind_ptr % 2 ^ 64 = bind_ptr := Nat.mod_eq_of_lt hptr
    have hbig : ¬ bind_ptr % 2 ^ 64 < 2 ^ 63 := by omega
    have h1 : PTR_ERR bind_ptr = (bind_ptr : Int) - 2 ^ 64 := by
      unfold PTR_ERR
      rw [if_neg hbig, hmod]
    have h2 : (PTR_ERR bind_ptr % 2 ^ 64).toNat = bind_ptr := by
      rw [h1]
      have : ((bind_ptr : Int) - 2 ^ 64) % 2 ^ 64 = (bind_ptr : Int) := by
        rw [Int.sub_emod, Int.emod_self, sub_zero, Int.emod_emod_of_dvd _ (dvd_refl _)]
        exact Int.emod_eq_of_lt (by omega) (by omega)
      rw [this]
      exact Int.toNat_ofNat bind_ptr
    refine ⟨by omega, ?_, by simp only [MAX_ERRNO]; omega, by omega⟩
    rw [h2]
    unfold to_int
    have h3 : ¬ bind_ptr % 2 ^ 32 < 2 ^ 31 := by omega
    rw [if_neg h3]
    omega
  unfold uxenstor_v4v_ring_init
  by_cases h0 : bind_ptr = 0
  · subst h0
    simp [IS_ERR, MAX_ERRNO, ENOMEM]
  · rw [if_neg h0]
    by_cases he : IS_ERR bind_ptr = true
    · obtain ⟨_, e2, e3, e4⟩ := herr he
      rw [if_pos he]
      refine ⟨rfl, ?_, ?_, ?_, ?_⟩
      · dsimp only
        rw [e2]
        constructor
        · intro h; omega
        · intro h; rw [he] at h; exact absurd h.2 (by decide)
      · intro h
        dsimp only at h
        rw [e2] at h
        omega
      · intro h; exact absurd h h0
      · intro _
        dsimp only
        rw [e2]
        exact ⟨rfl, e3, e4, rfl⟩
    · rw [if_neg he]
      refine ⟨rfl, ?_, ?_, ?_, ?_⟩
      · simp [h0, he]
      · intro _; rfl
      · intro h; exact absurd h h0
      · intro h; exact absurd h he

/-- Witness for C16: the bind returns `ERR_PTR(-EINVAL)`, a valid pointer, and
NULL. -/
theorem ring_init_result_witness :
    (uxenstor_v4v_ring_init dev_unbound (2 ^ 64 - 22) []).1 = ((2 ^ 64 - 22 : Nat) : Int) - 2 ^ 64 ∧
    (uxenstor_v4v_ring_init dev_unbound 0xffff888000001000 []).2.1.recv_ring = some [] ∧
    (uxenstor_v4v_ring_init dev_unbound 0 []).1 = -ENOMEM :=
  ⟨((ring_init_result dev_unbound (2 ^ 64 - 22) [] (by decide)).2.2.2.2 (by decide)).1,
    (ring_init_result dev_unbound 0xffff888000001000 [] (by decide)).2.2.1 (by decide),
    ((ring_init_result dev_unbound 0 [] (by decide)).2.2.2.1 rfl).1⟩

/-! ## The drain loop and its budget -/

theorem consume_calls_append (a b : List Event) :
    consume_calls (a ++ b) = consume_calls a + consume_calls b := by
  induction a with
  | nil => simp [consume_calls]
  | cons e a ih =>
    cases e with
    | copy_out buf buflen consume =>
      cases consume <;> simp [consume_calls, ih]
      omega
    | _ => simp [consume_calls, ih]

theorem sg_loop_quiet (sgs : List scatterlist) (j copied buflen : Nat) :
    consume_calls (softirq_sg_loop sgs j copied buflen) = 0 ∧
    Event.tasklet_schedule ∉ softirq_sg_loop sgs j copied buflen := by
  induction sgs generalizing j copied buflen with
  | nil => simp [softirq_sg_loop, consume_calls]
  | cons sg rest ih =>
    unfold softirq_sg_loop
    split
    · simp [consume_calls]
    · obtain ⟨h1, h2⟩ := ih (j + 1)
        (copied + if sg.length > buflen then buflen else sg.length)
        (buflen - if sg.length > buflen then buflen else sg.length)
      simp only [consume_calls, List.mem_cons, not_or]
      exact ⟨h1, by simp, h2⟩

/-- The reply handling neither consumes the datagram nor schedules the
tasklet. -/
theorem softirq_reply_quiet (hdr : XFER_HEADER) (sc : scsi_cmnd) :
    consume_calls (softirq_reply hdr sc).2 = 0 ∧
    Event.tasklet_schedule ∉ (softirq_reply hdr sc).2 := by
  unfold softirq_reply
  split
  · split <;> simp [consume_calls]
  · split
    · split
      · simp [consume_calls]
      · dsimp only
        split
        · exact sg_loop_quiet _ _ _ _
        · split
          · split <;> simp [consume_calls]
          · simp [consume_calls]
    · simp [consume_calls]

/-- One pass of the loop either ends in `BUG_ON` having consumed nothing, or
consumes exactly the datagram at the head of the ring and adds its length to
`readlen`; it never schedules the tasklet. -/
theorem softirq_iter_budget (d : Dgram) (seq_map : idr) (readlen : Nat) :
    Event.tasklet_schedule ∉ (softirq_iter d seq_map readlen).events ∧
    ((softirq_iter d seq_map readlen).bug = true →
      consume_calls (softirq_iter d seq_map readlen).events = 0 ∧
      (softirq_iter d seq_map readlen).readlen = readlen) ∧
    ((softirq_iter d seq_map readlen).bug = false →
      consume_calls (softirq_iter d seq_map readlen).events = 1 ∧
      (softirq_iter d seq_map readlen).readlen = readlen + d.len) := by
  have hlen : (if d.len > 0 then readlen + d.len else readlen) = readlen + d.len := by
    split <;> omega
  unfold softirq_iter
  dsimp only
  split
  · simp [consume_calls, hlen]
  · split
    · simp [consume_calls]
    · rename_i sc _
      obtain ⟨q1, q2⟩ := softirq_reply_quiet d.hdr sc
      simp [consume_calls_append, consume_calls, q1, q2, hlen]

/-- The loop drains a front part of the ring, one datagram per pass, and stops
only in `BUG_ON`, on an empty ring, or once more than `V4V_STOR_RING_LEN` bytes
were consumed. -/
theorem softirq_loop_drains (ring : List Dgram) (seq_map : idr) (readlen : Nat) :
    Event.tasklet_schedule ∉ (softirq_loop ring seq_map readlen).events ∧
    ∃ drained : List Dgram, ring = drained ++ (softirq_loop ring seq_map readlen).ring ∧
      consume_calls (softirq_loop ring seq_map readlen).events = drained.length ∧
      (softirq_loop ring seq_map readlen).readlen
        = readlen + (drained.map (fun d => d.len)).sum ∧
      ((softirq_loop ring seq_map readlen).bug = true
        ∨ (softirq_loop ring seq_map readlen).ring = []
        ∨ V4V_STOR_RING_LEN < (softirq_loop ring seq_map readlen).readlen) := by
  induction ring generalizing seq_map readlen with
  | nil =>
    refine ⟨?_, [], ?_⟩
    · simp only [softirq_loop]
      split <;> simp
    · simp only [softirq_loop]
      split <;> simp [consume_calls]
  | cons d rest ih =>
    obtain ⟨i1, i2, i3⟩ := softirq_iter_budget d seq_map readlen
    unfold softirq_loop
    by_cases hb : readlen ≤ V4V_STOR_RING_LEN
    · rw [if_pos hb]
      dsimp only
      by_cases hbug : (softirq_iter d seq_map readlen).bug = true
      · rw [if_pos hbug]
        obtain ⟨c1, c2⟩ := i2 hbug
        exact ⟨i1, [], by simp [c1, c2]⟩
      · rw [if_neg hbug]
        have hbug2 : (softirq_iter d seq_map readlen).bug = false := by simpa using hbug
        obtain ⟨c1, c2⟩ := i3 hbug2
        obtain ⟨r1, drained, r2, r3, r4, r5⟩ :=
          ih (softirq_iter d seq_map readlen).seq_map (softirq_iter d seq_map readlen).readlen
        refine ⟨?_, d :: drained, ?_, ?_, ?_, r5⟩
        · simp only [List.mem_append, not_or]
          exact ⟨i1, r1⟩
        · simp only [List.cons_append]
          rw [← r2]
        · simp only [consume_calls_append, c1, r3, List.length_cons]
          omega
        · rw [r4, c2]
          simp only [List.map_cons, List.sum_cons]
          omega
    · rw [if_neg hb]
      refine ⟨by simp, [], by simp [consume_calls], by simp [consume_calls], by simp, ?_⟩
      right; right
      exact Nat.lt_of_not_le hb

/-- Claim C17, as the code has it. On each wakeup with a bound ring
`uxenstor_softirq` drains a front part of the ring one datagram per pass and
stops only on an empty ring, once more than `V4V_STOR_RING_LEN` bytes were
consumed in this invocation, or in `BUG_ON`. It never schedules its own tasklet:
when it stops on the budget the datagrams not yet drained stay in the ring, and
its last call is `uxen_v4v_notify`, as after every invocation that consumed
bytes. -/
theorem softirq_drains_without_reschedule (uxstor : uxenstor_dev) (ring : List Dgram)
    (hring : uxstor.recv_ring = some ring) :
    Event.tasklet_schedule ∉ (uxenstor_softirq uxstor).2.1 ∧
    ∃ drained rest : List Dgram, ring = drained ++ rest ∧
      (uxenstor_softirq uxstor).1.recv_ring = some rest ∧
      consume_calls (uxenstor_softirq uxstor).2.1 = drained.length ∧
      ((uxenstor_softirq uxstor).2.2 = true ∨ rest = []
        ∨ V4V_STOR_RING_LEN < (drained.map (fun d => d.len)).sum) ∧
      ((uxenstor_softirq uxstor).2.2 = false →
        V4V_STOR_RING_LEN < (drained.map (fun d => d.len)).sum →
        (uxenstor_softirq uxstor).2.1.getLast? = some Event.v4v_notify) := by
  obtain ⟨l1, drained, l2, l3, l4, l5⟩ := softirq_loop_drains ring uxstor.seq_map 0
  simp only [Nat.zero_add] at l4
  unfold uxenstor_softirq
  simp only [hring]
  refine ⟨?_, drained, (softirq_loop ring uxstor.seq_map 0).ring, l2, rfl, ?_, ?_, ?_⟩
  · split
    · exact l1
    · split
      · simp only [List.mem_append, not_or]
        exact ⟨l1, by simp⟩
      · exact l1
  · split
    · exact l3
    · split
      · simp only [consume_calls_append, l3, consume_calls, Nat.add_zero]
      · exact l3
  · rw [← l4]
    exact l5
  · intro hbug hover
    have hne : (softirq_loop ring uxstor.seq_map 0).readlen ≠ 0 := by
      rw [l4]
      omega
    simp only [hbug, Bool.false_eq_true, if_false, hne, ne_eq, not_false_eq_true, if_true]
    simp

/-- Witness for the amended C17: the sample device over budget. -/
theorem softirq_drains_without_reschedule_witness :
    Event.tasklet_schedule ∉ (uxenstor_softirq dev_over_budget).2.1 :=
  (softirq_drains_without_reschedule dev_over_budget
    [bulk_reply 6 600000, bulk_reply 5 600000, bulk_reply 9 64] rfl).1

/-- Counterexample to C17 as stated: with two replies of 600000 bytes ahead of a
third datagram, the tasklet stops after the second reply because more than
`V4V_STOR_RING_LEN` bytes were consumed; the third datagram remains in the ring,
nothing went wrong (no `BUG_ON`), and yet no `tasklet_schedule` is among its
calls: it does not re-trigger itself. -/
theorem softirq_budget_counterexample :
    (uxenstor_softirq dev_over_budget).2.2 = false ∧
    (uxenstor_softirq dev_over_budget).1.recv_ring = some [bulk_reply 9 64] ∧
    consume_calls (uxenstor_softirq dev_over_budget).2.1 = 2 ∧
    Event.tasklet_schedule ∉ (uxenstor_softirq dev_over_budget).2.1 := by
  decide

end Uxenstor

namespace Domctl

/-! ## Blocked and running domains -/

/-- What the loop over the vcpus leaves in the two flag bits and the count of
online vcpus. -/
theorem scan_vcpus (vcpus : List vcpu) (st : vcpu_scan) :
    ((vcpus.foldl scan_vcpu st).flags_blocked = true ↔
      st.flags_blocked = true ∧ ∀ v ∈ vcpus, v.down = false → v.blocked = true) ∧
    ((vcpus.foldl scan_vcpu st).flags_running = true ↔
      st.flags_running = true ∨ ∃ v ∈ vcpus, v.down = false ∧ v.is_running = true) ∧
    ((vcpus.foldl scan_vcpu st).nr_online_vcpus ≠ 0 ↔
      st.nr_online_vcpus ≠ 0 ∨ ∃ v ∈ vcpus, v.down = false) := by
  induction vcpus generalizing st with
  | nil => simp
  | cons v rest ih =>
    obtain ⟨h1, h2, h3⟩ := ih (scan_vcpu st v)
    simp only [List.foldl_cons, h1, h2, h3, List.mem_cons, forall_eq_or_imp, exists_eq_or_imp]
    have hb : (scan_vcpu st v).flags_blocked = true ↔
        st.flags_blocked = true ∧ (v.down = false → v.blocked = true) := by
      unfold scan_vcpu
      cases v.down <;> cases v.blocked <;> cases v.is_running <;> simp
    have hr : (scan_vcpu st v).flags_running = true ↔
        st.flags_running = true ∨ (v.down = false ∧ v.is_running = true) := by
      unfold scan_vcpu
      cases v.down <;> cases v.blocked <;> cases v.is_running <;> simp
    have hn : (scan_vcpu st v).nr_online_vcpus ≠ 0 ↔
        st.nr_online_vcpus ≠ 0 ∨ v.down = false := by
      unfold scan_vcpu
      cases v.down <;> cases v.blocked <;> cases v.is_running <;> simp
    rw [hb, hr, hn]
    exact ⟨and_assoc, or_assoc, or_assoc⟩

/-- Claim C18, as the code has it. `getdomaininfo` puts `XEN_DOMINF_blocked` in
`info->flags` exactly when the domain has an online vcpu (one without
`VPF_down`) and all its online vcpus are blocked, and puts `XEN_DOMINF_running`
there exactly when one of its online vcpus is running; offline vcpus do not
count for either. -/
theorem getdomaininfo_blocked_running (d : domain) (max_vcpu_id : Nat) :
    ((getdomaininfo d max_vcpu_id).flags.blocked = true ↔
      (∃ v ∈ d.vcpus, v.down = false) ∧ ∀ v ∈ d.vcpus, v.down = false → v.blocked = true) ∧
    ((getdomaininfo d max_vcpu_id).flags.running = true ↔
      ∃ v ∈ d.vcpus, v.down = false ∧ v.is_running = true) := by
  obtain ⟨h1, h2, h3⟩ := scan_vcpus d.vcpus
    { cpu_time := 0, flags_blocked := true, flags_running := false,
      max_vcpu_id := max_vcpu_id, nr_online_vcpus := 0 }
  simp only [ne_eq, not_true_eq_false, false_or, true_and, Bool.false_eq_true] at h1 h2 h3
  unfold getdomaininfo
  dsimp only
  constructor
  · by_cases hn : (d.vcpus.foldl scan_vcpu
        { cpu_time := 0, flags_blocked := true, flags_running := false,
          max_vcpu_id := max_vcpu_id, nr_online_vcpus := 0 }).nr_online_vcpus ≠ 0
    · rw [if_pos hn, h1]
      exact ⟨fun h => ⟨h3.mp hn, h⟩, fun h => h.2⟩
    · rw [if_neg hn]
      constructor
      · intro h; exact absurd h (by decide)
      · intro h; exact absurd (h3.mpr h.1) hn
  · by_cases hn : (d.vcpus.foldl scan_vcpu
        { cpu_time := 0, flags_blocked := true, flags_running := false,
          max_vcpu_id := max_vcpu_id, nr_online_vcpus := 0 }).nr_online_vcpus ≠ 0
    · rw [if_pos hn, h2]
    · rw [if_neg hn]
      constructor
      · intro h; exact absurd h (by decide)
      · rintro ⟨v, hv, hd, _⟩
        exact absurd (h3.mpr ⟨v, hv, hd⟩) hn

/-- Counterexample to C18 as stated: vcpu 1 of the sample domain is offline and
not blocked, yet the domain is marked blocked because its only online vcpu is
blocked. -/
theorem getdomaininfo_offline_vcpu_counterexample :
    (getdomaininfo dom_one_offline 0).flags.blocked = true ∧
    ¬ (∀ v ∈ dom_one_offline.vcpus, v.blocked = true) := by
  decide

end Domctl

namespace SharedFolders

/-! ## Longest path match -/

/-- The loop of `find_entry_for_path` never changes `maxlen` and ends with the
last matching entry. -/
theorem find_entry_fold (towlower : Nat → Nat) (rootpath mapname path : wstr)
    (entries : List folder_opt_entry) (st : find_state) (h0 : st.maxlen = 0) :
    (entries.foldl (find_entry_step towlower rootpath mapname path) st).maxlen = 0 ∧
    (entries.foldl (find_entry_step towlower rootpath mapname path) st).found
      = ((entries.filter (entry_matches towlower rootpath mapname path)).getLast?).or
          st.found := by
  induction entries generalizing st with
  | nil => simp [h0]
  | cons e rest ih =>
    have hstep : (find_entry_step towlower rootpath mapname path st e).maxlen = 0 ∧
        (find_entry_step towlower rootpath mapname path st e).found
          = if entry_matches towlower rootpath mapname path e then some e else st.found := by
      unfold find_entry_step
      by_cases hm : entry_matches towlower rootpath mapname path e = true
      · have hge : ((e.subfolder.length : Nat) : Int) ≥ st.maxlen := by
          rw [h0]; exact Int.ofNat_nonneg _
        simp [hm, hge, h0]
      · simp [hm, h0]
    obtain ⟨i1, i2⟩ := ih (find_entry_step towlower rootpath mapname path st e) hstep.1
    simp only [List.foldl_cons]
    refine ⟨i1, ?_⟩
    rw [i2, hstep.2, List.filter_cons]
    by_cases hm : entry_matches towlower rootpath mapname path e = true
    · simp only [hm, if_true]
      cases hf : List.filter (entry_matches towlower rootpath mapname path) rest with
      | nil => simp
      | cons a l =>
        have hx : (a :: l).getLast? = some ((a :: l).getLast (by simp)) :=
          List.getLast?_eq_getLast _ _
        rw [List.getLast?_cons_cons, hx]
        rfl
    · simp only [hm, Bool.false_eq_true, if_false]

/-- What `find_entry_for_path` computes: the last entry of the list that
matches, whatever the subfolder lengths. -/
theorem find_entry_for_path_last (towlower : Nat → Nat) (rootpath mapname path : wstr)
    (entries : List folder_opt_entry) :
    find_entry_for_path towlower (some rootpath) (some mapname) entries path
      = (entries.filter (entry_matches towlower rootpath mapname path)).getLast? := by
  unfold find_entry_for_path
  simp only
  rw [(find_entry_fold towlower rootpath mapname path entries _ rfl).2]
  simp

/-- Claim C19, at the failing input. With option entries for the subfolders
`a\b` and `a` of the same mapping, in this order, both matching the queried path
`C:\r\a\b\f`, `find_entry_for_path` returns the entry for `a`, although the entry
for `a\b` matches with a longer subfolder. -/
theorem find_entry_for_path_not_longest :
    find_entry_for_path towlower_ascii (some sample_root) (some sample_mapname)
      [entry_ab, entry_a] sample_path = some entry_a ∧
    entry_matches towlower_ascii sample_root sample_mapname sample_path entry_ab = true ∧
    entry_matches towlower_ascii sample_root sample_mapname sample_path entry_a = true ∧
    entry_a.subfolder.length < entry_ab.subfolder.length := by
  decide

end SharedFolders

namespace UxenDisplay

/-! ## Validated mode fields -/

theorem bank_reg_write_crtcs (s : uxendisp_state) (bank_id addr val : Nat) :
    (bank_reg_write s bank_id addr val).crtcs = s.crtcs := by
  unfold bank_reg_write
  split <;> rfl

/-- A mode that passes the checks of `crtc_flush` is within the limits and has a
valid format. -/
theorem mode_accepted_bounds (hw : uxdisp_hw) (crtc : crtc_state)
    (h : mode_accepted hw crtc = true) :
    crtc.regs.xres ≤ UXENDISP_XRES_MAX ∧ crtc.regs.yres ≤ UXENDISP_YRES_MAX ∧
    crtc.regs.stride ≤ UXENDISP_STRIDE_MAX ∧
    fmt_valid hw (int_of_unsigned crtc.regs.format) = true := by
  unfold mode_accepted at h
  dsimp only at h
  split at h
  · exact absurd h (by decide)
  · rename_i hlim
    split at h
    · exact absurd h (by decide)
    · rename_i hfmt
      simp only [not_or, not_lt, gt_iff_lt] at hlim
      exact ⟨hlim.1, hlim.2.1, hlim.2.2, by simpa using hfmt⟩

/-- The validated fields of a CRTC are not touched by a change of its other
fields. -/
theorem crtc_validated_of_same (hw : uxdisp_hw) (a b : crtc_state)
    (h : crtc_validated hw a) (hx : b.xres = a.xres) (hy : b.yres = a.yres)
    (hs : b.stride = a.stride) (hf : b.format = a.format) : crtc_validated hw b := by
  unfold crtc_validated at h ⊢
  rw [hx, hy, hs, hf]
  exact h

theorem mem_of_get_some (l : List crtc_state) (i : Nat) (c : crtc_state)
    (h : l[i]? = some c) : c ∈ l := by
  rw [List.mem_iff_getElem?]
  exact ⟨i, h⟩

theorem validated_set (hw : uxdisp_hw) (l : List crtc_state) (i : Nat) (c : crtc_state)
    (hl : ∀ x ∈ l, crtc_validated hw x) (hc : crtc_validated hw c) :
    ∀ x ∈ l.set i c, crtc_validated hw x := by
  intro x hx
  rcases List.mem_or_eq_of_mem_set hx with h | h
  · exact hl x h
  · rw [h]; exact hc

/-- The function `crtc_flush` keeps the validated fields valid. -/
theorem crtc_flush_validated (hw : uxdisp_hw) (s : uxendisp_state) (i : Nat)
    (hs : ∀ x ∈ s.crtcs, crtc_validated hw x) :
    ∀ x ∈ (crtc_flush hw s i).crtcs, crtc_validated hw x := by
  unfold crtc_flush
  cases hget : s.crtcs[i]? with
  | none => exact hs
  | some crtc =>
    have hcrtc : crtc_validated hw crtc := hs crtc (mem_of_get_some _ _ _ hget)
    dsimp only
    split
    · split
      · split
        · rename_i hacc
          obtain ⟨b1, b2, b3, b4⟩ := mode_accepted_bounds hw crtc hacc
          dsimp only
          apply validated_set
          · split
            · rw [bank_reg_write_crtcs]; exact hs
            · exact hs
          · exact ⟨b1, b2, b3, Or.inl b4⟩
        · exact hs
      · exact validated_set hw _ _ _ hs
          (crtc_validated_of_same hw crtc _ hcrtc rfl rfl rfl rfl)
    · exact validated_set hw _ _ _ hs
        (crtc_validated_of_same hw crtc _ hcrtc rfl rfl rfl rfl)

/-- The function `crtc_write` keeps the validated fields valid. -/
theorem crtc_write_validated (hw : uxdisp_hw) (s : uxendisp_state) (i : Nat) (reg : crtc_reg)
    (val : Nat) (hs : ∀ x ∈ s.crtcs, crtc_validated hw x) :
    ∀ x ∈ (crtc_write hw s i reg val).crtcs, crtc_validated hw x := by
  unfold crtc_write
  cases hget : s.crtcs[i]? with
  | none => exact hs
  | some crtc =>
    have hcrtc : crtc_validated hw crtc := hs crtc (mem_of_get_some _ _ _ hget)
    cases reg with
    | OFFSET =>
      apply crtc_flush_validated
      exact validated_set hw _ _ _ hs (crtc_validated_of_same hw crtc _ hcrtc rfl rfl rfl rfl)
    | other => exact hs
    | _ =>
      exact validated_set hw _ _ _ hs (crtc_validated_of_same hw crtc _ hcrtc rfl rfl rfl rfl)

/-- The function `uxendisp_mmio_write` keeps the validated fields valid. -/
theorem mmio_write_validated (hw : uxdisp_hw) (s : uxendisp_state) (addr val size : Nat)
    (hs : ∀ x ∈ s.crtcs, crtc_validated hw x) :
    ∀ x ∈ (uxendisp_mmio_write hw s addr val size).crtcs, crtc_validated hw x := by
  unfold uxendisp_mmio_write
  split
  · exact hs
  · split
    · exact crtc_write_validated hw s _ _ _ hs
    · rw [bank_reg_write_crtcs]; exact hs
    · exact hs
    · exact hs
    · exact crtc_flush_validated hw _ 0 hs
    · exact hs
    · exact hs

/-- Every operation on the device keeps the validated fields valid. -/
theorem dev_step_validated (hw : uxdisp_hw) (s : uxendisp_state) (op : DevOp)
    (hs : ∀ x ∈ s.crtcs, crtc_validated hw x) :
    ∀ x ∈ (dev_step hw s op).crtcs, crtc_validated hw x := by
  cases op with
  | mmio_write addr val size => exact mmio_write_validated hw s addr val size hs
  | pio_write addr val size =>
    simp only [dev_step, uxendisp_pio_write]
    split
    · exact hs
    · split
      · exact hs
      · split
        · exact mmio_write_validated hw s _ _ _ hs
        · exact hs
  | regs_store crtc_id regs =>
    intro x hx
    simp only [dev_step] at hx
    rw [List.mem_iff_getElem?] at hx
    obtain ⟨n, hn⟩ := hx
    rw [List.getElem?_modify] at hn
    cases hget : s.crtcs[n]? with
    | none => rw [hget] at hn; simp at hn
    | some c =>
      rw [hget] at hn
      have hc : crtc_validated hw c := hs c (mem_of_get_some _ _ _ hget)
      have hn2 := Option.some.inj hn
      rw [← hn2]
      split
      · exact crtc_validated_of_same hw c _ hc rfl rfl rfl rfl
      · exact hc
  | update =>
    simp only [dev_step]
    split
    · split
      · split
        · exact crtc_flush_validated hw s 0 hs
        · exact hs
      · exact hs
    · exact hs
  | post_load =>
    intro x hx
    simp only [dev_step, List.mem_map] at hx
    obtain ⟨c, hc, rfl⟩ := hx
    exact crtc_validated_of_same hw c _ (hs c hc) rfl rfl rfl rfl

theorem dev_run_validated (hw : uxdisp_hw) (ops : List DevOp) (s : uxendisp_state)
    (hs : ∀ x ∈ s.crtcs, crtc_validated hw x) :
    ∀ x ∈ (dev_run hw ops s).crtcs, crtc_validated hw x := by
  induction ops generalizing s with
  | nil => exact hs
  | cons op rest ih => exact ih _ (dev_step_validated hw s op hs)

theorem dev_init_validated (hw : uxdisp_hw) :
    ∀ x ∈ (dev_init hw).crtcs, crtc_validated hw x := by
  intro x hx
  simp only [dev_init, List.mem_map] at hx
  obtain ⟨i, _, rfl⟩ := hx
  exact ⟨Nat.zero_le _, Nat.zero_le _, Nat.zero_le _, Or.inr rfl⟩

/-- Claim C20. In every state the device reaches from its initial state through
guest MMIO and PIO writes (and guest stores to the register pages, console
refreshes and `post_load`), every CRTC has `xres <= 23170`, `yres <= 23170`,
`stride <= 92683` and a format that `fmt_valid` accepts or the initial zero;
hence `stride * yres < 2 ^ 31`. A `crtc_flush` of CRTC 0 that rejects the mode in
the registers returns without changing the device at all. -/
theorem validated_fields_invariant (hw : uxdisp_hw) (ops : List DevOp) :
    (∀ crtc ∈ (dev_run hw ops (dev_init hw)).crtcs,
      crtc_validated hw crtc ∧ crtc.stride * crtc.yres < 2 ^ 31) ∧
    (∀ (s : uxendisp_state) (crtc : crtc_state), s.crtcs[0]? = some crtc →
      s.mode &&& hw.UXDISP_MODE_VGA_DISABLED ≠ 0 → crtc.regs.enable ≠ 0 →
      mode_accepted hw crtc = false → crtc_flush hw s 0 = s) := by
  constructor
  · intro crtc hc
    have hv := dev_run_validated hw ops (dev_init hw) (dev_init_validated hw) crtc hc
    refine ⟨hv, ?_⟩
    obtain ⟨_, h2, h3, _⟩ := hv
    unfold UXENDISP_YRES_MAX at h2
    unfold UXENDISP_STRIDE_MAX at h3
    calc crtc.stride * crtc.yres ≤ 92683 * 23170 := Nat.mul_le_mul h3 h2
      _ < 2 ^ 31 := by decide
  · intro s crtc hget hmode hen hrej
    unfold crtc_flush
    simp only [hget]
    rw [if_pos ⟨trivial, hmode⟩, if_pos hen, hrej]
    rfl

/-- Witness for C20: after a valid 1024 x 768 mode the guest asks for a width of
30000; the flush rejects it and the validated fields keep the old mode. -/
theorem validated_fields_invariant_witness :
    (∀ crtc ∈ (dev_run sample_hw sample_ops (dev_init sample_hw)).crtcs,
      crtc_validated sample_hw crtc ∧ crtc.stride * crtc.yres < 2 ^ 31) ∧
    modes (dev_run sample_hw sample_ops (dev_init sample_hw))
      = [(1024, 768, 4096, 0), (0, 0, 0, 0)] :=
  ⟨(validated_fields_invariant sample_hw sample_ops).1, by decide⟩

end UxenDisplay

namespace UxenNet

/-! ## Polling receive -/


theorem sleeps_poll_trace (l : List Nat) (last : Int) : sleeps (poll_trace l last) = l := by
  induction l with
  | nil => by_cases h : 0 < last <;> simp [poll_trace, h, sleeps]
  | cons w l ih =>
    have e : poll_trace (w :: l) last
        = PollEvent.receiveFromRing :: PollEvent.IOSleep w :: poll_trace l last := by
      simp [poll_trace]
    rw [e]
    simp only [sleeps, ih]

theorem poll_trace_cons (w : Nat) (l : List Nat) (last : Int) :
    poll_trace (w :: l) last
      = PollEvent.receiveFromRing :: PollEvent.IOSleep w :: poll_trace l last := by
  simp [poll_trace]

/-- The loop of `receivePacket` from any pass on. -/
theorem receivePacket_loop_spec (poll : Nat → Int) (timeout_ms : Nat) (ht : timeout_ms < 2 ^ 32)
    (hpoll : ∀ k, poll k < 2 ^ 32) :
    ∀ fuel k total next, total ≤ timeout_ms →
      (total < timeout_ms → 1 ≤ next ∧ next ≤ total + 1) →
      timeout_ms - total < fuel →
      ∃ l : List Nat, ∃ pktSize : Nat,
        receivePacket_loop poll timeout_ms fuel k total next
          = some (pktSize, poll_trace l (poll (k + l.length))) ∧
        total + l.sum ≤ timeout_ms ∧
        (∀ i, i + 1 < l.length → l[i]? = some (next + i)) ∧
        (∀ x ∈ l.getLast?, 1 ≤ x ∧ x ≤ next + (l.length - 1)) ∧
        (∀ j, j < l.length → poll (k + j) ≤ 0) ∧
        (poll (k + l.length) ≤ 0 → pktSize = 0 ∧ total + l.sum = timeout_ms) ∧
        (0 < poll (k + l.length) → (pktSize : Int) = min (poll (k + l.length)) 1518) := by
  intro fuel
  induction fuel with
  | zero => intro k total next _ _ hf; omega
  | succ fuel ih =>
    intro k total next htot hinv hf
    unfold receivePacket_loop
    dsimp only
    by_cases hp : poll k > 0
    · rw [if_pos hp]
      refine ⟨[], min ((poll k).toNat % 2 ^ 32) 1518, ?_, ?_, ?_, ?_, ?_, ?_, ?_⟩
      · simp [poll_trace, hp]
      · simpa using htot
      · intro i hi; simp at hi
      · intro x hx; simp at hx
      · intro j hj; simp at hj
      · intro h; simp at h; omega
      · intro _
        simp only [List.length_nil, Nat.add_zero]
        have h1 := hpoll k
        have h2 : (poll k).toNat < 2 ^ 32 := by omega
        rw [Nat.mod_eq_of_lt h2]
        omega
    · rw [if_neg hp]
      by_cases hto : total ≥ timeout_ms
      · rw [if_pos hto]
        refine ⟨[], 0, ?_, ?_, ?_, ?_, ?_, ?_, ?_⟩
        · simp [poll_trace, hp]
        · simpa using htot
        · intro i hi; simp at hi
        · intro x hx; simp at hx
        · intro j hj; simp at hj
        · intro _; simp; omega
        · intro h; simp at h; omega
      · rw [if_neg hto]
        obtain ⟨hn1, hn2⟩ := hinv (by omega)
        have hw : min ((timeout_ms - total) % 2 ^ 32) next = min (timeout_ms - total) next := by
          rw [Nat.mod_eq_of_lt (by omega)]
        rw [hw]
        have hw1 : 1 ≤ min (timeout_ms - total) next := by omega
        have hw2 : total + min (timeout_ms - total) next ≤ timeout_ms := by omega
        rw [Nat.mod_eq_of_lt (show total + min (timeout_ms - total) next < 2 ^ 32 by omega)]
        have hk : ∀ j, k + 1 + j = k + (j + 1) := fun j => by omega
        by_cases hend : total + min (timeout_ms - total) next < timeout_ms
        · -- not the last sleep: the full interval was slept
          have hfull : min (timeout_ms - total) next = next := by omega
          rw [Nat.mod_eq_of_lt (show next + 1 < 2 ^ 32 by omega)]
          obtain ⟨l, p, e, s1, s2, s3, s4, s5, s6⟩ :=
            ih (k + 1) (total + min (timeout_ms - total) next) (next + 1) hw2
              (fun _ => by omega) (by omega)
          rw [hk] at e s5 s6
          rw [e]
          refine ⟨min (timeout_ms - total) next :: l, p, ?_, ?_, ?_, ?_, ?_, ?_, ?_⟩
          · rw [poll_trace_cons]; rfl
          · simp only [List.sum_cons]; omega
          · intro i hi
            cases i with
            | zero => simp [hfull]
            | succ i =>
              simp only [List.length_cons] at hi
              simp only [List.getElem?_cons_succ]
              rw [s2 i (by omega)]
              congr 1; omega
          · intro x hx
            cases l with
            | nil =>
              simp at hx
              subst hx
              simp only [List.length_cons, List.length_nil]
              omega
            | cons y l2 =>
              rw [List.getLast?_cons_cons] at hx
              have := s3 x hx
              simp only [List.length_cons] at this ⊢
              omega
          · intro j hj
            cases j with
            | zero => simpa using Int.not_lt.mp hp
            | succ j =>
              simp only [List.length_cons] at hj
              have := s4 j (by omega)
              rw [hk] at this
              exact this
          · intro h
            simp only [List.length_cons] at h ⊢
            obtain ⟨a, b⟩ := s5 h
            refine ⟨a, ?_⟩
            simp only [List.sum_cons]; omega
          · intro h
            simp only [List.length_cons] at h ⊢
            exact s6 h
        · -- the last sleep: the time is used up
          have hsum : total + min (timeout_ms - total) next = timeout_ms := by omega
          rw [hsum]
          cases fuel with
          | zero => omega
          | succ fuel2 =>
            unfold receivePacket_loop
            dsimp only
            by_cases hq : poll (k + 1) > 0
            · rw [if_pos hq]
              refine ⟨[min (timeout_ms - total) next],
                min ((poll (k + 1)).toNat % 2 ^ 32) 1518, ?_, ?_, ?_, ?_, ?_, ?_, ?_⟩
              · simp [poll_trace, hq]
              · simp only [List.sum_cons, List.sum_nil]; omega
              · intro i hi; simp at hi
              · intro x hx
                simp at hx
                subst hx
                simp only [List.length_cons, List.length_nil]
                omega
              · intro j hj
                simp only [List.length_cons, List.length_nil] at hj
                have : j = 0 := by omega
                subst this
                simpa using Int.not_lt.mp hp
              · intro h; simp at h; omega
              · intro _
                simp only [List.length_cons, List.length_nil]
                have h1 := hpoll (k + 1)
                have h2 : (poll (k + 1)).toNat < 2 ^ 32 := by omega
                rw [Nat.mod_eq_of_lt h2]
                simp only [Nat.zero_add]
                omega
            · rw [if_neg hq, if_pos (Nat.le_refl _)]
              refine ⟨[min (timeout_ms - total) next], 0, ?_, ?_, ?_, ?_, ?_, ?_, ?_⟩
              · simp [poll_trace, hq]
              · simp only [List.sum_cons, List.sum_nil]; omega
              · intro i hi; simp at hi
              · intro x hx
                simp at hx
                subst hx
                simp only [List.length_cons, List.length_nil]
                omega
              · intro j hj
                simp only [List.length_cons, List.length_nil] at hj
                have : j = 0 := by omega
                subst this
                simpa using Int.not_lt.mp hp
              · intro _
                refine ⟨rfl, ?_⟩
                simp only [List.sum_cons, List.sum_nil]
                omega
              · intro h; simp at h; omega

/-- Claim C21. For every `timeout_ms` (a `UInt32`) and every sequence of poll
results below 2^32 (the code relies on it: a message is at most `UINT32_MAX`
long), `receivePacket` returns after at most `timeout_ms + 1` passes. It sleeps
`1, 2, 3, ...` ms between polls, only the last sleep possibly shorter, never more
than `timeout_ms` in total, and every poll before a sleep found nothing. When its
last poll found nothing either it has slept exactly `timeout_ms` and
`*pktSize = 0`; when a poll returns `n > 0` that poll is the last call but
`notify`, so it returns at once, with `*pktSize = min(n, 1518)`. -/
theorem receivePacket_polls_until_timeout (poll : Nat → Int) (timeout_ms fuel : Nat)
    (ht : timeout_ms < 2 ^ 32) (hpoll : ∀ k, poll k < 2 ^ 32) (hfuel : timeout_ms < fuel) :
    ∃ l : List Nat, ∃ pktSize : Nat,
      receivePacket poll timeout_ms fuel = some (pktSize, poll_trace l (poll l.length)) ∧
      l.sum ≤ timeout_ms ∧
      (∀ i, i + 1 < l.length → l[i]? = some (i + 1)) ∧
      (∀ x ∈ l.getLast?, 1 ≤ x ∧ x ≤ l.length) ∧
      (∀ j, j < l.length → poll j ≤ 0) ∧
      (poll l.length ≤ 0 → pktSize = 0 ∧ l.sum = timeout_ms) ∧
      (0 < poll l.length → (pktSize : Int) = min (poll l.length) 1518) := by
  obtain ⟨l, p, e, s1, s2, s3, s4, s5, s6⟩ :=
    receivePacket_loop_spec poll timeout_ms ht hpoll fuel 0 0 1 (Nat.zero_le _)
      (fun _ => ⟨Nat.le_refl _, Nat.le_refl _⟩) (by omega)
  simp only [Nat.zero_add] at e s1 s4 s5 s6
  refine ⟨l, p, e, s1, ?_, ?_, s4, s5, s6⟩
  · intro i hi
    rw [s2 i hi, Nat.add_comm]
  · intro x hx
    have h := s3 x hx
    have hl : l ≠ [] := by
      intro h0; subst h0; simp at hx
    have := List.length_pos.mpr hl
    omega

/-- Witness for C21: with a timeout of 12 ms and an empty ring the sleeps are
1, 2, 3, 4 and 2 ms; with a packet of 60 bytes at the fourth poll the method
returns after the sleeps 1, 2 and 3 with `*pktSize = 60`. -/
theorem receivePacket_polls_until_timeout_witness :
    (∃ l : List Nat, ∃ pktSize : Nat,
      receivePacket poll_empty 12 13 = some (pktSize, poll_trace l (poll_empty l.length)) ∧
      l.sum ≤ 12 ∧
      (∀ i, i + 1 < l.length → l[i]? = some (i + 1)) ∧
      (∀ x ∈ l.getLast?, 1 ≤ x ∧ x ≤ l.length) ∧
      (∀ j, j < l.length → poll_empty j ≤ 0) ∧
      (poll_empty l.length ≤ 0 → pktSize = 0 ∧ l.sum = 12) ∧
      (0 < poll_empty l.length → (pktSize : Int) = min (poll_empty l.length) 1518)) ∧
    receivePacket poll_empty 12 13 = some (0, poll_trace [1, 2, 3, 4, 2] 0) ∧
    receivePacket poll_fourth 12 13 = some (60, poll_trace [1, 2, 3] 60) :=
  ⟨receivePacket_polls_until_timeout poll_empty 12 13 (by decide) (fun _ => by simp [poll_empty])
    (by decide), by decide, by decide⟩

end UxenNet

namespace UxenDisplay

/-! ## The page-count check of `crtc_draw` -/

/-- Claim C22, at the failing input. After the guest has set a valid mode of 2
lines of 4096 bytes and then written 0xFFFFF000 to the offset register of CRTC
0, the offset stays in `crtc->offset` although `crtc_flush` rejects the mode.
In `crtc_draw` the 32-bit sum `offset + stride * yres + 4095` wraps, `npages` is
1 and the page-count check passes; yet the bank index is 127, not below
`UXENDISP_NB_BANKS`, and `dirty` is read at page index 0xFFFFF, not below
`npages`. -/
theorem crtc_draw_offset_wraps :
    (crtc_draw sample_hw quiet_env (dev_run sample_hw wrap_ops (dev_init sample_hw)) 0).2
      = some { bank_id := 127, npages := 1, reads := [0xFFFFF, 0] } ∧
    ¬ ((127 : Int) < sample_hw.UXENDISP_NB_BANKS) ∧
    ¬ (∀ pagei ∈ [0xFFFFF, 0], ((pagei : Nat) : Int) < 1) ∧
    modes (dev_run sample_hw wrap_ops (dev_init sample_hw)) = [(16, 2, 4096, 0), (0, 0, 0, 0)] := by
  decide

end UxenDisplay

namespace Domctl

/-! ## Domain references in `do_domctl` -/

theorem locks_by_id_append (d : Nat) (a b : List Call) :
    locks_by_id d (a ++ b) = locks_by_id d a + locks_by_id d b := by
  induction a with
  | nil => simp [locks_by_id]
  | cons c a ih =>
    cases c with
    | rcu_lock_domain_by_id i x =>
      cases x <;> simp [locks_by_id, ih, Nat.add_assoc]
    | _ => simp [locks_by_id, ih]

theorem locks_by_uuid_append (d : Nat) (a b : List Call) :
    locks_by_uuid d (a ++ b) = locks_by_uuid d a + locks_by_uuid d b := by
  induction a with
  | nil => simp [locks_by_uuid]
  | cons c a ih =>
    cases c with
    | rcu_lock_domain_by_uuid x =>
      cases x <;> simp [locks_by_uuid, ih, Nat.add_assoc]
    | _ => simp [locks_by_uuid, ih]

theorem unlocks_append (d : Nat) (a b : List Call) :
    unlocks d (a ++ b) = unlocks d a + unlocks d b := by
  induction a with
  | nil => simp [unlocks]
  | cons c a ih =>
    cases c <;> simp [unlocks, ih, Nat.add_assoc]

/-- The function `do_domctl_max_vcpus` releases the reference of its caller on
its two error returns and keeps it on the return after `domain_set_max_vcpus`. -/
theorem do_domctl_max_vcpus_unlocks (env : DomctlEnv) (d max : Nat) :
    unlocks d (do_domctl_max_vcpus env d max).2
      = if d = env.current_domain ∨ max > env.MAX_VIRT_CPUS ∨
            (env.is_hvm_domain = true ∧ max > env.MAX_HVM_VCPUS) ∨ env.xsm ≠ 0
        then 1 else 0 := by
  unfold do_domctl_max_vcpus
  by_cases h1 : d = env.current_domain ∨ max > env.MAX_VIRT_CPUS ∨
      (env.is_hvm_domain = true ∧ max > env.MAX_HVM_VCPUS)
  · rw [if_pos h1, if_pos (by tauto)]
    simp [unlocks]
  · rw [if_neg h1]
    by_cases h2 : env.xsm ≠ 0
    · rw [if_pos h2, if_pos (by tauto)]
      simp [unlocks]
    · rw [if_neg h2, if_neg (by tauto)]
      simp [unlocks]

/-- Every case of the second `switch` but `XEN_DOMCTL_max_vcpus` releases each
reference exactly once. -/
theorem do_domctl_case_balanced (env : DomctlEnv) (h : env.cmd ≠ Cmd.XEN_DOMCTL_max_vcpus)
    (d : Nat) :
    unlocks d (do_domctl_case env).2
      = locks_by_id d (do_domctl_case env).2 + locks_by_uuid d (do_domctl_case env).2 := by
  unfold do_domctl_case
  cases hc : env.cmd <;> (try exact absurd hc h) <;> (try dsimp only) <;>
    cases env.second_lookup <;> (try dsimp only) <;> (try split) <;> (try split) <;>
    (try split) <;> simp [unlocks, locks_by_id, locks_by_uuid] <;> (try omega)

/-- Claim C23, at the failing input. For `XEN_DOMCTL_max_vcpus` with a `max`
above `MAX_VIRT_CPUS`, `do_domctl` takes two references to the domain (one in
the access check, one in the case of the command) and calls `rcu_unlock_domain`
on it three times: `do_domctl_max_vcpus` releases the second reference on its
error return and the caller releases it again. -/
theorem do_domctl_max_vcpus_double_unlock :
    (do_domctl env_too_many_vcpus).1 = -EINVAL ∧
    locks_by_id 7 (do_domctl env_too_many_vcpus).2 = 2 ∧
    unlocks 7 (do_domctl env_too_many_vcpus).2 = 3 ∧
    (do_domctl env_too_many_vcpus).2
      = [Call.rcu_lock_domain_by_id 7 (some 7), Call.rcu_unlock_domain 7,
         Call.domctl_lock_acquire,
         Call.rcu_lock_domain_by_id 7 (some 7), Call.rcu_unlock_domain 7,
         Call.rcu_unlock_domain 7, Call.domctl_lock_release] := by
  decide

end Domctl

namespace SharedFolders

/-! ## The path prefix test -/

theorem skip_marker_eq (s : wstr) :
    skip_marker s = if long_path_marker <+: s then s.drop long_path_marker.length else s := by
  unfold skip_marker wcsncmp_eq
  have h : (long_path_marker.take 4 == s.take 4) = true ↔ long_path_marker <+: s := by
    rw [List.prefix_iff_eq_take]
    simp [long_path_marker]
  by_cases hp : long_path_marker <+: s
  · rw [if_pos hp, if_pos (h.mpr hp)]; rfl
  · rw [if_neg hp, if_neg (fun h2 => hp (h.mp h2))]

theorem skip_seps_eq (s : wstr) :
    skip_seps s = s.dropWhile (fun c => c = PATH_SEP ∨ c = PATH_SEP_ALT) := by
  induction s with
  | nil => rfl
  | cons c rest ih =>
    unfold skip_seps
    by_cases h : c = PATH_SEP ∨ c = PATH_SEP_ALT
    · have h2 : is_sep c = true := by simpa [is_sep] using h
      rw [if_pos h2, ih]
      simp [List.dropWhile, h]
    · have h2 : ¬ is_sep c = true := by simpa [is_sep] using h
      rw [if_neg h2]
      simp [List.dropWhile, h]

theorem strip_eq (s : wstr) : skip_seps (skip_marker s) = strip_spec s := by
  rw [skip_seps_eq, skip_marker_eq]
  rfl

theorem strip_spec_mem (s : wstr) (c : Nat) (h : c ∈ strip_spec s) : c ∈ s := by
  unfold strip_spec at h
  have h1 := (List.dropWhile_sublist _).subset h
  split at h1
  · exact List.mem_of_mem_drop h1
  · exact h1

/-- The comparison loop and the final test, on strings of nonzero characters. -/
theorem prefix_loop_iff (towlower : Nat → Nat) :
    ∀ (p q : wstr), (∀ c ∈ p, c ≠ 0) → (∀ c ∈ q, c ≠ 0) →
      (prefix_loop towlower q p = true ↔
        p.length ≤ q.length ∧
        (∀ i, i < p.length → (q[i]?).map towlower = (p[i]?).map towlower) ∧
        (q[p.length]? = none ∨ q[p.length]? = some PATH_SEP
          ∨ q[p.length]? = some PATH_SEP_ALT)) := by
  intro p
  induction p with
  | nil =>
    intro q _ hq
    cases q with
    | nil => simp [prefix_loop, deref]
    | cons a q =>
      have ha : a ≠ 0 := hq a (List.mem_cons_self _ _)
      simp [prefix_loop, deref, is_sep, ha]
  | cons b p ih =>
    intro q hp hq
    have hb : b ≠ 0 := hp b (List.mem_cons_self _ _)
    cases q with
    | nil => simp [prefix_loop, deref, hb]
    | cons a q =>
      unfold prefix_loop
      have hrec := ih q (fun c hc => hp c (List.mem_cons_of_mem _ hc))
        (fun c hc => hq c (List.mem_cons_of_mem _ hc))
      by_cases hab : towlower a = towlower b
      · rw [if_neg (not_not.mpr hab), hrec]
        simp only [List.length_cons, Nat.add_le_add_iff_right, List.getElem?_cons_succ]
        constructor
        · rintro ⟨h1, h2, h3⟩
          refine ⟨h1, ?_, h3⟩
          intro i hi
          cases i with
          | zero => simp [hab]
          | succ i => simpa using h2 i (by omega)
        · rintro ⟨h1, h2, h3⟩
          refine ⟨h1, ?_, h3⟩
          intro i hi
          simpa using h2 (i + 1) (by omega)
      · rw [if_pos hab]
        simp only [Bool.false_eq_true, false_iff, not_and]
        intro _ h2
        have := h2 0 (by simp)
        simp at this
        exact absurd this hab

/-- Claim C26. For strings of nonzero characters, `is_path_prefixof(prefix,
path)` is nonzero exactly when, with one leading `\\?\` marker and then all
leading separators removed from each, `prefix` equals under `towlower` the first
`|prefix|` characters of `path` and the next character of `path` is a separator
or the end; `is_path_prefixof(p, p)` holds for every `p`, and `ab` is not a path
prefix of `abc`. -/
theorem is_path_prefixof_iff (towlower : Nat → Nat) (pfx path : wstr)
    (hpfx : ∀ c ∈ pfx, c ≠ 0) (hpath : ∀ c ∈ path, c ≠ 0) :
    (is_path_prefixof towlower pfx path = true ↔ path_prefix_spec towlower pfx path) ∧
    is_path_prefixof towlower pfx pfx = true ∧
    is_path_prefixof towlower [97, 98] [97, 98, 99] = false := by
  have hp2 : ∀ c ∈ strip_spec pfx, c ≠ 0 := fun c hc => hpfx c (strip_spec_mem pfx c hc)
  have hq2 : ∀ c ∈ strip_spec path, c ≠ 0 := fun c hc => hpath c (strip_spec_mem path c hc)
  refine ⟨?_, ?_, ?_⟩
  · unfold is_path_prefixof path_prefix_spec
    rw [strip_eq, strip_eq]
    exact prefix_loop_iff towlower _ _ hp2 hq2
  · unfold is_path_prefixof
    rw [strip_eq]
    rw [prefix_loop_iff towlower _ _ hp2 hp2]
    refine ⟨Nat.le_refl _, fun _ _ => rfl, Or.inl ?_⟩
    simp
  · simp [is_path_prefixof, skip_marker, wcsncmp_eq, long_path_marker, skip_seps, is_sep,
      PATH_SEP, PATH_SEP_ALT, prefix_loop, deref]

/-- Witness for C26: `\\?\C:\Docs` is a path prefix of `\c:\docs\a.txt` under
the ASCII `towlower`. -/
theorem is_path_prefixof_iff_witness :
    ((is_path_prefixof towlower_ascii sample_prefix_marked sample_path_lower = true ↔
        path_prefix_spec towlower_ascii sample_prefix_marked sample_path_lower) ∧
      is_path_prefixof towlower_ascii sample_prefix_marked sample_prefix_marked = true ∧
      is_path_prefixof towlower_ascii [97, 98] [97, 98, 99] = false) ∧
    is_path_prefixof towlower_ascii sample_prefix_marked sample_path_lower = true :=
  ⟨is_path_prefixof_iff towlower_ascii sample_prefix_marked sample_path_lower (by decide)
    (by decide), by decide⟩

end SharedFolders

namespace SharedFolders

/-! ## Loading what was saved -/

theorem qemu_get_be32_put (v : Nat) (rest : QEMUFile) (hv : v < 2 ^ 32) :
    qemu_get_be32 (be32 v ++ rest) = (v, rest) := by
  unfold qemu_get_be32 be32
  simp only [List.cons_append, List.nil_append, List.getD_cons_zero, List.getD_cons_succ,
    List.drop_succ_cons, List.drop_zero, Prod.mk.injEq, and_true]
  omega

theorem qemu_get_be64_put (v : Nat) (rest : QEMUFile) (hv : v < 2 ^ 64) :
    qemu_get_be64 (be32 (v / 2 ^ 32) ++ (be32 (v % 2 ^ 32) ++ rest)) = (v, rest) := by
  unfold qemu_get_be64
  dsimp only
  rw [qemu_get_be32_put _ _ (by omega)]
  dsimp only
  rw [qemu_get_be32_put _ _ (by omega)]
  dsimp only
  congr 1
  omega

theorem be32_mod (v : Nat) : be32 (v % 2 ^ 32) = be32 v := by
  unfold be32
  congr 1
  · omega
  congr 1
  · omega
  congr 1
  · omega
  congr 1
  omega

theorem wchar_bytes_length (s : wstr) : (wchar_bytes s).length = 2 * s.length := by
  induction s with
  | nil => rfl
  | cons c s ih => simp only [wchar_bytes, List.length_cons, ih]; omega

theorem wstr_of_wchar_bytes (s : wstr) (h : ∀ c ∈ s, c ≠ 0 ∧ c < 2 ^ 16) :
    wstr_of_bytes (wchar_bytes s) = s := by
  induction s with
  | nil => rfl
  | cons c s ih =>
    obtain ⟨h0, h1⟩ := h c (List.mem_cons_self _ _)
    have e : c % 256 + 256 * (c / 256 % 256) = c := by omega
    simp only [wchar_bytes, wstr_of_bytes, e, if_neg h0]
    rw [ih (fun x hx => h x (List.mem_cons_of_mem _ hx))]

theorem get_wstr_put (s buf : wstr) (rest : QEMUFile) (hs : wstr_ok s) :
    get_wstr (be32 (s.length % 2 ^ 32) ++ (wchar_bytes s ++ rest)) buf = (s, rest) := by
  obtain ⟨hl, hc⟩ := hs
  unfold SUBFOLDER_PATHMAX at hl
  have hl2 : s.length % 2 ^ 32 = s.length := Nat.mod_eq_of_lt (by omega)
  unfold get_wstr
  dsimp only
  rw [hl2, qemu_get_be32_put _ _ (by omega)]
  dsimp only
  have hlen : int_of_be32 s.length = (s.length : Int) := by
    unfold int_of_be32
    rw [hl2, if_pos (by omega)]
  rw [hlen]
  have h512 : (s.length : Int) < (SUBFOLDER_PATHMAX : Int) := by
    unfold SUBFOLDER_PATHMAX; omega
  rw [if_pos h512]
  unfold qemu_get_buffer
  have hn : ((s.length : Int) * 2).toNat = (wchar_bytes s).length := by
    rw [wchar_bytes_length]; omega
  rw [hn, List.take_left, List.drop_left, wstr_of_wchar_bytes s hc]

theorem state_save_bytes (L : List folder_opt_entry) (f : QEMUFile) :
    L.foldl (fun f e => qemu_put_be64 (put_wstr (put_wstr f e.mapname) e.subfolder)
        (e.opts % 2 ^ 64)) f
      = f ++ L.flatMap entry_bytes := by
  induction L generalizing f with
  | nil => simp
  | cons e L ih =>
    rw [List.foldl_cons, ih]
    simp only [List.flatMap_cons, entry_bytes, qemu_put_be64, put_wstr, qemu_put_buffer,
      qemu_put_be32, List.append_assoc]

theorem load_loop_saved (L : List folder_opt_entry) (hL : ∀ e ∈ L, entry_ok e) :
    ∀ (entries : List folder_opt_entry) (rest : QEMUFile),
      load_loop L.length (L.flatMap entry_bytes ++ rest) entries = (entries ++ L, rest) := by
  induction L with
  | nil => intro entries rest; simp [load_loop]
  | cons e L ih =>
    intro entries rest
    obtain ⟨h1, h2, h3⟩ := hL e (List.mem_cons_self _ _)
    have e1 : (e :: L).flatMap entry_bytes ++ rest
        = be32 (e.mapname.length % 2 ^ 32) ++ (wchar_bytes e.mapname
          ++ (be32 (e.subfolder.length % 2 ^ 32) ++ (wchar_bytes e.subfolder
          ++ (be32 (e.opts / 2 ^ 32) ++ (be32 (e.opts % 2 ^ 32)
          ++ (L.flatMap entry_bytes ++ rest)))))) := by
      have hm : e.opts % 2 ^ 64 = e.opts := Nat.mod_eq_of_lt h3
      simp only [List.flatMap_cons, entry_bytes, List.append_assoc, hm, be32_mod]
    rw [e1]
    simp only [List.length_cons, load_loop]
    rw [get_wstr_put _ _ _ h1]
    dsimp only
    rw [get_wstr_put _ _ _ h2]
    dsimp only
    rw [qemu_get_be64_put _ _ h3]
    dsimp only
    rw [ih (fun x hx => hL x (List.mem_cons_of_mem _ hx))]
    simp

/-- Claim C25, as the code has it. For every list `L` of fewer than 2^32 option
entries whose strings have fewer than `SUBFOLDER_PATHMAX` characters,
`state_load` applied to what `state_save` wrote for `L` (whatever follows it in
the file) reads exactly those bytes and leaves the option list equal to `L` when
`L` is not empty, whatever the list held before; when `L` is empty it leaves the
list as it was before the load. -/
theorem state_load_state_save (L old : List folder_opt_entry) (rest : QEMUFile)
    (hlen : L.length < 2 ^ 32) (hL : ∀ e ∈ L, entry_ok e) :
    state_load (state_save [] L ++ rest) old = (if L = [] then old else L, rest) := by
  unfold state_load state_save
  dsimp only
  rw [state_save_bytes, Nat.mod_eq_of_lt hlen]
  simp only [qemu_put_be32, List.nil_append, List.append_assoc]
  rw [qemu_get_be32_put _ _ hlen]
  dsimp only
  rw [load_loop_saved L hL]
  by_cases h : L = []
  · subst h; simp
  · have h2 : L.length ≠ 0 := fun h3 => h (List.length_eq_zero.mp h3)
    rw [if_pos h2, if_neg h]
    simp

/-- Witness for the amended C25: two entries saved and loaded over a list that
held a third. -/
theorem state_load_state_save_witness :
    state_load (state_save [] [entry_ab, entry_a] ++ [1, 2, 3]) [entry_root]
      = (if [entry_ab, entry_a] = [] then [entry_root] else [entry_ab, entry_a], [1, 2, 3]) :=
  state_load_state_save [entry_ab, entry_a] [entry_root] [1, 2, 3] (by decide)
    (by decide)

/-- Counterexample to C25 as stated: the file written for the empty list, loaded
over a list that holds one entry, leaves that entry in the list. -/
theorem state_load_empty_keeps_old_counterexample :
    (state_load (state_save [] []) [entry_root]).1 = [entry_root] ∧
    (state_load (state_save [] []) [entry_root]).1 ≠ [] := by
  decide

end SharedFolders

namespace Patcher

/-! ## Correctness of the pattern search -/

theorem matches_ending_succ (t p : Nat → Nat) (q i : Nat) :
    matches_ending t p (q + 1) (i + 1) ↔ matches_ending t p q i ∧ t i = p q := by
  unfold matches_ending
  have e : i + 1 - (q + 1) = i - q := by omega
  rw [e]
  constructor
  · rintro ⟨h1, h2⟩
    have h3 : q ≤ i := by omega
    refine ⟨⟨h3, fun j hj => h2 j (by omega)⟩, ?_⟩
    have := h2 q (by omega)
    rwa [Nat.sub_add_cancel h3] at this
  · rintro ⟨⟨h1, h2⟩, h3⟩
    refine ⟨by omega, fun j hj => ?_⟩
    by_cases hq : j = q
    · subst hq
      rw [Nat.sub_add_cancel h1]
      exact h3
    · exact h2 j (by omega)

theorem matches_ending_border (t p : Nat → Nat) (q q2 i : Nat) (h : matches_ending t p q i)
    (hlt : q2 < q) :
    matches_ending t p q2 i ↔ matches_ending (shifted p) p q2 (q - 1) := by
  obtain ⟨h1, h2⟩ := h
  unfold matches_ending shifted
  constructor
  · rintro ⟨_, h4⟩
    refine ⟨by omega, fun j hj => ?_⟩
    have a := h2 (q - q2 + j) (by omega)
    have b := h4 j hj
    have e1 : i - q + (q - q2 + j) = i - q2 + j := by omega
    have e2 : q - 1 - q2 + j + 1 = q - q2 + j := by omega
    rw [e1] at a
    rw [e2, ← a, b]
  · rintro ⟨_, h4⟩
    refine ⟨by omega, fun j hj => ?_⟩
    have a := h2 (q - q2 + j) (by omega)
    have b := h4 j hj
    have e1 : i - q + (q - q2 + j) = i - q2 + j := by omega
    have e2 : q - 1 - q2 + j + 1 = q - q2 + j := by omega
    rw [e1] at a
    rw [e2] at b
    rw [a, b]

/-- The loop that falls back along `pi` ends within `q + 1` tests at the longest
prefix that can be extended by the character `t i`, or at the empty prefix. -/
theorem kmp_back_spec (t p : Nat → Nat) (pi : Nat → Int) (m i : Nat) (hpi : pi_ok p pi m) :
    ∀ fuel q, q < fuel → q ≤ m → matches_ending t p q i →
      (∀ q2, matches_ending t p q2 i → p q2 = t i → q2 ≤ q) →
      ∃ r : Nat, kmp_back pi p (t i) fuel ((q : Int) - 1) = some ((r : Int) - 1) ∧
        matches_ending t p r i ∧ r ≤ q ∧ (r = 0 ∨ p r = t i) ∧
        (∀ q2, matches_ending t p q2 i → p q2 = t i → q2 ≤ r) := by
  intro fuel
  induction fuel with
  | zero => intro q hq; omega
  | succ fuel ih =>
    intro q hq hm hmatch hmax
    unfold kmp_back
    have e1 : ((q : Int) - 1 + 1).toNat = q := by omega
    rw [e1]
    by_cases hc : (q : Int) - 1 > -1 ∧ p q ≠ t i
    · rw [if_pos hc]
      obtain ⟨hc1, hc2⟩ := hc
      have e2 : ((q : Int) - 1).toNat = q - 1 := by omega
      rw [e2]
      obtain ⟨b, hb, hb1, hb2⟩ := hpi (q - 1) (by omega)
      rw [hb]
      have hbq : b < q := by
        have := hb1.1
        omega
      obtain ⟨r, r1, r2, r3, r4, r5⟩ := ih b (by omega) (by omega)
        ((matches_ending_border t p q b i hmatch hbq).mpr hb1)
        (fun q2 h1 h2 => by
          have h3 := hmax q2 h1 h2
          have h4 : q2 ≠ q := fun h5 => hc2 (h5 ▸ h2)
          exact hb2 q2 ((matches_ending_border t p q q2 i hmatch (by omega)).mp h1))
      exact ⟨r, r1, r2, by omega, r4, r5⟩
    · rw [if_neg hc]
      refine ⟨q, rfl, hmatch, Nat.le_refl _, ?_, hmax⟩
      by_cases h0 : q = 0
      · exact Or.inl h0
      · right
        by_contra h1
        exact hc ⟨by omega, h1⟩

/-- One pass of either loop takes the longest prefix ending before index `i` to
the longest prefix ending before index `i + 1`. -/
theorem kmp_step_spec (t p : Nat → Nat) (pi : Nat → Int) (m i : Nat) (hpi : pi_ok p pi m)
    (fuel q : Nat) (hq : q < fuel) (hm : q ≤ m) (hlong : longest_ending t p q i) :
    ∃ k1 : Int, ∃ q2 : Nat, kmp_back pi p (t i) fuel ((q : Int) - 1) = some k1 ∧
      (if t i = p (k1 + 1).toNat then k1 + 1 else k1) = (q2 : Int) - 1 ∧
      q2 ≤ q + 1 ∧ longest_ending t p q2 (i + 1) := by
  obtain ⟨r, r1, r2, r3, r4, r5⟩ := kmp_back_spec t p pi m i hpi fuel q hq hm hlong.1
    (fun q2 h _ => hlong.2 q2 h)
  have e1 : ((r : Int) - 1 + 1).toNat = r := by omega
  by_cases hc : t i = p r
  · refine ⟨(r : Int) - 1, r + 1, r1, ?_, by omega, ?_, ?_⟩
    · rw [e1, if_pos hc]; push_cast; ring
    · exact (matches_ending_succ t p r i).mpr ⟨r2, hc⟩
    · intro q2 h2
      cases q2 with
      | zero => omega
      | succ q3 =>
        obtain ⟨a, b⟩ := (matches_ending_succ t p q3 i).mp h2
        have := r5 q3 a b.symm
        omega
  · have hr0 : r = 0 := by
      rcases r4 with h | h
      · exact h
      · exact absurd h.symm hc
    refine ⟨(r : Int) - 1, 0, r1, ?_, by omega, ?_, ?_⟩
    · rw [e1, if_neg hc, hr0]
    · exact ⟨Nat.zero_le _, fun j hj => absurd hj (Nat.not_lt_zero _)⟩
    · intro q2 h2
      cases q2 with
      | zero => omega
      | succ q3 =>
        obtain ⟨a, b⟩ := (matches_ending_succ t p q3 i).mp h2
        have h3 := r5 q3 a b.symm
        have h4 : q3 = 0 := by omega
        subst h4
        rw [hr0] at hc
        exact absurd b hc

/-- The loop of `pre_kmp` fills `pi` with the failure function of the pattern. -/
theorem pre_kmp_loop_spec (p : Nat → Nat) (fuel psize : Nat) (hf : psize ≤ fuel) :
    ∀ n i q pi, 1 ≤ i → i + n = psize → pi_ok p pi i →
      longest_ending (shifted p) p q (i - 1) →
      ∃ pi2, pre_kmp_loop p fuel n i ((q : Int) - 1) pi = some pi2 ∧ pi_ok p pi2 psize := by
  intro n
  induction n with
  | zero =>
    intro i q pi _ hi hpi _
    have : i = psize := by omega
    subst this
    exact ⟨pi, rfl, hpi⟩
  | succ n ih =>
    intro i q pi h1 hi hpi hlong
    have hqi : q ≤ i - 1 := hlong.1.1
    obtain ⟨k1, q2, s1, s2, s3, s4⟩ :=
      kmp_step_spec (shifted p) p pi i (i - 1) hpi fuel q (by omega) (by omega) hlong
    have e : shifted p (i - 1) = p i := by
      unfold shifted
      rw [Nat.sub_add_cancel h1]
    rw [e] at s1 s2
    have e2 : i - 1 + 1 = i := Nat.sub_add_cancel h1
    rw [e2] at s4
    unfold pre_kmp_loop
    rw [s1]
    dsimp only
    rw [s2]
    apply ih (i + 1) q2 _ (by omega) (by omega)
    · intro j hj
      by_cases hji : j = i
      · subst hji
        exact ⟨q2, by simp, s4⟩
      · rw [Function.update_noteq hji]
        exact hpi j (by omega)
    · exact s4

theorem pre_kmp_spec (pi : Nat → Int) (p : Nat → Nat) (psize fuel : Nat) (hp : 1 ≤ psize)
    (hf : psize ≤ fuel) :
    ∃ pi2, pre_kmp pi p psize fuel = some pi2 ∧ pi_ok p pi2 psize := by
  have h0 : longest_ending (shifted p) p 0 0 :=
    ⟨⟨Nat.le_refl _, fun j hj => absurd hj (Nat.not_lt_zero _)⟩, fun q2 h => h.1⟩
  unfold pre_kmp
  have := pre_kmp_loop_spec p fuel psize hf (psize - 1) 1 0 (Function.update pi 0 (-1))
    (Nat.le_refl _) (by omega)
    (fun j hj => by
      have : j = 0 := by omega
      subst this
      exact ⟨0, by simp, h0⟩)
    h0
  simpa using this

/-- The loop of `kmp` returns the start of the first occurrence that ends within
the passes left, and -1 when there is none. -/
theorem kmp_loop_spec (t p : Nat → Nat) (pi : Nat → Int) (psize fuel : Nat)
    (hpi : pi_ok p pi psize) (hf : psize ≤ fuel) :
    ∀ n i q, q < psize → longest_ending t p q i →
      (∀ i2, i2 ≤ i → ¬ matches_ending t p psize i2) →
      ∃ r : Int, kmp_loop pi t p psize fuel n i ((q : Int) - 1) = some r ∧
        ((r = -1 ∧ ∀ i2, i2 ≤ i + n → ¬ matches_ending t p psize i2) ∨
         (∃ s : Nat, r = (s : Int) ∧ s + psize ≤ i + n ∧ matches_ending t p psize (s + psize) ∧
            ∀ i2, i2 < s + psize → ¬ matches_ending t p psize i2)) := by
  intro n
  induction n with
  | zero =>
    intro i q _ _ hno
    exact ⟨-1, rfl, Or.inl ⟨rfl, hno⟩⟩
  | succ n ih =>
    intro i q hq hlong hno
    obtain ⟨k1, q2, s1, s2, s3, s4⟩ :=
      kmp_step_spec t p pi psize i hpi fuel q (by omega) (by omega) hlong
    unfold kmp_loop
    rw [s1]
    dsimp only
    rw [s2]
    by_cases hfull : (q2 : Int) - 1 = (psize : Int) - 1
    · rw [if_pos hfull]
      have hq2 : q2 = psize := by omega
      subst hq2
      have hle : q2 ≤ i + 1 := s4.1.1
      refine ⟨(i : Int) - ((q2 : Int) - 1), rfl, Or.inr ⟨i + 1 - q2, by omega, by omega, ?_, ?_⟩⟩
      · rw [Nat.sub_add_cancel hle]; exact s4.1
      · intro i2 hi2
        exact hno i2 (by omega)
    · rw [if_neg hfull]
      have hq2 : q2 < psize := by omega
      obtain ⟨r, r1, r2⟩ := ih (i + 1) q2 hq2 s4
        (fun i2 hi2 hmatch => by
          by_cases h : i2 = i + 1
          · subst h
            have := s4.2 psize hmatch
            omega
          · exact hno i2 (by omega) hmatch)
      refine ⟨r, r1, ?_⟩
      have e : i + 1 + n = i + (n + 1) := by omega
      rw [e] at r2
      exact r2

theorem occurs_at_iff (t p : Nat → Nat) (psize s : Nat) :
    occurs_at t p psize s ↔ matches_ending t p psize (s + psize) := by
  unfold occurs_at matches_ending
  rw [Nat.add_sub_cancel]
  exact ⟨fun h => ⟨Nat.le_add_left _ _, h⟩, fun h => h.2⟩

/-- Claim C24. For every target of `tsize` characters and every pattern of
`psize >= 1` characters, `kmp` returns (the loops over `pi` never take more than
`psize` tests), and it returns the smallest index `i` at which
`target[i .. i+psize-1]` equals the pattern, or -1 when the pattern does not
occur in the target; it returns -1 only then. -/
theorem kmp_first_occurrence (pi : Nat → Int) (target pattern : Nat → Nat)
    (tsize psize fuel : Nat) (hp : 1 ≤ psize) (hf : psize ≤ fuel) :
    ∃ r : Int, kmp pi target tsize pattern psize fuel = some r ∧
      (r = -1 ↔ ¬ ∃ i, i + psize ≤ tsize ∧ occurs_at target pattern psize i) ∧
      (r ≠ -1 → ∃ i : Nat, r = (i : Int) ∧ i + psize ≤ tsize ∧
        occurs_at target pattern psize i ∧
        ∀ i2, i2 < i → ¬ occurs_at target pattern psize i2) := by
  obtain ⟨pi2, e1, hpi⟩ := pre_kmp_spec pi pattern psize fuel hp hf
  have h0 : longest_ending target pattern 0 0 :=
    ⟨⟨Nat.le_refl _, fun j hj => absurd hj (Nat.not_lt_zero _)⟩, fun q2 h => h.1⟩
  obtain ⟨r, e2, hr⟩ := kmp_loop_spec target pattern pi2 psize fuel hpi hf tsize 0 0
    (by omega) h0
    (fun i2 hi2 hmatch => by
      have := hmatch.1
      omega)
  simp only [Nat.zero_add] at hr
  have e3 : ((0 : Nat) : Int) - 1 = -1 := by simp
  rw [e3] at e2
  refine ⟨r, ?_, ?_, ?_⟩
  · unfold kmp
    rw [e1]
    exact e2
  · rcases hr with ⟨h1, h2⟩ | ⟨s, h1, h2, h3, h4⟩
    · refine ⟨fun _ => ?_, fun _ => h1⟩
      rintro ⟨i, hi, hocc⟩
      exact h2 (i + psize) hi ((occurs_at_iff _ _ _ _).mp hocc)
    · constructor
      · intro h; omega
      · intro h
        exact absurd ⟨s, h2, (occurs_at_iff _ _ _ _).mpr h3⟩ h
  · intro hne
    rcases hr with ⟨h1, _⟩ | ⟨s, h1, h2, h3, h4⟩
    · exact absurd h1 hne
    · refine ⟨s, h1, h2, (occurs_at_iff _ _ _ _).mpr h3, ?_⟩
      intro i2 hi2 hocc
      exact h4 (i2 + psize) (by omega) ((occurs_at_iff _ _ _ _).mp hocc)

/-- Witness for C24: the pattern `1 2 1 3` first occurs at index 4 of the target
`1 2 1 2 1 2 1 3 1 2 1 3`. -/
theorem kmp_first_occurrence_witness :
    (∃ r : Int, kmp (fun _ => 0) (array_of [1, 2, 1, 2, 1, 2, 1, 3, 1, 2, 1, 3]) 12
        (array_of [1, 2, 1, 3]) 4 4 = some r ∧
      (r = -1 ↔ ¬ ∃ i, i + 4 ≤ 12 ∧
        occurs_at (array_of [1, 2, 1, 2, 1, 2, 1, 3, 1, 2, 1, 3]) (array_of [1, 2, 1, 3]) 4 i) ∧
      (r ≠ -1 → ∃ i : Nat, r = (i : Int) ∧ i + 4 ≤ 12 ∧
        occurs_at (array_of [1, 2, 1, 2, 1, 2, 1, 3, 1, 2, 1, 3]) (array_of [1, 2, 1, 3]) 4 i ∧
        ∀ i2, i2 < i →
          ¬ occurs_at (array_of [1, 2, 1, 2, 1, 2, 1, 3, 1, 2, 1, 3]) (array_of [1, 2, 1, 3]) 4
            i2)) ∧
    kmp (fun _ => 0) (array_of [1, 2, 1, 2, 1, 2, 1, 3, 1, 2, 1, 3]) 12
      (array_of [1, 2, 1, 3]) 4 4 = some 4 ∧
    kmp (fun _ => 0) (array_of [1, 2, 1, 2, 1, 2]) 6 (array_of [1, 2, 1, 3]) 4 4 = some (-1) :=
  ⟨kmp_first_occurrence (fun _ => 0) (array_of [1, 2, 1, 2, 1, 2, 1, 3, 1, 2, 1, 3])
    (array_of [1, 2, 1, 3]) 12 4 4 (by decide) (by decide), by decide, by decide⟩

end Patcher
